import Mathlib

/-!
Verification of the ledger consistency engine of the accounting-for-dummies
FastAPI backend.  The definitions below are a shallow embedding of
`backend/app/routers/transactions.py`, `backend/app/routers/accounts.py` and
`backend/app/routers/allocations.py`, together with the data model of
`backend/app/models/` and the validated input schemas of
`backend/app/schemas/transaction.py`.

Modelling conventions:
* Monetary amounts are exact decimals (`DECIMAL(15,2)` columns); every
  ledger rule is purely additive, so they are modelled as integers counted
  in minor units.  The informational `exchange_rate` column, which no rule
  reads, keeps a rational type.
* Python `datetime` values are modelled by `AFD.DateTime` (proleptic
  Gregorian calendar, microsecond resolution, no timezone: the router strips
  timezones via `_normalize_reference` before any comparison).
* While-loops of the budget period roller are modelled with an explicit fuel
  parameter; `none` models a non-terminating loop.
* Inert metadata columns that no ledger rule reads (`description`,
  `posting_date`, `receipt_url`, `invoice_url`, `created_at`, `updated_at`)
  are omitted from the record types.
-/

namespace AFD

/-- Budget period frequency enum, `app/models/allocation.py`
(`BudgetPeriodFrequency`: daily/weekly/monthly/quarterly). -/
inductive BudgetPeriodFrequency where
  | daily
  | weekly
  | monthly
  | quarterly
deriving DecidableEq, Repr

/-- Leap year test of the proleptic Gregorian calendar
(Python `calendar.isleap`, used by `calendar.monthrange`). -/
def isLeap (y : Nat) : Bool :=
  (y % 4 == 0 && y % 100 != 0) || y % 400 == 0

/-- Number of days in month `m` of year `y`
(Python `calendar.monthrange(year, month)[1]`). -/
def monthLength (y m : Nat) : Nat :=
  if m = 2 then (if isLeap y then 29 else 28)
  else if m = 4 ∨ m = 6 ∨ m = 9 ∨ m = 11 then 30
  else 31

/-- Number of days in year `y`. -/
def daysInYear (y : Nat) : Nat :=
  if isLeap y then 366 else 365

/-- Python naive `datetime`: a Gregorian date plus the time of day collapsed
into microseconds since midnight (`hour`/`minute`/`second`/`microsecond`). -/
structure DateTime where
  year : Nat
  month : Nat
  day : Nat
  usec : Nat
deriving DecidableEq, Repr

/-- Microseconds per day. -/
def usecPerDay : Nat := 86400000000

/-- Number of days of the proleptic Gregorian calendar strictly before
year `y` (year 1 is the first year, as in Python `datetime`). -/
def daysBeforeYear (y : Nat) : Nat :=
  let n := y - 1
  365 * n + (n / 4 + n / 400 - n / 100)

/-- Number of days of year `y` strictly before month `m`. -/
def daysBeforeMonth (y m : Nat) : Nat :=
  (List.range (m - 1)).foldl (fun acc k => acc + monthLength y (k + 1)) 0

/-- Absolute day number of a date: `0` is 0001-01-01 (Python
`datetime.toordinal()` minus one). -/
def toDayNumber (t : DateTime) : Nat :=
  daysBeforeYear t.year + daysBeforeMonth t.year t.month + (t.day - 1)

/-- Total order key of a `DateTime`: microseconds since 0001-01-01 00:00.
Python compares naive datetimes exactly in this order. -/
def DateTime.key (t : DateTime) : Nat :=
  toDayNumber t * usecPerDay + t.usec

/-- Day of the week, Monday = 0 (Python `datetime.weekday()`;
0001-01-01 is a Monday). -/
def weekday (t : DateTime) : Nat :=
  toDayNumber t % 7

/-- Locates the year containing absolute day `n`, scanning forward from year
`y`; returns the year and the remaining day-of-year offset.  The fuel is a
structural bound (each step consumes at least 365 days). -/
def yearLoop : Nat → Nat → Nat → Nat × Nat
  | 0, y, n => (y, n)
  | fuel + 1, y, n =>
      if n < daysInYear y then (y, n) else yearLoop fuel (y + 1) (n - daysInYear y)

/-- Locates the month of year `y` containing day-of-year offset `n`,
scanning forward from month `m`; returns the month and day offset. -/
def monthLoop (y : Nat) : Nat → Nat → Nat → Nat × Nat
  | 0, m, n => (m, n)
  | fuel + 1, m, n =>
      if n < monthLength y m then (m, n) else monthLoop y fuel (m + 1) (n - monthLength y m)

/-- Converts an absolute day number back to a calendar date
(year, month, day). -/
def ofDayNumber (n : Nat) : Nat × Nat × Nat :=
  let yd := yearLoop (n + 1) 1 n
  let md := monthLoop yd.1 12 1 yd.2
  (yd.1, md.1, md.2 + 1)

/-- Adds `k` (possibly negative) days to a datetime, keeping the time of day:
Python `dt + timedelta(days=k)`.  (Day numbers are clamped at 0; Python would
instead raise `OverflowError` below year 1, a case no ledger rule reaches.) -/
def DateTime.addDays (t : DateTime) (k : Int) : DateTime :=
  let n := ((toDayNumber t : Int) + k).toNat
  let d := ofDayNumber n
  { t with year := d.1, month := d.2.1, day := d.2.2 }

/-- Mirrors `_start_of_period` (transactions.py lines 29-42): truncate the
reference to midnight, then move to the start of the enclosing period.  The
source guards `frequency or MONTHLY`; its callers already default the
frequency, so this function receives it resolved. -/
def start_of_period (reference : DateTime) (frequency : BudgetPeriodFrequency) : DateTime :=
  let base : DateTime := { reference with usec := 0 }
  match frequency with
  | .daily => base
  | .weekly => base.addDays (-(weekday base : Int))
  | .monthly => { base with day := 1 }
  | .quarterly =>
      let quarter := (base.month - 1) / 3
      { base with month := quarter * 3 + 1, day := 1 }

/-- Mirrors `_add_months` (transactions.py lines 45-50): month index
arithmetic with Python floor division and modulo (the divisor 12 is positive,
so Euclidean division agrees with Python), clamping the day of month to the
target month length via `monthrange`. -/
def add_months (start : DateTime) (months : Int) : DateTime :=
  let monthIndex : Int := (start.month : Int) - 1 + months
  let year : Nat := ((start.year : Int) + monthIndex.ediv 12).toNat
  let month : Nat := (monthIndex.emod 12).toNat + 1
  let day : Nat := min start.day (monthLength year month)
  { start with year := year, month := month, day := day }

/-- Mirrors `_compute_period_end` (transactions.py lines 53-63).  The
fall-through `return start` of the source is unreachable: the enum has
exactly the four members matched here. -/
def compute_period_end (start : DateTime) (frequency : BudgetPeriodFrequency) : DateTime :=
  match frequency with
  | .daily => start.addDays 1
  | .weekly => start.addDays 7
  | .monthly => add_months start 1
  | .quarterly => add_months start 3

/-- Mirrors `_compute_previous_start` (transactions.py lines 66-76). -/
def compute_previous_start (start : DateTime) (frequency : BudgetPeriodFrequency) : DateTime :=
  match frequency with
  | .daily => start.addDays (-1)
  | .weekly => start.addDays (-7)
  | .monthly => add_months start (-1)
  | .quarterly => add_months start (-3)

/-- Forward-rolling loop of `_ensure_budget_period` (transactions.py lines
97-100): `while normalized_reference >= period_end`, advance the window by
one period.  Returns the final window and whether any iteration ran; `none`
when the fuel is exhausted with the loop guard still true. -/
def rollForward (frequency : BudgetPeriodFrequency) (reference : DateTime) :
    Nat → DateTime → DateTime → Option (DateTime × DateTime × Bool)
  | 0, s, e =>
      if e.key ≤ reference.key then none else some (s, e, false)
  | fuel + 1, s, e =>
      if e.key ≤ reference.key then
        match rollForward frequency reference fuel e (compute_period_end e frequency) with
        | some (s1, e1, _) => some (s1, e1, true)
        | none => none
      else some (s, e, false)

/-- Backward-rolling loop of `_ensure_budget_period` (transactions.py lines
102-106): `while normalized_reference < period_start`, move the window back
by one period. -/
def rollBackward (frequency : BudgetPeriodFrequency) (reference : DateTime) :
    Nat → DateTime → DateTime → Option (DateTime × DateTime × Bool)
  | 0, s, e =>
      if reference.key < s.key then none else some (s, e, false)
  | fuel + 1, s, e =>
      if reference.key < s.key then
        match rollBackward frequency reference fuel (compute_previous_start s frequency) s with
        | some (s1, e1, _) => some (s1, e1, true)
        | none => none
      else some (s, e, false)

/-! ## Data model -/

/-- Currency enum, `app/models/user.py` (`CurrencyType`). -/
inductive Currency where
  | PHP | USD | EUR | GBP | JPY | AUD | CAD | CHF | CNY | SGD
deriving DecidableEq, Repr

/-- Transaction type enum, `app/models/transaction.py` (`TransactionType`). -/
inductive TransactionType where
  | debit
  | credit
  | transfer
deriving DecidableEq, Repr

/-- Allocation type enum, `app/models/allocation.py` (`AllocationType`). -/
inductive AllocationType where
  | savings
  | budget
  | goal
deriving DecidableEq, Repr

/-- Recurrence frequency enum, `app/models/transaction.py`
(`RecurrenceFrequency`), also the cadence values of budget entries. -/
inductive RecurrenceFrequency where
  | monthly
  | quarterly
  | semi_annual
  | annual
deriving DecidableEq, Repr

/-- JSON scalar value, as stored inside the entries of the `category_ids`
list of an allocation's `configuration` column.  Compound entries (lists,
objects) raise `TypeError` in `int(...)` exactly as `null` does, so `jnull`
also stands for them. -/
inductive JsonVal where
  | jnull
  | jbool (b : Bool)
  | jint (n : Int)
  | jstr (s : String)
deriving DecidableEq, Repr

/-- Python `int(value)` on a JSON value, with `TypeError`/`ValueError`
returned as `none` (transactions.py lines 162-166 catches exactly those).
Booleans are `int` subclasses in Python (`int(True) = 1`); strings are
parsed as decimal integers (exotic accepted spellings such as embedded
underscores or surrounding whitespace are not modelled). -/
def pyInt : JsonVal → Option Int
  | .jint n => some n
  | .jbool b => some (if b then 1 else 0)
  | .jstr s => s.toInt?
  | .jnull => none

/-- Python truthiness of an optional integer id (`if allocation_id:` style
guards): `None` and `0` are falsy. -/
def pyTruthyId : Option Nat → Bool
  | some n => n != 0
  | none => false

/-- Account row, `app/models/account.py`.  The `currency` column defaults to
PHP and every account-creation path stores a concrete value, so it is
modelled as total; credit-card metadata columns are not read by the ledger
engine and are omitted. -/
structure Account where
  id : Nat
  user_id : Nat
  balance : ℤ
  currency : Currency
  is_active : Bool
deriving DecidableEq, Repr

/-- The `configuration` JSON object of an allocation.  The transaction
router reads exactly one key, `category_ids` (transactions.py line 160),
whose value — when present — must be a JSON list for the iteration at lines
162-166 to be defined; the map is therefore modelled as that optional list
(other keys are never read). -/
structure AllocationConfig where
  category_ids : Option (List JsonVal)
deriving DecidableEq, Repr

/-- Allocation row, `app/models/allocation.py`. -/
structure Allocation where
  id : Nat
  user_id : Nat
  account_id : Nat
  allocation_type : AllocationType
  target_amount : Option ℤ
  current_amount : ℤ
  monthly_target : Option ℤ
  currency : Option Currency
  configuration : Option AllocationConfig
  period_frequency : Option BudgetPeriodFrequency
  period_start : Option DateTime
  period_end : Option DateTime
  target_date : Option DateTime
  is_active : Bool
deriving DecidableEq, Repr

/-- Budget entry row, `app/models/budget_entry.py`; only the columns the
transaction router reads (`id`, `user_id`, `cadence`) are modelled. -/
structure BudgetEntry where
  id : Nat
  user_id : Nat
  cadence : RecurrenceFrequency
deriving DecidableEq, Repr

/-- Transaction row, `app/models/transaction.py`. -/
structure Transaction where
  id : Nat
  user_id : Nat
  account_id : Nat
  category_id : Option Nat
  allocation_id : Option Nat
  budget_entry_id : Option Nat
  amount : ℤ
  currency : Option Currency
  projected_amount : Option ℤ
  projected_currency : Option Currency
  original_amount : Option ℤ
  original_currency : Option Currency
  exchange_rate : Option ℚ
  transfer_fee : ℤ
  transaction_type : TransactionType
  is_posted : Bool
  transfer_from_account_id : Option Nat
  transfer_to_account_id : Option Nat
  transaction_date : DateTime
  is_reconciled : Bool
  is_recurring : Bool
  recurrence_frequency : Option RecurrenceFrequency
deriving DecidableEq, Repr

/-- The relational store visible to the routers. -/
structure DB where
  accounts : List Account
  transactions : List Transaction
  allocations : List Allocation
  budget_entries : List BudgetEntry
deriving DecidableEq, Repr

/-- Error taxonomy of the routers: HTTP 404 (`NotFound`) versus HTTP 400
(`ValidationError`). -/
inductive ApiError where
  | notFound (detail : String)
  | validation (detail : String)
deriving DecidableEq, Repr

/-! ## Budget period roller -/

/-- Mirrors `_ensure_budget_period` (transactions.py lines 79-112) on an
allocation record: resolve the frequency (default monthly), initialize the
window when absent, roll forward then backward until the window brackets the
reference, and reset `current_amount` to zero whenever the window changed.
The timezone-stripping `_normalize_reference` is the identity here (the
model has no timezones); the Boolean in the result is the source's local
`period_changed` flag.  `none` models non-termination of a while loop.
`rollBoth` is the sequential composition of the two while loops of lines
97-106, its flag their combined contribution to `period_changed`. -/
def rollBoth (frequency : BudgetPeriodFrequency) (reference : DateTime) (fuel : Nat)
    (s0 e0 : DateTime) : Option (DateTime × DateTime × Bool) :=
  match rollForward frequency reference fuel s0 e0 with
  | none => none
  | some (s1, e1, fwd) =>
      match rollBackward frequency reference fuel s1 e1 with
      | none => none
      | some (s2, e2, bwd) => some (s2, e2, fwd || bwd)

def ensure_budget_period (fuel : Nat) (allocation : Allocation) (reference : DateTime) :
    Option (Allocation × Bool) :=
  let frequency := allocation.period_frequency.getD .monthly
  let init : DateTime × DateTime × Bool :=
    match allocation.period_start, allocation.period_end with
    | some ps, some pe => (ps, pe, false)
    | _, _ =>
        let s := start_of_period reference frequency
        (s, compute_period_end s frequency, true)
  match rollBoth frequency reference fuel init.1 init.2.1 with
  | none => none
  | some (s2, e2, rolled) =>
      let changed := init.2.2 || rolled
      some ({ allocation with
                period_start := some s2
                period_end := some e2
                current_amount := if changed then 0 else allocation.current_amount },
            changed)

/-- Mirrors `_budget_delta_for_transaction` (transactions.py lines
115-120). -/
def budget_delta_for_transaction (transaction_type : TransactionType) (amount : ℤ) : ℤ :=
  match transaction_type with
  | .debit => amount
  | .credit => -amount
  | .transfer => 0

/-- The `category_ids` list the matcher iterates over:
`config = allocation.configuration or {}` and
`raw_category_ids = config.get("category_ids") or []`
(transactions.py lines 159-160).  An absent configuration, an absent key and
an empty list all yield the empty list. -/
def allocCategoryIdValues (a : Allocation) : List JsonVal :=
  match a.configuration with
  | none => []
  | some cfg =>
      match cfg.category_ids with
      | none => []
      | some xs => xs

/-- Membership test `category_id in normalized_ids` (transactions.py lines
161-167): coerce every entry with `int(...)`, ignoring entries that raise. -/
def categoryIdsContain (a : Allocation) (category_id : Nat) : Bool :=
  ((allocCategoryIdValues a).filterMap pyInt).contains (category_id : Int)

/-- Mirrors `_get_budget_allocations_for_transaction` (transactions.py lines
123-171): the explicitly referenced allocation first — only when it is a
budget-type allocation of the caller — then every other budget-type
allocation of the caller whose `configuration.category_ids` contains the
transaction's category id, deduplicated through the `seen` id set. -/
def get_budget_allocations_for_transaction (db : DB) (user_id : Nat)
    (allocation_id category_id : Option Nat) : List Allocation :=
  let explicit : List Allocation :=
    if pyTruthyId allocation_id then
      match db.allocations.find? (fun a =>
          a.id == allocation_id.getD 0 && a.user_id == user_id &&
          a.allocation_type == AllocationType.budget) with
      | some a => [a]
      | none => []
    else []
  match category_id with
  | none => explicit
  | some cid =>
      let candidates := db.allocations.filter (fun a =>
        a.user_id == user_id && a.allocation_type == AllocationType.budget)
      let result := candidates.foldl
        (fun acc a =>
          if acc.2.contains a.id then acc
          else if categoryIdsContain a cid then (acc.1 ++ [a], acc.2 ++ [a.id])
          else acc)
        (explicit, explicit.map Allocation.id)
      result.1

/-- Replaces every stored allocation with id `aid` by `a1` (the functional
rendering of mutating the ORM object with that primary key). -/
def DB.setAllocation (db : DB) (aid : Nat) (a1 : Allocation) : DB :=
  { db with allocations := db.allocations.map (fun b => if b.id == aid then a1 else b) }

/-- Mirrors `_apply_budget_delta` (transactions.py lines 174-191): no-op on
an empty list or a zero delta; otherwise, for each matched allocation that
is budget-typed, roll its period to the reference date and add the delta to
`current_amount`.  (`current_amount or 0.0` of line 189 is the identity on
the non-nullable rational column.)  The wall-clock `updated_at` stamp is not
modelled. -/
def apply_budget_delta (fuel : Nat) (db : DB) (allocations : List Allocation)
    (delta : ℤ) (reference_date : DateTime) : Option DB :=
  if allocations.isEmpty || delta == 0 then some db
  else
    allocations.foldl
      (fun acc a =>
        match acc with
        | none => none
        | some db0 =>
            if a.allocation_type != AllocationType.budget then some db0
            else
              match ensure_budget_period fuel a reference_date with
              | none => none
              | some (a1, _) =>
                  some (db0.setAllocation a.id
                    { a1 with current_amount := a1.current_amount + delta }))
      (some db)

/-! ## Input schemas (app/schemas/transaction.py) -/

/-- The pydantic default of the `currency` field of `TransactionBase`
(schemas/transaction.py line 13): the field is non-optional with default
`CurrencyType.PHP`, so a request that omits it is validated to PHP before
the router runs. -/
def pydanticCurrencyDefault : Option Currency → Currency
  | some c => c
  | none => Currency.PHP

/-- Validated `TransactionCreate` payload (schemas/transaction.py lines
7-38).  Note that `currency` is a total field: pydantic fills the PHP
default for an omitted field and rejects an explicit null.  Inert fields
(`description`, `posting_date`, attachment urls) are omitted. -/
structure TransactionCreate where
  account_id : Nat
  category_id : Option Nat
  allocation_id : Option Nat
  budget_entry_id : Option Nat
  amount : ℤ
  currency : Currency
  projected_amount : Option ℤ
  projected_currency : Option Currency
  original_amount : Option ℤ
  original_currency : Option Currency
  exchange_rate : Option ℚ
  transfer_fee : ℤ
  transaction_type : TransactionType
  is_posted : Bool
  transfer_from_account_id : Option Nat
  transfer_to_account_id : Option Nat
  transaction_date : DateTime
  is_reconciled : Bool
  is_recurring : Bool
  recurrence_frequency : Option RecurrenceFrequency
deriving DecidableEq, Repr

/-- Field constraints pydantic enforces on `TransactionCreate` before the
router runs (`gt=0` on every id, `ge=0` on `amount` and `transfer_fee`,
`gt=0` on the informational amounts and rate). -/
def TransactionCreate.Valid (i : TransactionCreate) : Prop :=
  0 < i.account_id ∧
  (∀ c, i.category_id = some c → 0 < c) ∧
  (∀ a, i.allocation_id = some a → 0 < a) ∧
  (∀ b, i.budget_entry_id = some b → 0 < b) ∧
  0 ≤ i.amount ∧ 0 ≤ i.transfer_fee ∧
  (∀ x, i.projected_amount = some x → 0 < x) ∧
  (∀ x, i.original_amount = some x → 0 < x) ∧
  (∀ x, i.exchange_rate = some x → 0 < x) ∧
  (∀ f, i.transfer_from_account_id = some f → 0 < f) ∧
  (∀ t, i.transfer_to_account_id = some t → 0 < t)

/-- Validated `TransactionUpdate` payload (schemas/transaction.py lines
40-64) under `dict(exclude_unset=True)`: `none` means the field was absent
from the request and is left untouched.  (A request that explicitly sends
`null` for an optional column is not modelled; no ledger rule depends on
it.) -/
structure TransactionUpdate where
  account_id : Option Nat
  category_id : Option Nat
  allocation_id : Option Nat
  budget_entry_id : Option Nat
  amount : Option ℤ
  currency : Option Currency
  projected_amount : Option ℤ
  projected_currency : Option Currency
  original_amount : Option ℤ
  original_currency : Option Currency
  exchange_rate : Option ℚ
  transfer_fee : Option ℤ
  transaction_type : Option TransactionType
  is_posted : Option Bool
  transfer_from_account_id : Option Nat
  transfer_to_account_id : Option Nat
  transaction_date : Option DateTime
  is_reconciled : Option Bool
  is_recurring : Option Bool
  recurrence_frequency : Option RecurrenceFrequency
deriving DecidableEq, Repr

/-- Field constraints pydantic enforces on a provided `TransactionUpdate`
field. -/
def TransactionUpdate.Valid (u : TransactionUpdate) : Prop :=
  (∀ a, u.account_id = some a → 0 < a) ∧
  (∀ c, u.category_id = some c → 0 < c) ∧
  (∀ a, u.allocation_id = some a → 0 < a) ∧
  (∀ b, u.budget_entry_id = some b → 0 < b) ∧
  (∀ x, u.amount = some x → 0 ≤ x) ∧
  (∀ x, u.transfer_fee = some x → 0 ≤ x) ∧
  (∀ f, u.transfer_from_account_id = some f → 0 < f) ∧
  (∀ t, u.transfer_to_account_id = some t → 0 < t)

/-- The generic `setattr` loop of `update_transaction` (transactions.py
lines 461-462) on the fields remaining in `update_data`: `budget_entry_id`
was handled separately (line 456) and `is_recurring` /
`recurrence_frequency` were popped (lines 458-459) because they are derived,
so none of those three is applied here. -/
def applyUpdateFields (t : Transaction) (u : TransactionUpdate) : Transaction :=
  { t with
      account_id := u.account_id.getD t.account_id
      category_id := match u.category_id with | some c => some c | none => t.category_id
      allocation_id := match u.allocation_id with | some a => some a | none => t.allocation_id
      amount := u.amount.getD t.amount
      currency := match u.currency with | some c => some c | none => t.currency
      projected_amount := match u.projected_amount with | some x => some x | none => t.projected_amount
      projected_currency := match u.projected_currency with | some c => some c | none => t.projected_currency
      original_amount := match u.original_amount with | some x => some x | none => t.original_amount
      original_currency := match u.original_currency with | some c => some c | none => t.original_currency
      exchange_rate := match u.exchange_rate with | some x => some x | none => t.exchange_rate
      transfer_fee := u.transfer_fee.getD t.transfer_fee
      transaction_type := u.transaction_type.getD t.transaction_type
      is_posted := u.is_posted.getD t.is_posted
      transfer_from_account_id := match u.transfer_from_account_id with | some f => some f | none => t.transfer_from_account_id
      transfer_to_account_id := match u.transfer_to_account_id with | some g => some g | none => t.transfer_to_account_id
      transaction_date := u.transaction_date.getD t.transaction_date
      is_reconciled := u.is_reconciled.getD t.is_reconciled }

/-! ## Query helpers (the SQLAlchemy queries of the routers) -/

/-- Query `Account` by id and owner with `.first()`
(`db.query(Account).filter(Account.id == ..., Account.user_id == ...)`). -/
def findOwnedAccount (db : DB) (aid uid : Nat) : Option Account :=
  db.accounts.find? (fun a => a.id == aid && a.user_id == uid)

/-- Query `Account` by id only (the reversal paths of
`update_transaction` / `delete_transaction` do not filter by user). -/
def findAccountById (db : DB) (aid : Nat) : Option Account :=
  db.accounts.find? (fun a => a.id == aid)

/-- Ids of the caller's accounts (the `user_account_ids` prelude of every
transaction endpoint). -/
def userAccountIds (db : DB) (uid : Nat) : List Nat :=
  (db.accounts.filter (fun a => a.user_id == uid)).map Account.id

/-- The `or_` visibility filter: the transaction touches one of the given
account ids as primary, transfer source or transfer destination (a NULL
column is never `in_` a list). -/
def touchesAccountIds (ids : List Nat) (t : Transaction) : Bool :=
  ids.contains t.account_id ||
  (match t.transfer_from_account_id with | some f => ids.contains f | none => false) ||
  (match t.transfer_to_account_id with | some g => ids.contains g | none => false)

/-- Query a transaction by id restricted to those visible to the caller
(transactions.py lines 385-392 and the identical delete/get preludes). -/
def findVisibleTransaction (db : DB) (uid tid : Nat) : Option Transaction :=
  db.transactions.find? (fun t => t.id == tid && touchesAccountIds (userAccountIds db uid) t)

/-- Query a budget entry by id and owner. -/
def findOwnedBudgetEntry (db : DB) (beid uid : Nat) : Option BudgetEntry :=
  db.budget_entries.find? (fun b => b.id == beid && b.user_id == uid)

/-- Adds `delta` to the balance of the account with id `aid` (the
functional rendering of `account.balance += delta` on the ORM object with
that primary key). -/
def adjustBalance (db : DB) (aid : Nat) (delta : ℤ) : DB :=
  { db with accounts := db.accounts.map (fun a =>
      if a.id == aid then { a with balance := a.balance + delta } else a) }

/-- The next serial primary key for a transaction row. -/
def freshTransactionId (db : DB) : Nat :=
  db.transactions.foldl (fun m t => max m t.id) 0 + 1

/-! ## Balance effects -/

/-- Forward balance effects of a transaction (create: transactions.py lines
334-342; update: lines 516-523): applied only when posted; a credit adds the
amount to the primary account, a debit subtracts it, a transfer subtracts
amount plus fee from the primary (source) account and adds the amount to the
destination.  Both call sites run after validation, which forces
`account_id` to equal the transfer source and the destination to be
present. -/
def applyPostedBalanceEffects (db : DB) (t : Transaction) : DB :=
  if t.transaction_type == TransactionType.credit && t.is_posted then
    adjustBalance db t.account_id t.amount
  else if t.transaction_type == TransactionType.debit && t.is_posted then
    adjustBalance db t.account_id (-t.amount)
  else if t.transaction_type == TransactionType.transfer && t.is_posted then
    let db1 := adjustBalance db t.account_id (-(t.amount + t.transfer_fee))
    match t.transfer_to_account_id with
    | some toId => adjustBalance db1 toId t.amount
    | none => db1
  else db

/-- Reverse balance effects of a previously posted transaction (update:
transactions.py lines 409-426; delete: lines 557-572): inverse signs, with
the source's defensive guards — the account lookups here do not filter by
user and silently skip missing rows, and the transfer legs are guarded by
truthiness of their id columns. -/
def reverseTransferFromLeg (db : DB) (t : Transaction) : DB :=
  if pyTruthyId t.transfer_from_account_id then
    match findAccountById db (t.transfer_from_account_id.getD 0) with
    | some _ => adjustBalance db (t.transfer_from_account_id.getD 0)
        (t.amount + t.transfer_fee)
    | none => db
  else db

def reverseTransferToLeg (db : DB) (t : Transaction) : DB :=
  if pyTruthyId t.transfer_to_account_id then
    match findAccountById db (t.transfer_to_account_id.getD 0) with
    | some _ => adjustBalance db (t.transfer_to_account_id.getD 0) (-t.amount)
    | none => db
  else db

def reversePostedBalanceEffects (db : DB) (t : Transaction) : DB :=
  match t.transaction_type with
  | .credit =>
      match findAccountById db t.account_id with
      | some _ => adjustBalance db t.account_id (-t.amount)
      | none => db
  | .debit =>
      match findAccountById db t.account_id with
      | some _ => adjustBalance db t.account_id t.amount
      | none => db
  | .transfer => reverseTransferToLeg (reverseTransferFromLeg db t) t

/-- Budget-side reversal of a posted transaction, shared verbatim between
`update_transaction` (lines 427-435) and `delete_transaction` (lines
573-581): when the old signed delta is non-zero, re-resolve the matched
allocations from the old references and apply the negated delta at the old
date. -/
def reverseBudgetEffects (fuel : Nat) (db : DB) (uid : Nat) (t : Transaction) : Option DB :=
  let oldDelta := budget_delta_for_transaction t.transaction_type t.amount
  if oldDelta == 0 then some db
  else
    apply_budget_delta fuel db
      (get_budget_allocations_for_transaction db uid t.allocation_id t.category_id)
      (-oldDelta) t.transaction_date

/-- Budget-side application of a posted transaction (create: lines 344-353;
update: lines 524-532). -/
def applyBudgetEffects (fuel : Nat) (db : DB) (uid : Nat) (t : Transaction) : Option DB :=
  let delta := budget_delta_for_transaction t.transaction_type t.amount
  if delta == 0 then some db
  else
    apply_budget_delta fuel db
      (get_budget_allocations_for_transaction db uid t.allocation_id t.category_id)
      delta t.transaction_date

/-! ## Transaction endpoints -/

/-- Budget-entry resolution of `create_transaction` (transactions.py lines
264-284): a truthy `budget_entry_id` must resolve to an owned entry (else
404), and the derived `is_recurring` / `recurrence_frequency` pair follows
from whether an entry was linked. -/
def resolveRecurrence (db : DB) (uid : Nat) (inp : TransactionCreate) :
    Except ApiError (Bool × Option RecurrenceFrequency) :=
  if pyTruthyId inp.budget_entry_id then
    match findOwnedBudgetEntry db (inp.budget_entry_id.getD 0) uid with
    | none => .error (.notFound "Budget entry not found")
    | some be => .ok (true, some be.cadence)
  else .ok (false, none)

/-- Account resolution, transfer validation and informational currency
defaulting of `create_transaction` (transactions.py lines 286-329), in the
source's check order.  The primary `currency` column needs no defaulting
here: the validated input field is total (schema default PHP), so the
source's `transaction_data.get("currency") is None` checks at lines 311 and
324 can never fire. -/
def resolveCreateAccounts (db : DB) (uid : Nat) (inp : TransactionCreate) :
    Except ApiError (Account × Option Account × Option Currency × Option Currency) :=
  if inp.transaction_type == TransactionType.transfer then
    match inp.transfer_from_account_id, inp.transfer_to_account_id with
    | some f, some g =>
        if f == g then
          .error (.validation "Transfer accounts must be different")
        else if inp.account_id != f then
          .error (.validation "For transfers, account_id must match transfer_from_account_id")
        else
          match findOwnedAccount db f uid with
          | none => .error (.notFound "Source account not found")
          | some src =>
              match findOwnedAccount db g uid with
              | none => .error (.notFound "Destination account not found")
              | some dst =>
                  .ok (src, some dst,
                    (if inp.projected_currency.isNone && inp.projected_amount.isSome
                     then some dst.currency else inp.projected_currency),
                    (if inp.original_currency.isNone && inp.original_amount.isSome
                     then some dst.currency else inp.original_currency))
    | _, _ => .error (.validation "Transfer transactions require source and destination accounts")
  else
    match findOwnedAccount db inp.account_id uid with
    | none => .error (.notFound "Account not found")
    | some primary =>
        .ok (primary, none,
          (if inp.projected_currency.isNone && inp.projected_amount.isSome
           then some primary.currency else inp.projected_currency),
          (if inp.original_currency.isNone && inp.original_amount.isSome
           then some inp.currency else inp.original_currency))

/-- The row `Transaction(**transaction_data)` inserted by
`create_transaction` (transactions.py line 331), given the derived
recurrence fields and the defaulted informational currencies. -/
def builtTransaction (db : DB) (uid : Nat) (inp : TransactionCreate)
    (isRec : Bool) (recFreq : Option RecurrenceFrequency)
    (projCur origCur : Option Currency) : Transaction :=
  { id := freshTransactionId db
    user_id := uid
    account_id := inp.account_id
    category_id := inp.category_id
    allocation_id := inp.allocation_id
    budget_entry_id := inp.budget_entry_id
    amount := inp.amount
    currency := some inp.currency
    projected_amount := inp.projected_amount
    projected_currency := projCur
    original_amount := inp.original_amount
    original_currency := origCur
    exchange_rate := inp.exchange_rate
    transfer_fee := inp.transfer_fee
    transaction_type := inp.transaction_type
    is_posted := inp.is_posted
    transfer_from_account_id := inp.transfer_from_account_id
    transfer_to_account_id := inp.transfer_to_account_id
    transaction_date := inp.transaction_date
    is_reconciled := inp.is_reconciled
    is_recurring := isRec
    recurrence_frequency := recFreq }

/-- Mirrors `create_transaction` (transactions.py lines 258-357).  The
result pairs the committed store with the response; on an error response the
committed store is the unchanged input store (all mutations of the unit of
work are discarded).  `none` models a non-terminating period roll.

The source's `transaction_data.get("currency") is None` checks (lines 311
and 324) are unreachable on this endpoint because the validated schema field
`currency` is total (PHP default), so the stored currency is always the
payload currency; the truly optional `projected_currency` /
`original_currency` fields do default as coded. -/
def create_transaction (fuel : Nat) (db : DB) (uid : Nat) (inp : TransactionCreate) :
    Option (DB × Except ApiError Transaction) :=
  match resolveRecurrence db uid inp with
  | .error e => some (db, .error e)
  | .ok recur =>
      match resolveCreateAccounts db uid inp with
      | .error e => some (db, .error e)
      | .ok (_, _, projCur, origCur) =>
          let t : Transaction := builtTransaction db uid inp recur.1 recur.2 projCur origCur
          let db1 : DB := { db with transactions := db.transactions ++ [t] }
          let db2 : DB := applyPostedBalanceEffects db1 t
          let afterBudget : Option DB :=
            if t.is_posted then applyBudgetEffects fuel db2 uid t else some db2
          match afterBudget with
          | none => none
          | some db3 => some (db3, .ok t)

/-- Reversal phase of `update_transaction` (transactions.py lines 408-435):
when the stored transaction was posted, undo its balance effects and its
budget delta using the old field values. -/
def updateReversalPhase (fuel : Nat) (db : DB) (uid : Nat) (t0 : Transaction) : Option DB :=
  if t0.is_posted then
    reverseBudgetEffects fuel (reversePostedBalanceEffects db t0) uid t0
  else some db

/-- Budget-entry link handling of `update_transaction` (transactions.py
lines 439-456): a provided `budget_entry_id` must resolve to an owned entry
— otherwise the unit rolls back with 404 — and drives the derived
`is_recurring` / `recurrence_frequency` columns; an absent field leaves the
link untouched. -/
def resolveUpdateBudgetEntry (db2 : DB) (uid : Nat) (t0 : Transaction)
    (upd : TransactionUpdate) : Except ApiError Transaction :=
  match upd.budget_entry_id with
  | none => .ok t0
  | some beid =>
      match findOwnedBudgetEntry db2 beid uid with
      | none => .error (.notFound "Budget entry not found")
      | some be =>
          .ok { t0 with budget_entry_id := some beid, is_recurring := true,
                        recurrence_frequency := some be.cadence }

/-- Transfer validation, account re-resolution and currency defaulting of
`update_transaction` (transactions.py lines 467-513), operating on the
already-updated record `t2`: for transfers it checks presence and
distinctness of the two accounts, resolves both with ownership, overwrites
`account_id` with the transfer source (line 491) and defaults the missing
currencies from the destination; otherwise it resolves the primary account
and defaults the missing currencies from it (with `original_currency`
falling back to the transaction's own — possibly just defaulted —
currency, lines 509-510). -/
def resolveUpdateAccounts (db2 : DB) (uid : Nat) (t2 : Transaction) :
    Except ApiError Transaction :=
  if t2.transaction_type == TransactionType.transfer then
    match t2.transfer_from_account_id, t2.transfer_to_account_id with
    | some f, some g =>
        if f == g then
          .error (.validation "Transfer accounts must be different")
        else
          match findOwnedAccount db2 f uid with
          | none => .error (.notFound "Source account not found")
          | some _ =>
              match findOwnedAccount db2 g uid with
              | none => .error (.notFound "Destination account not found")
              | some dst =>
                  .ok { t2 with
                          account_id := f
                          currency := match t2.currency with
                            | none => some dst.currency | some c => some c
                          projected_currency :=
                            if t2.projected_amount.isSome && t2.projected_currency.isNone
                            then some dst.currency else t2.projected_currency
                          original_currency :=
                            if t2.original_amount.isSome && t2.original_currency.isNone
                            then some dst.currency else t2.original_currency }
    | _, _ => .error (.validation "Transfer transactions require source and destination accounts")
  else
    match findOwnedAccount db2 t2.account_id uid with
    | none => .error (.notFound "Account not found")
    | some primary =>
        let newCur : Option Currency :=
          match t2.currency with
          | none => some primary.currency | some c => some c
        .ok { t2 with
                currency := newCur
                projected_currency :=
                  if t2.projected_amount.isSome && t2.projected_currency.isNone
                  then some primary.currency else t2.projected_currency
                original_currency :=
                  if t2.original_amount.isSome && t2.original_currency.isNone
                  then newCur else t2.original_currency }

/-- Mirrors `update_transaction` (transactions.py lines 378-536): load the
visible transaction, reverse its old posted effects, apply the payload
(with the derived budget-entry/recurrence handling), re-validate and
re-resolve accounts — rolling the whole unit of work back on any failure —
then apply the new posted effects and commit. -/
def update_transaction (fuel : Nat) (db : DB) (uid tid : Nat) (upd : TransactionUpdate) :
    Option (DB × Except ApiError Transaction) :=
  match findVisibleTransaction db uid tid with
  | none => some (db, .error (.notFound "Transaction not found"))
  | some t0 =>
      match updateReversalPhase fuel db uid t0 with
      | none => none
      | some db2 =>
          match resolveUpdateBudgetEntry db2 uid t0 upd with
          | .error e => some (db, .error e)
          | .ok t1 =>
              let t2 := applyUpdateFields t1 upd
              match resolveUpdateAccounts db2 uid t2 with
              | .error e => some (db, .error e)
              | .ok t3 =>
                  let db3 := applyPostedBalanceEffects db2 t3
                  let afterBudget : Option DB :=
                    if t3.is_posted then applyBudgetEffects fuel db3 uid t3 else some db3
                  match afterBudget with
                  | none => none
                  | some db4 =>
                      let txns := db4.transactions.map (fun u => if u.id == tid then t3 else u)
                      some ({ db4 with transactions := txns }, .ok t3)

/-- Mirrors `delete_transaction` (transactions.py lines 538-585): load the
visible transaction, reverse its posted balance and budget effects, then
remove the row, all in one unit of work. -/
def delete_transaction (fuel : Nat) (db : DB) (uid tid : Nat) :
    Option (DB × Except ApiError Unit) :=
  match findVisibleTransaction db uid tid with
  | none => some (db, .error (.notFound "Transaction not found"))
  | some t0 =>
      let db1 := if t0.is_posted then reversePostedBalanceEffects db t0 else db
      let afterBudget : Option DB :=
        if t0.is_posted then reverseBudgetEffects fuel db1 uid t0 else some db1
      match afterBudget with
      | none => none
      | some db2 =>
          some ({ db2 with transactions := db2.transactions.filter (fun u => u.id != tid) },
                .ok ())

/-! ## Balance history query (accounts.py lines 92-144) -/

/-- One row of the balance history. -/
structure BalanceHistoryEntry where
  date : DateTime
  balance : ℤ
  transaction_id : Nat
deriving DecidableEq, Repr

/-- Response of `get_account_balance`. -/
structure BalanceResult where
  account_id : Nat
  current_balance : ℤ
  calculated_balance : ℤ
  balance_history : List BalanceHistoryEntry
deriving DecidableEq, Repr

/-- Signed effect one replayed transaction has on the running balance of
account `aid` (the if/elif ladder of accounts.py lines 119-131); `none` is
the `continue` case that contributes no history row. -/
def replayEffect (aid : Nat) (t : Transaction) : Option ℤ :=
  if t.transaction_type == TransactionType.credit && t.account_id == aid then
    some t.amount
  else if t.transaction_type == TransactionType.debit && t.account_id == aid then
    some (-t.amount)
  else if t.transaction_type == TransactionType.transfer then
    if t.transfer_from_account_id == some aid then
      some (-(t.amount + t.transfer_fee))
    else if t.transfer_to_account_id == some aid then
      some t.amount
    else none
  else none

/-- Signed effect of a stored transaction on the stored balance of account
`aid`: zero unless posted, else the replay effect.  This is the summand of
the ledger invariant. -/
def txnEffect (aid : Nat) (t : Transaction) : ℤ :=
  if t.is_posted then (replayEffect aid t).getD 0 else 0

/-- The balance an account's posted transactions add up to (order
independent). -/
def calcBalance (db : DB) (aid : Nat) : ℤ :=
  (db.transactions.map (txnEffect aid)).sum

/-- Date ordering used by `order_by(Transaction.transaction_date)`; the
relative order of equal dates is not specified by SQL and is likewise
whatever the sort below produces. -/
def dateLe (t1 t2 : Transaction) : Prop :=
  t1.transaction_date.key ≤ t2.transaction_date.key

instance : DecidableRel dateLe := fun _ _ => Nat.decLe _ _

/-- Mirrors `get_account_balance` (accounts.py lines 92-144): fetch the
owned account, replay its posted touching transactions in date order from
zero, and report both the stored and the recomputed balance. -/
def get_account_balance (db : DB) (uid aid : Nat) : Except ApiError BalanceResult :=
  match findOwnedAccount db aid uid with
  | none => .error (.notFound "Account not found")
  | some account =>
      let touching := db.transactions.filter (fun t =>
        t.account_id == aid || t.transfer_from_account_id == some aid ||
        t.transfer_to_account_id == some aid)
      let ordered := touching.insertionSort dateLe
      let final := ordered.foldl
        (fun acc t =>
          if !t.is_posted then acc
          else
            match replayEffect aid t with
            | none => acc
            | some d =>
                (acc.1 + d, acc.2 ++ [⟨t.transaction_date, acc.1 + d, t.id⟩]))
        ((0 : ℤ), ([] : List BalanceHistoryEntry))
      .ok { account_id := aid
            current_balance := account.balance
            calculated_balance := final.1
            balance_history := final.2 }

/-! ## Allocation read endpoints (allocations.py) -/

/-- Mirrors `get_allocation` (allocations.py lines 51-57).  The endpoint
declares no authenticated-user dependency and filters by id only, so it has
no caller parameter: whoever calls it receives the allocation. -/
def get_allocation (db : DB) (allocation_id : Nat) : Except ApiError Allocation :=
  match db.allocations.find? (fun a => a.id == allocation_id) with
  | none => .error (.notFound "Allocation not found")
  | some a => .ok a

/-! ## Concrete stores used by the claim witnesses and counterexamples -/

def acctW : Account := { id := 1, user_id := 7, balance := 0, currency := .USD, is_active := true }

def dbW0 : DB := { accounts := [acctW], transactions := [], allocations := [], budget_entries := [] }

def inpW : TransactionCreate :=
  { account_id := 1, category_id := none, allocation_id := none, budget_entry_id := none,
    amount := 25, currency := .USD, projected_amount := none, projected_currency := none,
    original_amount := none, original_currency := none, exchange_rate := none,
    transfer_fee := 0, transaction_type := .credit, is_posted := true,
    transfer_from_account_id := none, transfer_to_account_id := none,
    transaction_date := ⟨2024, 3, 5, 0⟩, is_reconciled := false, is_recurring := false,
    recurrence_frequency := none }

def tW : Transaction :=
  { id := 1, user_id := 7, account_id := 1, category_id := none, allocation_id := none,
    budget_entry_id := none, amount := 25, currency := some .USD, projected_amount := none,
    projected_currency := none, original_amount := none, original_currency := none,
    exchange_rate := none, transfer_fee := 0, transaction_type := .credit, is_posted := true,
    transfer_from_account_id := none, transfer_to_account_id := none,
    transaction_date := ⟨2024, 3, 5, 0⟩, is_reconciled := false, is_recurring := false,
    recurrence_frequency := none }

def dbW1 : DB :=
  { accounts := [{ acctW with balance := 25 }], transactions := [tW],
    allocations := [], budget_entries := [] }

def rW : BalanceResult :=
  { account_id := 1, current_balance := 25, calculated_balance := 25,
    balance_history := [⟨⟨2024, 3, 5, 0⟩, 25, 1⟩] }

/-- The budget allocation of the C3 scenario: `current_amount = 150`, monthly
period `[2024-01-01, 2024-02-01)`. -/
def allocC3 : Allocation :=
  { id := 3, user_id := 7, account_id := 1, allocation_type := .budget,
    target_amount := some 500, current_amount := 150, monthly_target := none,
    currency := none, configuration := none, period_frequency := some .monthly,
    period_start := some ⟨2024, 1, 1, 0⟩, period_end := some ⟨2024, 2, 1, 0⟩,
    target_date := none, is_active := true }

/-- The reference instant of the C3 scenario: a debit dated 2024-02-15. -/
def dateC3 : DateTime := ⟨2024, 2, 15, 0⟩

def dbC3 : DB :=
  { accounts := [], transactions := [], allocations := [allocC3], budget_entries := [] }

/-- `allocC3` after the roller has run at `dateC3`: the window has advanced
one month and the progress is reset. -/
def allocC3r : Allocation :=
  { allocC3 with
    period_start := some ⟨2024, 2, 1, 0⟩
    period_end := some ⟨2024, 3, 1, 0⟩
    current_amount := 0 }

/-- Source and destination accounts of the C2 transfer scenario. -/
def acctX : Account := { id := 2, user_id := 7, balance := 100, currency := .USD, is_active := true }

def acctY : Account := { id := 3, user_id := 7, balance := 50, currency := .USD, is_active := true }

def dbT0 : DB :=
  { accounts := [acctX, acctY], transactions := [], allocations := [], budget_entries := [] }

/-- A posted transfer of 40 with fee 5 from account 2 to account 3. -/
def inpT : TransactionCreate :=
  { account_id := 2, category_id := none, allocation_id := none, budget_entry_id := none,
    amount := 40, currency := .USD, projected_amount := none, projected_currency := none,
    original_amount := none, original_currency := none, exchange_rate := none,
    transfer_fee := 5, transaction_type := .transfer, is_posted := true,
    transfer_from_account_id := some 2, transfer_to_account_id := some 3,
    transaction_date := ⟨2024, 3, 6, 0⟩, is_reconciled := false, is_recurring := false,
    recurrence_frequency := none }

/-- The row `create_transaction` stores for `inpT` on `dbT0`. -/
def tT : Transaction :=
  { id := 1, user_id := 7, account_id := 2, category_id := none, allocation_id := none,
    budget_entry_id := none, amount := 40, currency := some .USD, projected_amount := none,
    projected_currency := none, original_amount := none, original_currency := none,
    exchange_rate := none, transfer_fee := 5, transaction_type := .transfer, is_posted := true,
    transfer_from_account_id := some 2, transfer_to_account_id := some 3,
    transaction_date := ⟨2024, 3, 6, 0⟩, is_reconciled := false, is_recurring := false,
    recurrence_frequency := none }

/-- The committed store after the C2 transfer: 100-(40+5)=55 and 50+40=90. -/
def dbT1 : DB :=
  { accounts := [{ acctX with balance := 55 }, { acctY with balance := 90 }],
    transactions := [tT], allocations := [], budget_entries := [] }

/-- An update payload with no field set (pydantic `exclude_unset` sees an
empty body). -/
def updNone : TransactionUpdate :=
  { account_id := none, category_id := none, allocation_id := none, budget_entry_id := none,
    amount := none, currency := none, projected_amount := none, projected_currency := none,
    original_amount := none, original_currency := none, exchange_rate := none,
    transfer_fee := none, transaction_type := none, is_posted := none,
    transfer_from_account_id := none, transfer_to_account_id := none,
    transaction_date := none, is_reconciled := none, is_recurring := none,
    recurrence_frequency := none }

/-- The C4 update payload: it sets `account_id` to 3 while the stored
transfer's source is account 2. -/
def updC4 : TransactionUpdate := { updNone with account_id := some 3 }

/-- The C4 create payload: a transfer whose source account id 9 exists for
no user. -/
def inpC4bad : TransactionCreate :=
  { inpT with account_id := 9, transfer_from_account_id := some 9 }

/-- The C9 budget allocation: `configuration.category_ids = [5, 7]`, period
[2024-03-01, 2024-04-01). -/
def allocC9 : Allocation :=
  { id := 9, user_id := 7, account_id := 1, allocation_type := .budget,
    target_amount := none, current_amount := 0, monthly_target := none,
    currency := none, configuration := some ⟨some [.jint 5, .jint 7]⟩,
    period_frequency := some .monthly, period_start := some ⟨2024, 3, 1, 0⟩,
    period_end := some ⟨2024, 4, 1, 0⟩, target_date := none, is_active := true }

def dbC9 : DB :=
  { accounts := [], transactions := [], allocations := [allocC9], budget_entries := [] }

/-- The C10 savings allocation: the transaction below names it explicitly,
yet it must stay untouched. -/
def allocSav : Allocation :=
  { id := 4, user_id := 7, account_id := 1, allocation_type := .savings,
    target_amount := some 1000, current_amount := 250, monthly_target := none,
    currency := none, configuration := some ⟨some [.jint 5]⟩,
    period_frequency := none, period_start := none, period_end := none,
    target_date := none, is_active := true }

def dbSav : DB :=
  { accounts := [acctW], transactions := [], allocations := [allocSav],
    budget_entries := [] }

/-- A posted credit that names `allocSav` as its `allocation_id` and carries
a category the allocation's configuration lists. -/
def inpSav : TransactionCreate :=
  { account_id := 1, category_id := some 5, allocation_id := some 4, budget_entry_id := none,
    amount := 30, currency := .USD, projected_amount := none, projected_currency := none,
    original_amount := none, original_currency := none, exchange_rate := none,
    transfer_fee := 0, transaction_type := .credit, is_posted := true,
    transfer_from_account_id := none, transfer_to_account_id := none,
    transaction_date := ⟨2024, 5, 1, 0⟩, is_reconciled := false, is_recurring := false,
    recurrence_frequency := none }

def tSav : Transaction :=
  { id := 1, user_id := 7, account_id := 1, category_id := some 5, allocation_id := some 4,
    budget_entry_id := none, amount := 30, currency := some .USD, projected_amount := none,
    projected_currency := none, original_amount := none, original_currency := none,
    exchange_rate := none, transfer_fee := 0, transaction_type := .credit, is_posted := true,
    transfer_from_account_id := none, transfer_to_account_id := none,
    transaction_date := ⟨2024, 5, 1, 0⟩, is_reconciled := false, is_recurring := false,
    recurrence_frequency := none }

def dbSav1 : DB :=
  { accounts := [{ acctW with balance := 30 }], transactions := [tSav],
    allocations := [allocSav], budget_entries := [] }

/-- The C5 request: a credit on the USD account that omits `currency`
(so the validated field carries the pydantic default) and carries an
`original_amount` with no `original_currency`. -/
def inpC5 : TransactionCreate :=
  { account_id := 1, category_id := none, allocation_id := none, budget_entry_id := none,
    amount := 10, currency := pydanticCurrencyDefault none, projected_amount := none,
    projected_currency := none, original_amount := some 20, original_currency := none,
    exchange_rate := none, transfer_fee := 0, transaction_type := .credit, is_posted := false,
    transfer_from_account_id := none, transfer_to_account_id := none,
    transaction_date := ⟨2024, 4, 1, 0⟩, is_reconciled := false, is_recurring := false,
    recurrence_frequency := none }

/-- The row `create_transaction` stores for `inpC5` on `dbW0`. -/
def tC5 : Transaction :=
  { id := 1, user_id := 7, account_id := 1, category_id := none, allocation_id := none,
    budget_entry_id := none, amount := 10, currency := some .PHP, projected_amount := none,
    projected_currency := none, original_amount := some 20, original_currency := some .PHP,
    exchange_rate := none, transfer_fee := 0, transaction_type := .credit, is_posted := false,
    transfer_from_account_id := none, transfer_to_account_id := none,
    transaction_date := ⟨2024, 4, 1, 0⟩, is_reconciled := false, is_recurring := false,
    recurrence_frequency := none }

def dbC5 : DB :=
  { accounts := [acctW], transactions := [tC5], allocations := [], budget_entries := [] }

/-- The update payload that resends a stored transaction's own values: each
always-present column is sent with the row's current value, the optional
columns are sent exactly when the row has them, and the derived columns
(`budget_entry_id` with its `is_recurring` / `recurrence_frequency` pair)
are left unsent so they keep their stored values. -/
def identicalUpdate (t : Transaction) : TransactionUpdate :=
  { account_id := some t.account_id
    category_id := t.category_id
    allocation_id := t.allocation_id
    budget_entry_id := none
    amount := some t.amount
    currency := t.currency
    projected_amount := t.projected_amount
    projected_currency := t.projected_currency
    original_amount := t.original_amount
    original_currency := t.original_currency
    exchange_rate := t.exchange_rate
    transfer_fee := some t.transfer_fee
    transaction_type := some t.transaction_type
    is_posted := some t.is_posted
    transfer_from_account_id := t.transfer_from_account_id
    transfer_to_account_id := t.transfer_to_account_id
    transaction_date := some t.transaction_date
    is_reconciled := some t.is_reconciled
    is_recurring := none
    recurrence_frequency := none }

/-- The C7 account and stored posted debit, dated 2024-05-15. -/
def acctC7 : Account := { id := 1, user_id := 7, balance := 100, currency := .USD, is_active := true }

def tC7 : Transaction :=
  { id := 1, user_id := 7, account_id := 1, category_id := some 5, allocation_id := none,
    budget_entry_id := none, amount := 40, currency := some .USD, projected_amount := none,
    projected_currency := none, original_amount := none, original_currency := none,
    exchange_rate := none, transfer_fee := 0, transaction_type := .debit, is_posted := true,
    transfer_from_account_id := none, transfer_to_account_id := none,
    transaction_date := ⟨2024, 5, 15, 0⟩, is_reconciled := false, is_recurring := false,
    recurrence_frequency := none }

/-- The C7 budget allocation: it matches `tC7` by category, but its current
period [2024-01-01, 2024-02-01) does not contain the transaction's date. -/
def allocC7 : Allocation :=
  { id := 6, user_id := 7, account_id := 1, allocation_type := .budget,
    target_amount := none, current_amount := 150, monthly_target := none,
    currency := none, configuration := some ⟨some [.jint 5]⟩,
    period_frequency := some .monthly, period_start := some ⟨2024, 1, 1, 0⟩,
    period_end := some ⟨2024, 2, 1, 0⟩, target_date := none, is_active := true }

def dbC7 : DB :=
  { accounts := [acctC7], transactions := [tC7], allocations := [allocC7],
    budget_entries := [] }

/-- `dbC7` after the identical update: balances are untouched, but the
allocation's period was rolled to [2024-05-01, 2024-06-01) and its 150 of
progress was destroyed. -/
def dbC7x : DB :=
  { accounts := [acctC7], transactions := [tC7],
    allocations := [{ allocC7 with
      period_start := some ⟨2024, 5, 1, 0⟩
      period_end := some ⟨2024, 6, 1, 0⟩
      current_amount := 0 }],
    budget_entries := [] }

/-- `allocC7` with a period that does contain `tC7`'s date: the in-period
witness scenario. -/
def allocC7in : Allocation :=
  { allocC7 with
    period_start := some ⟨2024, 5, 1, 0⟩
    period_end := some ⟨2024, 6, 1, 0⟩ }

def dbC7w : DB :=
  { accounts := [acctC7], transactions := [tC7], allocations := [allocC7in],
    budget_entries := [] }

/-! ## Lemmas: the budget period roller -/

/-- Invariants of the forward roll: the reference always ends up strictly
before the window end, the flag records whether the loop body ran at least
once, a flagless run leaves the window untouched, and after at least one
iteration the window start is at or before the reference. -/
theorem rollForward_spec (f : BudgetPeriodFrequency) (r : DateTime) :
    ∀ fuel s e s1 e1 c, rollForward f r fuel s e = some (s1, e1, c) →
      r.key < e1.key ∧ (c = true ↔ e.key ≤ r.key) ∧
      (c = false → s1 = s ∧ e1 = e) ∧ (c = true → s1.key ≤ r.key) := by
  intro fuel
  induction fuel with
  | zero =>
      intro s e s1 e1 c h
      by_cases hc : e.key ≤ r.key
      · simp [rollForward, hc] at h
      · simp [rollForward, hc] at h
        obtain ⟨hs, he, hcf⟩ := h
        subst hs; subst he; subst hcf
        exact ⟨Nat.lt_of_not_le hc, by simp [hc], fun _ => ⟨rfl, rfl⟩, by simp⟩
  | succ fuel ih =>
      intro s e s1 e1 c h
      by_cases hc : e.key ≤ r.key
      · simp only [rollForward, hc, if_pos] at h
        cases hrec : rollForward f r fuel e (compute_period_end e f) with
        | none => rw [hrec] at h; exact absurd h (by simp)
        | some v =>
            obtain ⟨s2, e2, c2⟩ := v
            rw [hrec] at h
            simp at h
            obtain ⟨hs, he, hcf⟩ := h
            subst hs; subst he; subst hcf
            obtain ⟨h1, h2, h3, h4⟩ := ih e (compute_period_end e f) s2 e2 c2 hrec
            refine ⟨h1, by simp [hc], by simp, fun _ => ?_⟩
            cases c2 with
            | false => obtain ⟨hs2, _⟩ := h3 rfl; subst hs2; exact hc
            | true => exact h4 rfl
      · simp [rollForward, hc] at h
        obtain ⟨hs, he, hcf⟩ := h
        subst hs; subst he; subst hcf
        exact ⟨Nat.lt_of_not_le hc, by simp [hc], fun _ => ⟨rfl, rfl⟩, by simp⟩

/-- Invariants of the backward roll: the final window start is at or before
the reference, and after at least one iteration the reference is strictly
before the window end. -/
theorem rollBackward_spec (f : BudgetPeriodFrequency) (r : DateTime) :
    ∀ fuel s e s1 e1 c, rollBackward f r fuel s e = some (s1, e1, c) →
      s1.key ≤ r.key ∧ (c = true ↔ r.key < s.key) ∧
      (c = false → s1 = s ∧ e1 = e) ∧ (c = true → r.key < e1.key) := by
  intro fuel
  induction fuel with
  | zero =>
      intro s e s1 e1 c h
      by_cases hc : r.key < s.key
      · simp [rollBackward, hc] at h
      · simp [rollBackward, hc] at h
        obtain ⟨hs, he, hcf⟩ := h
        subst hs; subst he; subst hcf
        exact ⟨Nat.le_of_not_lt hc, by simp [hc], fun _ => ⟨rfl, rfl⟩, by simp⟩
  | succ fuel ih =>
      intro s e s1 e1 c h
      by_cases hc : r.key < s.key
      · simp only [rollBackward, hc, if_pos] at h
        cases hrec : rollBackward f r fuel (compute_previous_start s f) s with
        | none => rw [hrec] at h; exact absurd h (by simp)
        | some v =>
            obtain ⟨s2, e2, c2⟩ := v
            rw [hrec] at h
            simp at h
            obtain ⟨hs, he, hcf⟩ := h
            subst hs; subst he; subst hcf
            obtain ⟨h1, h2, h3, h4⟩ := ih (compute_previous_start s f) s s2 e2 c2 hrec
            refine ⟨h1, by simp [hc], by simp, fun _ => ?_⟩
            cases c2 with
            | false => obtain ⟨_, he2⟩ := h3 rfl; subst he2; exact hc
            | true => exact h4 rfl
      · simp [rollBackward, hc] at h
        obtain ⟨hs, he, hcf⟩ := h
        subst hs; subst he; subst hcf
        exact ⟨Nat.le_of_not_lt hc, by simp [hc], fun _ => ⟨rfl, rfl⟩, by simp⟩

/-- Invariants of the two sequential rolling loops: the final window
brackets the reference from below, the flag records whether any iteration
ran, and a flagless run leaves the window untouched. -/
theorem rollBoth_spec (f : BudgetPeriodFrequency) (r : DateTime) (fuel : Nat)
    (s0 e0 s2 e2 : DateTime) (c : Bool)
    (h : rollBoth f r fuel s0 e0 = some (s2, e2, c)) :
    s2.key ≤ r.key ∧ r.key < e2.key ∧
    (c = true ↔ (e0.key ≤ r.key ∨ r.key < s0.key)) ∧
    (c = false → s2 = s0 ∧ e2 = e0) := by
  unfold rollBoth at h
  cases hfw : rollForward f r fuel s0 e0 with
  | none => rw [hfw] at h; exact absurd h (by simp)
  | some v =>
      obtain ⟨s1, e1, fwd⟩ := v
      simp only [hfw] at h
      cases hbw : rollBackward f r fuel s1 e1 with
      | none => simp only [hbw] at h; exact absurd h (by simp)
      | some w =>
          obtain ⟨s3, e3, bwd⟩ := w
          simp only [hbw] at h
          simp at h
          obtain ⟨hs, he, hc⟩ := h
          subst hs; subst he; subst hc
          obtain ⟨hf1, hf2, hf3, hf4⟩ := rollForward_spec f r fuel _ _ _ _ _ hfw
          obtain ⟨hb1, hb2, hb3, hb4⟩ := rollBackward_spec f r fuel _ _ _ _ _ hbw
          refine ⟨hb1, ?_, ?_, ?_⟩
          · cases bwd with
            | false => obtain ⟨_, he3⟩ := hb3 rfl; subst he3; exact hf1
            | true => exact hb4 rfl
          · constructor
            · intro hor
              rcases Bool.or_eq_true_iff.mp hor with hfwd | hbwd
              · exact Or.inl (hf2.mp hfwd)
              · cases fwd with
                | false =>
                    obtain ⟨hs1, _⟩ := hf3 rfl; subst hs1
                    exact Or.inr (hb2.mp hbwd)
                | true => exact Or.inl (hf2.mp rfl)
            · intro hor
              rcases hor with hend | hstart
              · simp [hf2.mpr hend]
              · cases fwd with
                | true => simp
                | false =>
                    obtain ⟨hs1, _⟩ := hf3 rfl; subst hs1
                    simp [hb2.mpr hstart]
          · intro hcf
            rcases Bool.or_eq_false_iff.mp hcf with ⟨hfwd, hbwd⟩
            obtain ⟨hs1, he1⟩ := hf3 hfwd
            obtain ⟨hs3, he3⟩ := hb3 hbwd
            subst hs1; subst he1; subst hs3; subst he3
            exact ⟨rfl, rfl⟩

/-- Full specification of the budget period roller: the resulting window
brackets the reference; `current_amount` is zeroed exactly when the flag is
set; the flag is set exactly when the window was absent, the reference was
at or past the old end, or the reference was before the old start; and no
field other than the window and the progress changes. -/
theorem ensure_budget_period_spec (fuel : Nat) (a : Allocation) (ref : DateTime)
    (a1 : Allocation) (changed : Bool)
    (h : ensure_budget_period fuel a ref = some (a1, changed)) :
    (∃ s e, a1.period_start = some s ∧ a1.period_end = some e ∧
        s.key ≤ ref.key ∧ ref.key < e.key) ∧
    a1.current_amount = (if changed then 0 else a.current_amount) ∧
    (changed = true ↔ (a.period_start = none ∨ a.period_end = none ∨
        ∃ ps pe, a.period_start = some ps ∧ a.period_end = some pe ∧
          (pe.key ≤ ref.key ∨ ref.key < ps.key))) ∧
    a1.id = a.id ∧ a1.user_id = a.user_id ∧
    a1.allocation_type = a.allocation_type ∧
    a1.configuration = a.configuration ∧
    a1.period_frequency = a.period_frequency := by
  unfold ensure_budget_period at h
  set f := a.period_frequency.getD .monthly with hf
  rcases hps : a.period_start with _ | ps <;> rcases hpe : a.period_end with _ | pe <;>
    simp only [hps, hpe] at h
  case none.none | none.some | some.none =>
    all_goals (
      cases hrb : rollBoth f ref fuel (start_of_period ref f)
          (compute_period_end (start_of_period ref f) f) with
      | none => rw [hrb] at h; exact absurd h (by simp)
      | some v =>
          obtain ⟨s2, e2, rolled⟩ := v
          rw [hrb] at h
          simp at h
          obtain ⟨ha1, hch⟩ := h
          obtain ⟨hb1, hb2, _, _⟩ := rollBoth_spec f ref fuel _ _ _ _ _ hrb
          subst ha1
          subst hch
          refine ⟨⟨s2, e2, rfl, rfl, hb1, hb2⟩, by simp, by simp, rfl, rfl, rfl, rfl, rfl⟩ )
  case some.some =>
    cases hrb : rollBoth f ref fuel ps pe with
    | none => rw [hrb] at h; exact absurd h (by simp)
    | some v =>
        obtain ⟨s2, e2, rolled⟩ := v
        rw [hrb] at h
        simp at h
        obtain ⟨ha1, hch⟩ := h
        obtain ⟨hb1, hb2, hb3, _⟩ := rollBoth_spec f ref fuel _ _ _ _ _ hrb
        subst ha1
        subst hch
        refine ⟨⟨s2, e2, rfl, rfl, hb1, hb2⟩, by simp, ?_, rfl, rfl, rfl, rfl, rfl⟩
        constructor
        · intro hr
          exact Or.inr (Or.inr ⟨ps, pe, rfl, rfl, hb3.mp hr⟩)
        · rintro (hn | hn | ⟨ps2, pe2, hps2, hpe2, hcond⟩)
          · exact absurd hn (by simp)
          · exact absurd hn (by simp)
          · obtain rfl := Option.some.inj hps2
            obtain rfl := Option.some.inj hpe2
            exact hb3.mpr hcond

theorem rollForward_noop (f : BudgetPeriodFrequency) (r : DateTime) (fuel : Nat)
    (s e : DateTime) (h : r.key < e.key) :
    rollForward f r fuel s e = some (s, e, false) := by
  cases fuel with
  | zero =>
      unfold rollForward
      rw [if_neg (Nat.not_le.mpr h)]
  | succ n =>
      unfold rollForward
      rw [if_neg (Nat.not_le.mpr h)]

theorem rollBackward_noop (f : BudgetPeriodFrequency) (r : DateTime) (fuel : Nat)
    (s e : DateTime) (h : s.key ≤ r.key) :
    rollBackward f r fuel s e = some (s, e, false) := by
  cases fuel with
  | zero =>
      unfold rollBackward
      rw [if_neg (Nat.not_lt.mpr h)]
  | succ n =>
      unfold rollBackward
      rw [if_neg (Nat.not_lt.mpr h)]

/-- When the stored window already contains the reference, the roller is the
identity: no roll, no reset, any fuel. -/
theorem ensure_budget_period_noop (fuel : Nat) (a : Allocation) (ref : DateTime)
    (s e : DateTime) (hps : a.period_start = some s) (hpe : a.period_end = some e)
    (h1 : s.key ≤ ref.key) (h2 : ref.key < e.key) :
    ensure_budget_period fuel a ref = some (a, false) := by
  unfold ensure_budget_period
  rw [hps, hpe]
  simp only []
  unfold rollBoth
  rw [rollForward_noop _ ref fuel s e h2]
  simp only []
  rw [rollBackward_noop _ ref fuel s e h1]
  simp only [Bool.or_self]
  rw [← hps, ← hpe]
  simp only [Bool.false_eq_true, if_false]

/-! ## Lemmas: balance effects on the account table -/

theorem adjustBalance_accounts (db : DB) (x : Nat) (d : ℤ) :
    (adjustBalance db x d).accounts =
      db.accounts.map (fun a => if a.id == x then { a with balance := a.balance + d } else a) := rfl

theorem adjustBalance_rest (db : DB) (x : Nat) (d : ℤ) :
    (adjustBalance db x d).transactions = db.transactions ∧
    (adjustBalance db x d).allocations = db.allocations ∧
    (adjustBalance db x d).budget_entries = db.budget_entries := ⟨rfl, rfl, rfl⟩

/-- A list map that rewrites each account's balance in place. -/
def mapBalances (l : List Account) (f : Account → ℤ) : List Account :=
  l.map (fun a => { a with balance := f a })

theorem adjust_eq_mapBalances (db : DB) (x : Nat) (d : ℤ) :
    (adjustBalance db x d).accounts =
      mapBalances db.accounts (fun a => a.balance + (if a.id = x then d else 0)) := by
  simp only [adjustBalance, mapBalances]
  apply List.map_congr_left
  intro a _
  by_cases hx : a.id = x
  · simp [hx]
  · simp [hx]

theorem mapBalances_zero (l : List Account) :
    mapBalances l (fun a => a.balance + 0) = l := by
  simp [mapBalances]

/-- Composition law for two balance rewrites whose deltas do not inspect the
balance. -/
theorem mapBalances_add (l : List Account) (d1 d2 : Account → ℤ)
    (h2 : ∀ a : Account, ∀ b : ℤ, d2 { a with balance := b } = d2 a) :
    mapBalances (mapBalances l (fun a => a.balance + d1 a)) (fun a => a.balance + d2 a) =
      mapBalances l (fun a => a.balance + (d1 a + d2 a)) := by
  simp only [mapBalances, List.map_map]
  apply List.map_congr_left
  intro a _
  simp [Function.comp, h2, add_assoc]

theorem findAccountById_adjust (db : DB) (x y : Nat) (d : ℤ) :
    findAccountById (adjustBalance db x d) y =
      (findAccountById db y).map
        (fun a => if a.id == x then { a with balance := a.balance + d } else a) := by
  have hp : ((fun a : Account => a.id == y) ∘ fun a : Account =>
      if a.id == x then { a with balance := a.balance + d } else a) =
      (fun a : Account => a.id == y) := by
    funext a; by_cases hx : a.id = x <;> simp [Function.comp, hx]
  simp only [findAccountById, adjustBalance, List.find?_map, hp]

theorem findOwnedAccount_adjust (db : DB) (x y uid : Nat) (d : ℤ) :
    findOwnedAccount (adjustBalance db x d) y uid =
      (findOwnedAccount db y uid).map
        (fun a => if a.id == x then { a with balance := a.balance + d } else a) := by
  have hp : ((fun a : Account => a.id == y && a.user_id == uid) ∘ fun a : Account =>
      if a.id == x then { a with balance := a.balance + d } else a) =
      (fun a : Account => a.id == y && a.user_id == uid) := by
    funext a; by_cases hx : a.id = x <;> simp [Function.comp, hx]
  simp only [findOwnedAccount, adjustBalance, List.find?_map, hp]

theorem txnEffect_unposted (t : Transaction) (hpost : t.is_posted = false) (aid : Nat) :
    txnEffect aid t = 0 := by
  simp [txnEffect, hpost]

theorem txnEffect_credit (t : Transaction) (htype : t.transaction_type = .credit)
    (hpost : t.is_posted = true) (aid : Nat) :
    txnEffect aid t = if aid = t.account_id then t.amount else 0 := by
  by_cases hx : aid = t.account_id
  · rw [hx]; simp [txnEffect, replayEffect, htype, hpost]
  · have hx2 : ¬ t.account_id = aid := fun hq => hx hq.symm
    simp [txnEffect, replayEffect, htype, hpost, hx, hx2]

theorem txnEffect_debit (t : Transaction) (htype : t.transaction_type = .debit)
    (hpost : t.is_posted = true) (aid : Nat) :
    txnEffect aid t = if aid = t.account_id then -t.amount else 0 := by
  by_cases hx : aid = t.account_id
  · rw [hx]; simp [txnEffect, replayEffect, htype, hpost]
  · have hx2 : ¬ t.account_id = aid := fun hq => hx hq.symm
    simp [txnEffect, replayEffect, htype, hpost, hx, hx2]

theorem txnEffect_transfer (t : Transaction) (htype : t.transaction_type = .transfer)
    (hpost : t.is_posted = true) (f g : Nat)
    (hfrom : t.transfer_from_account_id = some f)
    (hto : t.transfer_to_account_id = some g) (aid : Nat) :
    txnEffect aid t =
      if aid = f then -(t.amount + t.transfer_fee)
      else if aid = g then t.amount else 0 := by
  by_cases hx : aid = f
  · rw [hx]; simp [txnEffect, replayEffect, htype, hpost, hfrom]
  · have hx2 : ¬ f = aid := fun hq => hx hq.symm
    by_cases hy : aid = g
    · rw [hy] at hx2 ⊢
      have hgf : ¬ g = f := fun hq => hx2 hq.symm
      simp [txnEffect, replayEffect, htype, hpost, hfrom, hto, hx2, hgf]
    · have hy2 : ¬ g = aid := fun hq => hy hq.symm
      simp [txnEffect, replayEffect, htype, hpost, hfrom, hto, hx, hx2, hy, hy2]

theorem findAccountById_isSome_iff (db : DB) (y : Nat) :
    (findAccountById db y).isSome ↔ ∃ a ∈ db.accounts, a.id = y := by
  simp [findAccountById, List.find?_isSome]

/-- Forward posted effects rewrite every account balance by the signed
transaction effect.  For transfers the call sites guarantee that the primary
account is the transfer source and that the destination is a distinct
present id. -/
theorem applyPostedBalanceEffects_accounts (db : DB) (t : Transaction)
    (hft : t.transaction_type = .transfer → t.is_posted = true →
      t.transfer_from_account_id = some t.account_id ∧
      ∃ g, t.transfer_to_account_id = some g ∧ g ≠ t.account_id) :
    (applyPostedBalanceEffects db t).accounts =
      mapBalances db.accounts (fun a => a.balance + txnEffect a.id t) := by
  rcases hpost : t.is_posted with _ | _
  · have heff : ∀ a : Account, txnEffect a.id t = 0 := by
      intro a; simp [txnEffect, hpost]
    have : mapBalances db.accounts (fun a => a.balance + txnEffect a.id t) = db.accounts := by
      rw [show (fun a : Account => a.balance + txnEffect a.id t) = (fun a : Account => a.balance + 0)
            from funext (fun a => by rw [heff])]
      exact mapBalances_zero db.accounts
    rw [this]
    rcases htype : t.transaction_type <;>
      simp [applyPostedBalanceEffects, htype, hpost]
  · rcases htype : t.transaction_type
    case debit =>
      rw [show applyPostedBalanceEffects db t = adjustBalance db t.account_id (-t.amount) by
            simp [applyPostedBalanceEffects, htype, hpost]]
      rw [adjust_eq_mapBalances]
      unfold mapBalances
      apply List.map_congr_left
      intro a _
      simp only [txnEffect_debit t htype hpost]
    case credit =>
      rw [show applyPostedBalanceEffects db t = adjustBalance db t.account_id t.amount by
            simp [applyPostedBalanceEffects, htype, hpost]]
      rw [adjust_eq_mapBalances]
      unfold mapBalances
      apply List.map_congr_left
      intro a _
      simp only [txnEffect_credit t htype hpost]
    case transfer =>
      obtain ⟨hfrom, g, hto, hg⟩ := hft htype hpost
      rw [show applyPostedBalanceEffects db t =
            adjustBalance (adjustBalance db t.account_id (-(t.amount + t.transfer_fee))) g t.amount by
            simp [applyPostedBalanceEffects, htype, hpost, hto]]
      rw [show (adjustBalance (adjustBalance db t.account_id (-(t.amount + t.transfer_fee))) g t.amount).accounts
            = mapBalances (adjustBalance db t.account_id (-(t.amount + t.transfer_fee))).accounts
                (fun a => a.balance + (if a.id = g then t.amount else 0)) from
          adjust_eq_mapBalances _ g t.amount]
      rw [adjust_eq_mapBalances]
      rw [mapBalances_add _ _ _ (by intro a b; simp)]
      unfold mapBalances
      apply List.map_congr_left
      intro a _
      simp only [txnEffect_transfer t htype hpost t.account_id g hfrom hto]
      by_cases hx : a.id = t.account_id
      · have hxg : ¬ a.id = g := by rw [hx]; exact fun hgg => hg hgg.symm
        simp [hx, hxg, Ne.symm hg]
      · by_cases hy : a.id = g <;> simp [hx, hy, hg]

theorem applyPostedBalanceEffects_rest (db : DB) (t : Transaction) :
    (applyPostedBalanceEffects db t).transactions = db.transactions ∧
    (applyPostedBalanceEffects db t).allocations = db.allocations ∧
    (applyPostedBalanceEffects db t).budget_entries = db.budget_entries := by
  unfold applyPostedBalanceEffects
  split
  · exact ⟨rfl, rfl, rfl⟩
  · split
    · exact ⟨rfl, rfl, rfl⟩
    · split
      · rcases t.transfer_to_account_id <;> simp [adjustBalance]
      · exact ⟨rfl, rfl, rfl⟩

/-- Reverse effects of a posted transaction rewrite every account balance by
the negated signed effect.  The hypotheses record the facts the reversal
call sites hold for every stored posted transaction: the primary account
exists, and a transfer carries nonzero, distinct, present source and
destination ids. -/
theorem reversePostedBalanceEffects_accounts (db : DB) (t : Transaction)
    (hpost : t.is_posted = true)
    (hacct : t.transaction_type = .credit ∨ t.transaction_type = .debit →
      ∃ a ∈ db.accounts, a.id = t.account_id)
    (htr : t.transaction_type = .transfer →
      ∃ f g, t.transfer_from_account_id = some f ∧ t.transfer_to_account_id = some g ∧
        f ≠ 0 ∧ g ≠ 0 ∧ f ≠ g ∧
        (∃ a ∈ db.accounts, a.id = f) ∧ (∃ a ∈ db.accounts, a.id = g)) :
    (reversePostedBalanceEffects db t).accounts =
      mapBalances db.accounts (fun a => a.balance + (-(txnEffect a.id t))) := by
  rcases htype : t.transaction_type
  case credit =>
    obtain ⟨acc, hmem⟩ : ∃ acc, findAccountById db t.account_id = some acc := by
      have := (findAccountById_isSome_iff db t.account_id).mpr (hacct (Or.inl htype))
      exact Option.isSome_iff_exists.mp this
    rw [show reversePostedBalanceEffects db t = adjustBalance db t.account_id (-t.amount) by
          simp [reversePostedBalanceEffects, htype, hmem]]
    rw [adjust_eq_mapBalances]
    unfold mapBalances
    apply List.map_congr_left
    intro a _
    simp only [txnEffect_credit t htype hpost]
    by_cases hx : a.id = t.account_id <;> simp [hx]
  case debit =>
    obtain ⟨acc, hmem⟩ : ∃ acc, findAccountById db t.account_id = some acc := by
      have := (findAccountById_isSome_iff db t.account_id).mpr (hacct (Or.inr htype))
      exact Option.isSome_iff_exists.mp this
    rw [show reversePostedBalanceEffects db t = adjustBalance db t.account_id t.amount by
          simp [reversePostedBalanceEffects, htype, hmem]]
    rw [adjust_eq_mapBalances]
    unfold mapBalances
    apply List.map_congr_left
    intro a _
    simp only [txnEffect_debit t htype hpost]
    by_cases hx : a.id = t.account_id <;> simp [hx]
  case transfer =>
    obtain ⟨f, g, hfrom, hto, hf0, hg0, hfg, hfmem, hgmem⟩ := htr htype
    obtain ⟨accf, hmemf⟩ : ∃ acc, findAccountById db f = some acc := by
      have := (findAccountById_isSome_iff db f).mpr hfmem
      exact Option.isSome_iff_exists.mp this
    obtain ⟨accg, hmemg⟩ : ∃ acc,
        findAccountById (adjustBalance db f (t.amount + t.transfer_fee)) g = some acc := by
      rw [findAccountById_adjust]
      obtain ⟨accg0, hmemg0⟩ := Option.isSome_iff_exists.mp
        ((findAccountById_isSome_iff db g).mpr hgmem)
      exact ⟨_, by rw [hmemg0]; rfl⟩
    rw [show reversePostedBalanceEffects db t =
          adjustBalance (adjustBalance db f (t.amount + t.transfer_fee)) g (-t.amount) by
          simp [reversePostedBalanceEffects, reverseTransferFromLeg, reverseTransferToLeg,
                htype, hfrom, hto, pyTruthyId, hf0, hg0, hmemf, hmemg]]
    rw [show (adjustBalance (adjustBalance db f (t.amount + t.transfer_fee)) g (-t.amount)).accounts
          = mapBalances (adjustBalance db f (t.amount + t.transfer_fee)).accounts
              (fun a => a.balance + (if a.id = g then -t.amount else 0)) from
        adjust_eq_mapBalances _ g (-t.amount)]
    rw [adjust_eq_mapBalances]
    rw [mapBalances_add _ _ _ (by intro a b; simp)]
    unfold mapBalances
    apply List.map_congr_left
    intro a _
    simp only [txnEffect_transfer t htype hpost f g hfrom hto]
    by_cases hx : a.id = f
    · have hxg : ¬ a.id = g := by rw [hx]; exact hfg
      simp [hx, hxg, hfg]
    · by_cases hy : a.id = g
      · simp [hx, hy, Ne.symm hfg]
      · simp [hx, hy]

theorem reversePostedBalanceEffects_rest (db : DB) (t : Transaction) :
    (reversePostedBalanceEffects db t).transactions = db.transactions ∧
    (reversePostedBalanceEffects db t).allocations = db.allocations ∧
    (reversePostedBalanceEffects db t).budget_entries = db.budget_entries := by
  unfold reversePostedBalanceEffects
  rcases t.transaction_type
  case credit => rcases findAccountById db t.account_id <;> simp [adjustBalance]
  case debit => rcases findAccountById db t.account_id <;> simp [adjustBalance]
  case transfer =>
    have hleg1 : ∀ dbx : DB, (reverseTransferFromLeg dbx t).transactions = dbx.transactions ∧
        (reverseTransferFromLeg dbx t).allocations = dbx.allocations ∧
        (reverseTransferFromLeg dbx t).budget_entries = dbx.budget_entries := by
      intro dbx
      unfold reverseTransferFromLeg
      split
      · split <;> exact ⟨rfl, rfl, rfl⟩
      · exact ⟨rfl, rfl, rfl⟩
    have hleg2 : ∀ dbx : DB, (reverseTransferToLeg dbx t).transactions = dbx.transactions ∧
        (reverseTransferToLeg dbx t).allocations = dbx.allocations ∧
        (reverseTransferToLeg dbx t).budget_entries = dbx.budget_entries := by
      intro dbx
      unfold reverseTransferToLeg
      split
      · split <;> exact ⟨rfl, rfl, rfl⟩
      · exact ⟨rfl, rfl, rfl⟩
    obtain ⟨ha1, ha2, ha3⟩ := hleg1 db
    obtain ⟨hb1, hb2, hb3⟩ := hleg2 (reverseTransferFromLeg db t)
    exact ⟨hb1.trans ha1, hb2.trans ha2, hb3.trans ha3⟩

/-! ## Lemmas: sums of transaction effects -/

theorem sum_effects_append (l1 l2 : List Transaction) (e : Transaction → ℤ) :
    ((l1 ++ l2).map e).sum = (l1.map e).sum + (l2.map e).sum := by
  simp

/-- Replacing the unique transaction with id `tid` changes the effect sum by
the difference of effects. -/
theorem sum_effects_replace (l : List Transaction) (tid : Nat) (t0 t3 : Transaction)
    (e : Transaction → ℤ) (hmem : t0 ∈ l) (hid : t0.id = tid)
    (hnodup : (l.map Transaction.id).Nodup) :
    ((l.map (fun u => if u.id == tid then t3 else u)).map e).sum =
      (l.map e).sum - e t0 + e t3 := by
  induction l with
  | nil => cases hmem
  | cons hd tl ih =>
      simp only [List.map_cons, List.nodup_cons] at hnodup
      obtain ⟨hhd, htl⟩ := hnodup
      rcases List.mem_cons.mp hmem with heq | hmem2
      · subst heq
        have htl2 : ∀ u ∈ tl, (u.id == tid) = false := by
          intro u hu
          have hne : u.id ≠ tid := by
            intro hq
            apply hhd
            rw [hid, ← hq]
            exact List.mem_map_of_mem Transaction.id hu
          simp [hne]
        have hmapid : tl.map (fun u => if u.id == tid then t3 else u) = tl := by
          calc tl.map (fun u => if u.id == tid then t3 else u)
              = tl.map id := List.map_congr_left (fun u hu => by simp [htl2 u hu])
            _ = tl := List.map_id tl
        simp only [List.map_cons, hid, beq_self_eq_true, if_true, hmapid, List.sum_cons]
        ring
      · have hhd2 : (hd.id == tid) = false := by
          have hne : hd.id ≠ tid := by
            intro hq
            apply hhd
            rw [hq, ← hid]
            exact List.mem_map_of_mem Transaction.id hmem2
          simp [hne]
        simp only [List.map_cons, hhd2, Bool.false_eq_true, if_false, List.sum_cons,
          ih hmem2 htl]
        ring

/-- Removing the unique transaction with id `tid` lowers the effect sum by
its effect. -/
theorem sum_effects_remove (l : List Transaction) (tid : Nat) (t0 : Transaction)
    (e : Transaction → ℤ) (hmem : t0 ∈ l) (hid : t0.id = tid)
    (hnodup : (l.map Transaction.id).Nodup) :
    ((l.filter (fun u => u.id != tid)).map e).sum = (l.map e).sum - e t0 := by
  induction l with
  | nil => cases hmem
  | cons hd tl ih =>
      simp only [List.map_cons, List.nodup_cons] at hnodup
      obtain ⟨hhd, htl⟩ := hnodup
      rcases List.mem_cons.mp hmem with heq | hmem2
      · subst heq
        have htl2 : tl.filter (fun u => u.id != tid) = tl := by
          apply List.filter_eq_self.mpr
          intro u hu
          have hne : u.id ≠ tid := by
            intro hq
            apply hhd
            rw [hid, ← hq]
            exact List.mem_map_of_mem Transaction.id hu
          simp [hne]
        rw [List.filter_cons]
        simp only [hid, bne_self_eq_false, Bool.false_eq_true, if_false, htl2,
          List.map_cons, List.sum_cons]
        ring
      · have hhd2 : (hd.id != tid) = true := by
          have hne : hd.id ≠ tid := by
            intro hq
            apply hhd
            rw [hq, ← hid]
            exact List.mem_map_of_mem Transaction.id hmem2
          simp [hne]
        rw [List.filter_cons]
        simp only [hhd2, if_true, List.map_cons, List.sum_cons, ih hmem2 htl]
        ring

/-! ## Lemmas: the budget delta walk -/

/-- The inner step function of the `_apply_budget_delta` fold. -/
def budgetStep (fuel : Nat) (delta : ℤ) (ref : DateTime) (acc : Option DB)
    (a : Allocation) : Option DB :=
  match acc with
  | none => none
  | some db0 =>
      if a.allocation_type != AllocationType.budget then some db0
      else
        match ensure_budget_period fuel a ref with
        | none => none
        | some (a1, _) =>
            some (db0.setAllocation a.id
              { a1 with current_amount := a1.current_amount + delta })

theorem apply_budget_delta_as_fold (fuel : Nat) (db : DB) (l : List Allocation)
    (delta : ℤ) (ref : DateTime) :
    apply_budget_delta fuel db l delta ref =
      if l.isEmpty || delta == 0 then some db
      else l.foldl (budgetStep fuel delta ref) (some db) := rfl

theorem budget_fold_none (fuel : Nat) (delta : ℤ) (ref : DateTime) (l : List Allocation) :
    l.foldl (budgetStep fuel delta ref) none = none := by
  induction l with
  | nil => rfl
  | cons b tb ihb => simp only [List.foldl_cons]; exact ihb

/-- The budget fold only rewrites allocations: accounts, transactions and
budget entries pass through untouched, and the allocation id column is
pointwise preserved. -/
theorem budget_fold_shape (fuel : Nat) (delta : ℤ) (ref : DateTime) :
    ∀ (l : List Allocation) (db db' : DB),
      l.foldl (budgetStep fuel delta ref) (some db) = some db' →
      db'.accounts = db.accounts ∧ db'.transactions = db.transactions ∧
      db'.budget_entries = db.budget_entries ∧
      db'.allocations.map Allocation.id = db.allocations.map Allocation.id := by
  intro l
  induction l with
  | nil =>
      intro db db' h
      obtain rfl := Option.some.inj h
      exact ⟨rfl, rfl, rfl, rfl⟩
  | cons a tl ih =>
      intro db db' h
      simp only [List.foldl_cons, budgetStep] at h
      by_cases hbt : (a.allocation_type != AllocationType.budget) = true
      · rw [if_pos hbt] at h
        exact ih db db' h
      · rw [if_neg hbt] at h
        cases hens : ensure_budget_period fuel a ref with
        | none =>
            rw [hens] at h
            rw [budget_fold_none] at h
            exact absurd h (by simp)
        | some p =>
            obtain ⟨a1, chg⟩ := p
            rw [hens] at h
            obtain ⟨h1, h2, h3, h4⟩ := ih _ _ h
            obtain ⟨_, _, _, hid1, _, _, _, _⟩ := ensure_budget_period_spec fuel a ref a1 chg hens
            refine ⟨h1, h2, h3, ?_⟩
            rw [h4]
            simp only [DB.setAllocation, List.map_map]
            apply List.map_congr_left
            intro b _
            by_cases hb : b.id = a.id
            · simp [Function.comp, hb, hid1]
            · simp [Function.comp, hb]

theorem apply_budget_delta_shape (fuel : Nat) (l : List Allocation) (delta : ℤ)
    (ref : DateTime) (db db' : DB)
    (h : apply_budget_delta fuel db l delta ref = some db') :
    db'.accounts = db.accounts ∧ db'.transactions = db.transactions ∧
    db'.budget_entries = db.budget_entries ∧
    db'.allocations.map Allocation.id = db.allocations.map Allocation.id := by
  rw [apply_budget_delta_as_fold] at h
  split at h
  · obtain rfl := Option.some.inj h
    exact ⟨rfl, rfl, rfl, rfl⟩
  · exact budget_fold_shape fuel delta ref l db db' h

/-! ## Row-level behaviour of the budget fold -/

/-- The value the budget fold leaves in an allocation row of id `r.id`: the
last matched element with that id (unique when the list's ids are distinct),
rolled and bumped by the delta; rows matched by no element pass through. -/
def rollBump (fuel : Nat) (delta : ℤ) (ref : DateTime) (l : List Allocation)
    (r : Allocation) : Allocation :=
  match l.find? (fun b => b.id == r.id) with
  | none => r
  | some b =>
      if b.allocation_type != AllocationType.budget then r
      else
        match ensure_budget_period fuel b ref with
        | none => r
        | some (b1, _) => { b1 with current_amount := b1.current_amount + delta }

theorem setAllocation_allocations (db : DB) (x : Nat) (a1 : Allocation) :
    (DB.setAllocation db x a1).allocations =
      db.allocations.map (fun r => if r.id == x then a1 else r) := rfl

theorem setAllocation_rest (db : DB) (x : Nat) (a1 : Allocation) :
    (DB.setAllocation db x a1).accounts = db.accounts ∧
    (DB.setAllocation db x a1).transactions = db.transactions ∧
    (DB.setAllocation db x a1).budget_entries = db.budget_entries := ⟨rfl, rfl, rfl⟩

/-- In a table with distinct ids, a member is the only row with its id. -/
theorem nodup_row_unique (l : List Allocation) (hnodup : (l.map Allocation.id).Nodup)
    (x y : Allocation) (hx : x ∈ l) (hy : y ∈ l) (hxy : x.id = y.id) : x = y := by
  induction l with
  | nil => cases hx
  | cons a tl ih =>
      simp only [List.map_cons, List.nodup_cons] at hnodup
      rcases List.mem_cons.mp hx with rfl | hx2
      · rcases List.mem_cons.mp hy with rfl | hy2
        · rfl
        · exact absurd (hxy ▸ List.mem_map_of_mem Allocation.id hy2) hnodup.1
      · rcases List.mem_cons.mp hy with rfl | hy2
        · exact absurd (hxy ▸ List.mem_map_of_mem Allocation.id hx2) hnodup.1
        · exact ih hnodup.2 hx2 hy2

theorem find?_id_of_mem_nodup (l : List Allocation) (a : Allocation)
    (hnodup : (l.map Allocation.id).Nodup) (ha : a ∈ l) :
    l.find? (fun b => b.id == a.id) = some a := by
  induction l with
  | nil => cases ha
  | cons b tl ih =>
      simp only [List.map_cons, List.nodup_cons] at hnodup
      rcases List.mem_cons.mp ha with rfl | ha2
      · rw [List.find?_cons_of_pos _ (by simp)]
      · have hne : b.id ≠ a.id := by
          intro hq
          exact hnodup.1 (hq ▸ List.mem_map_of_mem Allocation.id ha2)
        rw [List.find?_cons_of_neg _ (by simp [hne])]
        exact ih hnodup.2 ha2

/-- Computation rule: a row no list element matches passes through
`rollBump` unchanged. -/
theorem rollBump_eq_none (fuel : Nat) (delta : ℤ) (ref : DateTime)
    (l : List Allocation) (r : Allocation)
    (h : l.find? (fun b => b.id == r.id) = none) : rollBump fuel delta ref l r = r := by
  unfold rollBump
  rw [h]

/-- Computation rule: a row matched by a non-budget element passes through
`rollBump` unchanged. -/
theorem rollBump_eq_skip (fuel : Nat) (delta : ℤ) (ref : DateTime)
    (l : List Allocation) (r b : Allocation)
    (h : l.find? (fun c => c.id == r.id) = some b)
    (hbt : (b.allocation_type != AllocationType.budget) = true) :
    rollBump fuel delta ref l r = r := by
  unfold rollBump
  rw [h]
  simp only []
  rw [if_pos hbt]

/-- Computation rule: a row matched by a budget element is rolled from the
matched snapshot and bumped by the delta. -/
theorem rollBump_eq_bump (fuel : Nat) (delta : ℤ) (ref : DateTime)
    (l : List Allocation) (r b b1 : Allocation) (ch : Bool)
    (h : l.find? (fun c => c.id == r.id) = some b)
    (hbt : ¬ (b.allocation_type != AllocationType.budget) = true)
    (hens : ensure_budget_period fuel b ref = some (b1, ch)) :
    rollBump fuel delta ref l r =
      { b1 with current_amount := b1.current_amount + delta } := by
  unfold rollBump
  rw [h]
  simp only []
  rw [if_neg hbt, hens]

/-- A row no list element matches passes through `rollBump` unchanged. -/
theorem rollBump_of_not_found (fuel : Nat) (delta : ℤ) (ref : DateTime)
    (l : List Allocation) (r : Allocation)
    (h : ∀ b ∈ l, b.id ≠ r.id) : rollBump fuel delta ref l r = r := by
  apply rollBump_eq_none
  exact List.find?_eq_none.mpr (by intro b hb; simp [h b hb])

/-- `rollBump` only looks at the matched element for the row's id. -/
theorem rollBump_congr (fuel : Nat) (delta : ℤ) (ref : DateTime)
    (l1 l2 : List Allocation) (r : Allocation)
    (h : l1.find? (fun c => c.id == r.id) = l2.find? (fun c => c.id == r.id)) :
    rollBump fuel delta ref l1 r = rollBump fuel delta ref l2 r := by
  unfold rollBump
  rw [h]

theorem rollBump_id (fuel : Nat) (delta : ℤ) (ref : DateTime) (l : List Allocation)
    (r : Allocation) : (rollBump fuel delta ref l r).id = r.id := by
  cases hfind : l.find? (fun b => b.id == r.id) with
  | none => rw [rollBump_eq_none fuel delta ref l r hfind]
  | some b =>
      have hbid : b.id = r.id := by simpa using List.find?_some hfind
      by_cases hbt : (b.allocation_type != AllocationType.budget) = true
      · rw [rollBump_eq_skip fuel delta ref l r b hfind hbt]
      · cases hens : ensure_budget_period fuel b ref with
        | none =>
            unfold rollBump
            rw [hfind]
            simp only []
            rw [if_neg hbt, hens]
        | some p =>
            obtain ⟨b1, ch⟩ := p
            rw [rollBump_eq_bump fuel delta ref l r b b1 ch hfind hbt hens]
            obtain ⟨-, -, -, hid, -⟩ := ensure_budget_period_spec fuel b ref b1 ch hens
            simpa using hid.trans hbid

/-- The budget fold rewrites the allocation table pointwise by `rollBump`:
each matched budget row is rolled and bumped from its snapshot in the
matched list, every other row passes through. -/
theorem budget_fold_rows (fuel : Nat) (delta : ℤ) (ref : DateTime) :
    ∀ (l : List Allocation) (db db' : DB), (l.map Allocation.id).Nodup →
      l.foldl (budgetStep fuel delta ref) (some db) = some db' →
      db'.allocations = db.allocations.map (rollBump fuel delta ref l) := by
  intro l
  induction l with
  | nil =>
      intro db db' _ h
      obtain rfl := Option.some.inj h
      have hfn : rollBump fuel delta ref [] = id := funext (fun r => rfl)
      rw [hfn, List.map_id]
  | cons b tl ih =>
      intro db db' hnodup h
      simp only [List.map_cons, List.nodup_cons] at hnodup
      have hbtl : ∀ c ∈ tl, c.id ≠ b.id := by
        intro c hc hq
        exact hnodup.1 (hq ▸ List.mem_map_of_mem Allocation.id hc)
      simp only [List.foldl_cons, budgetStep] at h
      by_cases hbt : (b.allocation_type != AllocationType.budget) = true
      · rw [if_pos hbt] at h
        rw [ih db db' hnodup.2 h]
        apply List.map_congr_left
        intro r _
        by_cases hr : b.id = r.id
        · rw [rollBump_of_not_found fuel delta ref tl r
            (fun c hc => hr ▸ hbtl c hc)]
          rw [rollBump_eq_skip fuel delta ref (b :: tl) r b
            (List.find?_cons_of_pos _ (by simp [hr])) hbt]
        · exact (rollBump_congr fuel delta ref (b :: tl) tl r
            (List.find?_cons_of_neg _ (by simp [hr]))).symm
      · rw [if_neg hbt] at h
        cases hens : ensure_budget_period fuel b ref with
        | none =>
            rw [hens, budget_fold_none] at h
            exact absurd h (by simp)
        | some p =>
            obtain ⟨b1, ch⟩ := p
            rw [hens] at h
            simp only [] at h
            obtain ⟨-, -, -, hid, -⟩ := ensure_budget_period_spec fuel b ref b1 ch hens
            rw [ih _ db' hnodup.2 h, setAllocation_allocations, List.map_map]
            apply List.map_congr_left
            intro r _
            show rollBump fuel delta ref tl
                (if r.id == b.id then
                  { b1 with current_amount := b1.current_amount + delta } else r) =
              rollBump fuel delta ref (b :: tl) r
            by_cases hr : r.id = b.id
            · rw [if_pos (show (r.id == b.id) = true by simp [hr])]
              rw [rollBump_of_not_found fuel delta ref tl _
                (by intro c hc; show c.id ≠ b1.id; simpa [hid] using hbtl c hc)]
              rw [rollBump_eq_bump fuel delta ref (b :: tl) r b b1 ch
                (List.find?_cons_of_pos _ (by simp [hr.symm])) hbt hens]
            · rw [if_neg (show ¬ (r.id == b.id) = true by simp [hr])]
              exact (rollBump_congr fuel delta ref (b :: tl) tl r
                (List.find?_cons_of_neg _ (by simp [Ne.symm hr]))).symm

/-- Row-level description of `_apply_budget_delta` on a matched list with
distinct ids and a real delta. -/
theorem apply_budget_delta_rows (fuel : Nat) (db : DB) (l : List Allocation)
    (delta : ℤ) (ref : DateTime) (db' : DB)
    (hnodup : (l.map Allocation.id).Nodup)
    (hne : (l.isEmpty || delta == 0) = false)
    (h : apply_budget_delta fuel db l delta ref = some db') :
    db'.allocations = db.allocations.map (rollBump fuel delta ref l) := by
  rw [apply_budget_delta_as_fold, if_neg (by simp [hne])] at h
  exact budget_fold_rows fuel delta ref l db db' hnodup h

/-! ## The allocation matcher -/

/-- The inner step of the category-matching fold of
`_get_budget_allocations_for_transaction`. -/
def matcherStep (cid : Nat) (acc : List Allocation × List Nat) (a : Allocation) :
    List Allocation × List Nat :=
  if acc.2.contains a.id then acc
  else if categoryIdsContain a cid then (acc.1 ++ [a], acc.2 ++ [a.id])
  else acc

/-- Invariants of the matching fold: the seen set tracks the ids of the
result, only category matches from the candidate list are appended, the seen
set stays duplicate-free and every category match's id ends up in it. -/
theorem matcher_fold_invariant (cid : Nat) :
    ∀ (cand : List Allocation) (acc : List Allocation × List Nat),
      acc.2 = acc.1.map Allocation.id →
      ((cand.foldl (matcherStep cid) acc).2 =
        (cand.foldl (matcherStep cid) acc).1.map Allocation.id) ∧
      (∀ x ∈ (cand.foldl (matcherStep cid) acc).1,
        x ∈ acc.1 ∨ (x ∈ cand ∧ categoryIdsContain x cid = true)) ∧
      (acc.2.Nodup → (cand.foldl (matcherStep cid) acc).2.Nodup) ∧
      (∀ y : Nat, (y ∈ acc.2 ∨ ∃ x ∈ cand, x.id = y ∧ categoryIdsContain x cid = true) →
        y ∈ (cand.foldl (matcherStep cid) acc).2) := by
  intro cand
  induction cand with
  | nil =>
      intro acc hacc
      refine ⟨hacc, fun x hx => Or.inl hx, fun h => h, ?_⟩
      rintro y (hy | ⟨x, hx, -⟩)
      · exact hy
      · cases hx
  | cons a tl ih =>
      intro acc hacc
      simp only [List.foldl_cons]
      by_cases hseen : (acc.2.contains a.id) = true
      · have hstep : matcherStep cid acc a = acc := by
          unfold matcherStep; rw [if_pos hseen]
        rw [hstep]
        obtain ⟨i1, i2, i3, i4⟩ := ih acc hacc
        refine ⟨i1, ?_, i3, ?_⟩
        · intro x hx
          rcases i2 x hx with hx2 | ⟨hx2, hm⟩
          · exact Or.inl hx2
          · exact Or.inr ⟨List.mem_cons_of_mem a hx2, hm⟩
        · rintro y (hy | ⟨x, hx, hid, hm⟩)
          · exact i4 y (Or.inl hy)
          · rcases List.mem_cons.mp hx with rfl | hx2
            · refine i4 y (Or.inl ?_)
              rw [← hid]
              simpa [List.contains, List.elem_eq_mem] using hseen
            · exact i4 y (Or.inr ⟨x, hx2, hid, hm⟩)
      · by_cases hm : categoryIdsContain a cid = true
        · have hstep : matcherStep cid acc a = (acc.1 ++ [a], acc.2 ++ [a.id]) := by
            unfold matcherStep; rw [if_neg hseen, if_pos hm]
          rw [hstep]
          have hacc2 : (acc.2 ++ [a.id]) = (acc.1 ++ [a]).map Allocation.id := by
            rw [List.map_append, hacc]
            rfl
          obtain ⟨i1, i2, i3, i4⟩ := ih (acc.1 ++ [a], acc.2 ++ [a.id]) hacc2
          refine ⟨i1, ?_, ?_, ?_⟩
          · intro x hx
            rcases i2 x hx with hx2 | ⟨hx2, hmx⟩
            · rcases List.mem_append.mp hx2 with hx3 | hx3
              · exact Or.inl hx3
              · have hxa : x = a := List.mem_singleton.mp hx3
                rw [hxa]
                exact Or.inr ⟨List.mem_cons_self a tl, hm⟩
            · exact Or.inr ⟨List.mem_cons_of_mem a hx2, hmx⟩
          · intro hnd
            apply i3
            rw [List.nodup_append]
            refine ⟨hnd, List.nodup_singleton _, ?_⟩
            intro y hy
            simp only [List.mem_singleton]
            intro hq
            rw [hq] at hy
            exact absurd (by simpa [List.contains, List.elem_eq_mem] using hy) (by simpa using hseen)
          · rintro y (hy | ⟨x, hx, hid, hmx⟩)
            · exact i4 y (Or.inl (List.mem_append_left _ hy))
            · rcases List.mem_cons.mp hx with rfl | hx2
              · exact i4 y (Or.inl (List.mem_append_right _ (by simp [hid])))
              · exact i4 y (Or.inr ⟨x, hx2, hid, hmx⟩)
        · have hstep : matcherStep cid acc a = acc := by
            unfold matcherStep
            rw [if_neg hseen, if_neg (by simpa using hm)]
          rw [hstep]
          obtain ⟨i1, i2, i3, i4⟩ := ih acc hacc
          refine ⟨i1, ?_, i3, ?_⟩
          · intro x hx
            rcases i2 x hx with hx2 | ⟨hx2, hmx⟩
            · exact Or.inl hx2
            · exact Or.inr ⟨List.mem_cons_of_mem a hx2, hmx⟩
          · rintro y (hy | ⟨x, hx, hid, hmx⟩)
            · exact i4 y (Or.inl hy)
            · rcases List.mem_cons.mp hx with rfl | hx2
              · exact absurd hmx (by simpa using hm)
              · exact i4 y (Or.inr ⟨x, hx2, hid, hmx⟩)

/-- A successful fold ran the roller to completion on every matched budget
allocation. -/
theorem budget_fold_ensure_some (fuel : Nat) (delta : ℤ) (ref : DateTime) :
    ∀ (l : List Allocation) (db db' : DB),
      l.foldl (budgetStep fuel delta ref) (some db) = some db' →
      ∀ b ∈ l, (b.allocation_type != AllocationType.budget) = true ∨
        ∃ p, ensure_budget_period fuel b ref = some p := by
  intro l
  induction l with
  | nil =>
      intro db db' _ b hb
      cases hb
  | cons c tl ih =>
      intro db db' h b hb
      simp only [List.foldl_cons, budgetStep] at h
      by_cases hbt : (c.allocation_type != AllocationType.budget) = true
      · rw [if_pos hbt] at h
        rcases List.mem_cons.mp hb with rfl | hb2
        · exact Or.inl hbt
        · exact ih db db' h b hb2
      · rw [if_neg hbt] at h
        cases hens : ensure_budget_period fuel c ref with
        | none =>
            rw [hens, budget_fold_none] at h
            exact absurd h (by simp)
        | some p =>
            rw [hens] at h
            simp only [] at h
            rcases List.mem_cons.mp hb with rfl | hb2
            · exact Or.inr ⟨p, hens⟩
            · exact ih _ db' h b hb2

/-- The explicit head of the matched list: the allocation the transaction
references directly, when it is a budget allocation of the caller. -/
def explicitPart (db : DB) (uid : Nat) (aidOpt : Option Nat) : List Allocation :=
  if pyTruthyId aidOpt then
    match db.allocations.find? (fun a =>
        a.id == aidOpt.getD 0 && a.user_id == uid &&
        a.allocation_type == AllocationType.budget) with
    | some a => [a]
    | none => []
  else []

theorem get_budget_none_cat (db : DB) (uid : Nat) (aidOpt : Option Nat) :
    get_budget_allocations_for_transaction db uid aidOpt none =
      explicitPart db uid aidOpt := rfl

theorem get_budget_as_matcher (db : DB) (uid : Nat) (aidOpt : Option Nat) (cid : Nat) :
    get_budget_allocations_for_transaction db uid aidOpt (some cid) =
      ((db.allocations.filter (fun a => a.user_id == uid &&
          a.allocation_type == AllocationType.budget)).foldl (matcherStep cid)
        (explicitPart db uid aidOpt, (explicitPart db uid aidOpt).map Allocation.id)).1 := rfl

theorem explicitPart_sound (db : DB) (uid : Nat) (aidOpt : Option Nat) :
    ∀ y ∈ explicitPart db uid aidOpt,
      y ∈ db.allocations ∧ y.user_id = uid ∧ y.allocation_type = .budget := by
  intro y hy
  unfold explicitPart at hy
  split at hy
  · cases hfind : db.allocations.find? (fun a =>
        a.id == aidOpt.getD 0 && a.user_id == uid &&
        a.allocation_type == AllocationType.budget) with
    | none => rw [hfind] at hy; cases hy
    | some b =>
        rw [hfind] at hy
        have hyb : y = b := List.mem_singleton.mp hy
        subst hyb
        have hmem := List.mem_of_find?_eq_some hfind
        have hp := List.find?_some hfind
        simp only [Bool.and_eq_true, beq_iff_eq] at hp
        exact ⟨hmem, hp.1.2, hp.2⟩
  · cases hy

theorem explicitPart_ids_nodup (db : DB) (uid : Nat) (aidOpt : Option Nat) :
    ((explicitPart db uid aidOpt).map Allocation.id).Nodup := by
  unfold explicitPart
  split
  · cases hfind : db.allocations.find? (fun a =>
        a.id == aidOpt.getD 0 && a.user_id == uid &&
        a.allocation_type == AllocationType.budget) with
    | none => simp
    | some b => simp
  · simp

/-- Every matched allocation is a stored budget allocation of the caller. -/
theorem get_budget_allocations_sound (db : DB) (uid : Nat) (aidOpt cidOpt : Option Nat) :
    ∀ x ∈ get_budget_allocations_for_transaction db uid aidOpt cidOpt,
      x ∈ db.allocations ∧ x.user_id = uid ∧ x.allocation_type = .budget := by
  intro x hx
  cases cidOpt with
  | none =>
      rw [get_budget_none_cat] at hx
      exact explicitPart_sound db uid aidOpt x hx
  | some cid =>
      rw [get_budget_as_matcher] at hx
      obtain ⟨-, i2, -, -⟩ := matcher_fold_invariant cid
        (db.allocations.filter (fun a => a.user_id == uid &&
          a.allocation_type == AllocationType.budget))
        (explicitPart db uid aidOpt, (explicitPart db uid aidOpt).map Allocation.id) rfl
      rcases i2 x hx with hx2 | ⟨hx2, -⟩
      · exact explicitPart_sound db uid aidOpt x hx2
      · have := List.mem_filter.mp hx2
        simp only [Bool.and_eq_true, beq_iff_eq] at this
        exact ⟨this.1, this.2.1, this.2.2⟩

/-- The matched list carries no allocation twice: an allocation matched both
explicitly and by category is included once. -/
theorem get_budget_allocations_nodup (db : DB) (uid : Nat) (aidOpt cidOpt : Option Nat) :
    ((get_budget_allocations_for_transaction db uid aidOpt cidOpt).map Allocation.id).Nodup := by
  cases cidOpt with
  | none =>
      rw [get_budget_none_cat]
      exact explicitPart_ids_nodup db uid aidOpt
  | some cid =>
      rw [get_budget_as_matcher]
      obtain ⟨i1, -, i3, -⟩ := matcher_fold_invariant cid
        (db.allocations.filter (fun a => a.user_id == uid &&
          a.allocation_type == AllocationType.budget))
        (explicitPart db uid aidOpt, (explicitPart db uid aidOpt).map Allocation.id) rfl
      rw [← i1]
      exact i3 (explicitPart_ids_nodup db uid aidOpt)

/-- Category matching, for a transaction with no explicit allocation: a
stored budget allocation of the caller is matched exactly when its coerced
`category_ids` list contains the transaction's category id. -/
theorem get_budget_allocations_mem_iff (db : DB) (uid cid : Nat) (a : Allocation)
    (hnodup : (db.allocations.map Allocation.id).Nodup)
    (ha : a ∈ db.allocations) (hu : a.user_id = uid)
    (hb : a.allocation_type = .budget) :
    a ∈ get_budget_allocations_for_transaction db uid none (some cid) ↔
      categoryIdsContain a cid = true := by
  rw [get_budget_as_matcher]
  obtain ⟨i1, i2, -, i4⟩ := matcher_fold_invariant cid
    (db.allocations.filter (fun a => a.user_id == uid &&
      a.allocation_type == AllocationType.budget))
    (explicitPart db uid none, (explicitPart db uid none).map Allocation.id) rfl
  have hexp : explicitPart db uid none = [] := rfl
  constructor
  · intro h
    rcases i2 a h with h0 | ⟨-, hm⟩
    · rw [hexp] at h0; cases h0
    · exact hm
  · intro hm
    have hcand : a ∈ db.allocations.filter (fun a => a.user_id == uid &&
        a.allocation_type == AllocationType.budget) := by
      apply List.mem_filter.mpr
      exact ⟨ha, by simp [hu, hb]⟩
    have hid : a.id ∈ ((db.allocations.filter (fun a => a.user_id == uid &&
        a.allocation_type == AllocationType.budget)).foldl (matcherStep cid)
        (explicitPart db uid none, (explicitPart db uid none).map Allocation.id)).2 :=
      i4 a.id (Or.inr ⟨a, hcand, rfl, hm⟩)
    rw [i1] at hid
    obtain ⟨x, hx, hxid⟩ := List.mem_map.mp hid
    obtain ⟨hxdb, -, -⟩ := get_budget_allocations_sound db uid none (some cid) x
      (by rw [get_budget_as_matcher]; exact hx)
    have hxa : x = a := nodup_row_unique db.allocations hnodup x a hxdb ha hxid
    rw [← hxa]
    exact hx

/-- Applying a matched-list delta never rewrites the row of a non-budget
allocation: the matcher selects only budget allocations, and in a
duplicate-free table none of them shares the row's id. -/
theorem apply_budget_matched_nonbudget (fuel : Nat) (db db' : DB) (uid : Nat)
    (aidOpt cidOpt : Option Nat) (delta : ℤ) (ref : DateTime) (a : Allocation)
    (hnodup : (db.allocations.map Allocation.id).Nodup)
    (htype : a.allocation_type ≠ .budget)
    (hfind : db.allocations.find? (fun r => r.id == a.id) = some a)
    (h : apply_budget_delta fuel db
      (get_budget_allocations_for_transaction db uid aidOpt cidOpt) delta ref = some db') :
    db'.allocations.find? (fun r => r.id == a.id) = some a := by
  have ha : a ∈ db.allocations := List.mem_of_find?_eq_some hfind
  have hnotmem : ∀ x ∈ get_budget_allocations_for_transaction db uid aidOpt cidOpt,
      x.id ≠ a.id := by
    intro x hx hq
    obtain ⟨hxdb, -, hxb⟩ := get_budget_allocations_sound db uid aidOpt cidOpt x hx
    have hxa : x = a := nodup_row_unique db.allocations hnodup x a hxdb ha hq
    rw [hxa] at hxb
    exact htype hxb
  rw [apply_budget_delta_as_fold] at h
  split at h
  · obtain rfl := Option.some.inj h
    exact hfind
  · have hrows := budget_fold_rows fuel delta ref _ db db'
      (get_budget_allocations_nodup db uid aidOpt cidOpt) h
    rw [hrows, List.find?_map]
    have hcomp : ((fun r : Allocation => r.id == a.id) ∘
        rollBump fuel delta ref (get_budget_allocations_for_transaction db uid aidOpt
          cidOpt)) = (fun r : Allocation => r.id == a.id) := by
      funext r
      simp [Function.comp, rollBump_id]
    rw [hcomp, hfind]
    show some (rollBump fuel delta ref _ a) = _
    rw [rollBump_of_not_found fuel delta ref _ a hnotmem]

/-- The matcher reads only the allocation table. -/
theorem get_budget_allocations_congr (db db' : DB) (uid : Nat) (aidOpt cidOpt : Option Nat)
    (h : db'.allocations = db.allocations) :
    get_budget_allocations_for_transaction db' uid aidOpt cidOpt =
      get_budget_allocations_for_transaction db uid aidOpt cidOpt := by
  unfold get_budget_allocations_for_transaction
  rw [h]

theorem find?_congr_mem {α : Type} (p q : α → Bool) (l : List α)
    (h : ∀ x ∈ l, p x = q x) : l.find? p = l.find? q := by
  induction l with
  | nil => rfl
  | cons a tl ih =>
      have ha := h a (List.mem_cons_self a tl)
      by_cases hpa : p a = true
      · rw [List.find?_cons_of_pos _ hpa, List.find?_cons_of_pos _ (ha ▸ hpa)]
      · rw [List.find?_cons_of_neg _ hpa, List.find?_cons_of_neg _ (ha ▸ hpa)]
        exact ih (fun x hx => h x (List.mem_cons_of_mem a hx))

theorem categoryIdsContain_congr (a a' : Allocation) (cid : Nat)
    (h : a'.configuration = a.configuration) :
    categoryIdsContain a' cid = categoryIdsContain a cid := by
  unfold categoryIdsContain allocCategoryIdValues
  rw [h]

/-- The matching fold commutes with a row transformation that keeps each
candidate's id and category memberships. -/
theorem matcher_fold_map (cid : Nat) (u : Allocation → Allocation) :
    ∀ (cand : List Allocation) (A : List Allocation) (I : List Nat),
      (∀ x ∈ cand, (u x).id = x.id ∧
        categoryIdsContain (u x) cid = categoryIdsContain x cid) →
      (cand.map u).foldl (matcherStep cid) (A.map u, I) =
        (((cand.foldl (matcherStep cid) (A, I)).1).map u,
         (cand.foldl (matcherStep cid) (A, I)).2) := by
  intro cand
  induction cand with
  | nil =>
      intro A I _
      rfl
  | cons a tl ih =>
      intro A I hx
      obtain ⟨hid, hcat⟩ := hx a (List.mem_cons_self a tl)
      have htl := fun x h2 => hx x (List.mem_cons_of_mem a h2)
      simp only [List.map_cons, List.foldl_cons]
      by_cases hseen : (I.contains a.id) = true
      · have hstepL : matcherStep cid (A.map u, I) (u a) = (A.map u, I) := by
          unfold matcherStep
          simp only []
          rw [hid, if_pos hseen]
        have hstepR : matcherStep cid (A, I) a = (A, I) := by
          unfold matcherStep
          simp only []
          rw [if_pos hseen]
        rw [hstepL, hstepR]
        exact ih A I htl
      · by_cases hm : categoryIdsContain a cid = true
        · have hstepL : matcherStep cid (A.map u, I) (u a) =
              ((A ++ [a]).map u, I ++ [a.id]) := by
            unfold matcherStep
            simp only []
            rw [hid, if_neg hseen, hcat, if_pos hm, List.map_append]
            rfl
          have hstepR : matcherStep cid (A, I) a = (A ++ [a], I ++ [a.id]) := by
            unfold matcherStep
            simp only []
            rw [if_neg hseen, if_pos hm]
          rw [hstepL, hstepR]
          exact ih (A ++ [a]) (I ++ [a.id]) htl
        · have hstepL : matcherStep cid (A.map u, I) (u a) = (A.map u, I) := by
            unfold matcherStep
            simp only []
            rw [hid, if_neg hseen, hcat, if_neg (by simpa using hm)]
          have hstepR : matcherStep cid (A, I) a = (A, I) := by
            unfold matcherStep
            simp only []
            rw [if_neg hseen, if_neg (by simpa using hm)]
          rw [hstepL, hstepR]
          exact ih A I htl

/-- The whole matcher commutes with a row transformation that keeps each
stored allocation's id, owner, type and configuration. -/
theorem get_budget_allocations_map (db db' : DB) (uid : Nat) (aidOpt cidOpt : Option Nat)
    (u : Allocation → Allocation)
    (hall : db'.allocations = db.allocations.map u)
    (hu : ∀ r ∈ db.allocations, (u r).id = r.id ∧ (u r).user_id = r.user_id ∧
      (u r).allocation_type = r.allocation_type ∧ (u r).configuration = r.configuration) :
    get_budget_allocations_for_transaction db' uid aidOpt cidOpt =
      (get_budget_allocations_for_transaction db uid aidOpt cidOpt).map u := by
  have hexp : explicitPart db' uid aidOpt = (explicitPart db uid aidOpt).map u := by
    unfold explicitPart
    split
    · rw [hall, List.find?_map]
      rw [show db.allocations.find? ((fun a => a.id == aidOpt.getD 0 && a.user_id == uid &&
            a.allocation_type == AllocationType.budget) ∘ u) =
          db.allocations.find? (fun a => a.id == aidOpt.getD 0 && a.user_id == uid &&
            a.allocation_type == AllocationType.budget) from
        find?_congr_mem _ _ _ (fun x hxm => by
          simp [Function.comp, (hu x hxm).1, (hu x hxm).2.1, (hu x hxm).2.2.1])]
      cases hf : db.allocations.find? (fun a => a.id == aidOpt.getD 0 && a.user_id == uid &&
          a.allocation_type == AllocationType.budget) with
      | none => rfl
      | some b => rfl
    · rfl
  cases cidOpt with
  | none =>
      rw [get_budget_none_cat, get_budget_none_cat]
      exact hexp
  | some cid =>
      rw [get_budget_as_matcher, get_budget_as_matcher]
      have hcand : db'.allocations.filter (fun a => a.user_id == uid &&
          a.allocation_type == AllocationType.budget) =
          (db.allocations.filter (fun a => a.user_id == uid &&
            a.allocation_type == AllocationType.budget)).map u := by
        rw [hall, List.filter_map]
        congr 1
        apply List.filter_congr
        intro x hxm
        simp [Function.comp, (hu x hxm).2.1, (hu x hxm).2.2.1]
      have hexpid : (explicitPart db' uid aidOpt).map Allocation.id =
          (explicitPart db uid aidOpt).map Allocation.id := by
        rw [hexp, List.map_map]
        apply List.map_congr_left
        intro x hxm
        have hxdb := (explicitPart_sound db uid aidOpt x hxm).1
        simp [Function.comp, (hu x hxdb).1]
      rw [hexpid, hexp, hcand]
      exact congrArg Prod.fst (matcher_fold_map cid u _ (explicitPart db uid aidOpt)
        ((explicitPart db uid aidOpt).map Allocation.id) (fun x hxm => by
          have hxdb := (List.mem_filter.mp hxm).1
          exact ⟨(hu x hxdb).1,
            categoryIdsContain_congr x (u x) cid (hu x hxdb).2.2.2⟩))

/-- When every matched allocation's window already contains the reference,
`rollBump` preserves each stored row's identity columns and window. -/
theorem rollBump_member_fields (fuel : Nat) (delta : ℤ) (ref : DateTime)
    (db : DB) (l : List Allocation)
    (hnodup : (db.allocations.map Allocation.id).Nodup)
    (hsub : ∀ b ∈ l, b ∈ db.allocations)
    (hper : ∀ b ∈ l, ∃ s e, b.period_start = some s ∧ b.period_end = some e ∧
      s.key ≤ ref.key ∧ ref.key < e.key) :
    ∀ r ∈ db.allocations, (rollBump fuel delta ref l r).id = r.id ∧
      (rollBump fuel delta ref l r).user_id = r.user_id ∧
      (rollBump fuel delta ref l r).allocation_type = r.allocation_type ∧
      (rollBump fuel delta ref l r).configuration = r.configuration ∧
      (rollBump fuel delta ref l r).period_start = r.period_start ∧
      (rollBump fuel delta ref l r).period_end = r.period_end := by
  intro r hr
  cases hfind : l.find? (fun c => c.id == r.id) with
  | none =>
      rw [rollBump_eq_none fuel delta ref l r hfind]
      exact ⟨rfl, rfl, rfl, rfl, rfl, rfl⟩
  | some b =>
      have hbid : b.id = r.id := by simpa using List.find?_some hfind
      have hbl : b ∈ l := List.mem_of_find?_eq_some hfind
      have hbr : b = r := nodup_row_unique db.allocations hnodup b r (hsub b hbl) hr hbid
      subst hbr
      by_cases hbt : (b.allocation_type != AllocationType.budget) = true
      · rw [rollBump_eq_skip fuel delta ref l b b hfind hbt]
        exact ⟨rfl, rfl, rfl, rfl, rfl, rfl⟩
      · obtain ⟨s, e, hps, hpe, h1, h2⟩ := hper b hbl
        have hens := ensure_budget_period_noop fuel b ref s e hps hpe h1 h2
        rw [rollBump_eq_bump fuel delta ref l b b b false hfind hbt hens]
        exact ⟨rfl, rfl, rfl, rfl, rfl, rfl⟩

/-- Reversing a delta and re-applying it over the re-read matched list is
the identity on every stored row, provided every matched window already
contains the reference (so neither pass rolls or resets). -/
theorem rollBump_roundtrip (fuel : Nat) (d : ℤ) (ref : DateTime) (db : DB)
    (l0 : List Allocation)
    (hnodup : (db.allocations.map Allocation.id).Nodup)
    (hnodupl : (l0.map Allocation.id).Nodup)
    (hsub : ∀ b ∈ l0, b ∈ db.allocations)
    (hbud : ∀ b ∈ l0, b.allocation_type = .budget)
    (hper : ∀ b ∈ l0, ∃ s e, b.period_start = some s ∧ b.period_end = some e ∧
      s.key ≤ ref.key ∧ ref.key < e.key) :
    ∀ r ∈ db.allocations,
      rollBump fuel d ref (l0.map (rollBump fuel (-d) ref l0))
        (rollBump fuel (-d) ref l0 r) = r := by
  have hfl2 : ∀ x : Allocation,
      (l0.map (rollBump fuel (-d) ref l0)).find? (fun c => c.id == x.id) =
        (l0.find? (fun c => c.id == x.id)).map (rollBump fuel (-d) ref l0) := by
    intro x
    rw [List.find?_map]
    congr 1
    apply find?_congr_mem
    intro c _
    simp [Function.comp, rollBump_id]
  intro r hr
  cases hfind : l0.find? (fun c => c.id == r.id) with
  | none =>
      rw [rollBump_eq_none fuel (-d) ref l0 r hfind]
      rw [rollBump_eq_none fuel d ref _ r (by rw [hfl2 r, hfind]; rfl)]
  | some b =>
      have hbid : b.id = r.id := by simpa using List.find?_some hfind
      have hbl : b ∈ l0 := List.mem_of_find?_eq_some hfind
      have hbr : b = r := nodup_row_unique db.allocations hnodup b r (hsub b hbl) hr hbid
      subst hbr
      obtain ⟨s, e, hps, hpe, h1, h2⟩ := hper b hbl
      have hbt : ¬ (b.allocation_type != AllocationType.budget) = true := by
        simp [hbud b hbl]
      have hens := ensure_budget_period_noop fuel b ref s e hps hpe h1 h2
      have hval1 : rollBump fuel (-d) ref l0 b =
          { b with current_amount := b.current_amount + -d } :=
        rollBump_eq_bump fuel (-d) ref l0 b b b false hfind hbt hens
      rw [hval1]
      have hfind' : l0.find? (fun c => c.id ==
          ({ b with current_amount := b.current_amount + -d } : Allocation).id) = some b :=
        hfind
      have hfind2 : (l0.map (rollBump fuel (-d) ref l0)).find?
          (fun c => c.id ==
            ({ b with current_amount := b.current_amount + -d } : Allocation).id) =
          some { b with current_amount := b.current_amount + -d } := by
        rw [hfl2 { b with current_amount := b.current_amount + -d }, hfind']
        show some (rollBump fuel (-d) ref l0 b) = _
        rw [hval1]
      have hbt' : ¬ (({ b with current_amount := b.current_amount + -d } :
          Allocation).allocation_type != AllocationType.budget) = true := hbt
      have hens' : ensure_budget_period fuel
          { b with current_amount := b.current_amount + -d } ref =
          some ({ b with current_amount := b.current_amount + -d }, false) :=
        ensure_budget_period_noop fuel _ ref s e hps hpe h1 h2
      rw [rollBump_eq_bump fuel d ref (l0.map (rollBump fuel (-d) ref l0))
        { b with current_amount := b.current_amount + -d }
        { b with current_amount := b.current_amount + -d }
        { b with current_amount := b.current_amount + -d } false hfind2 hbt' hens']
      show ({ b with current_amount := b.current_amount + -d + d } : Allocation) = b
      rw [show b.current_amount + -d + d = b.current_amount by ring]

/-- The budget reversal phase leaves every non-budget allocation row exactly
in place (and the table's ids duplicate-free). -/
theorem reverseBudgetEffects_nonbudget (fuel : Nat) (db db' : DB) (uid : Nat)
    (t : Transaction) (a : Allocation)
    (hnodup : (db.allocations.map Allocation.id).Nodup)
    (htype : a.allocation_type ≠ .budget)
    (hfind : db.allocations.find? (fun r => r.id == a.id) = some a)
    (h : reverseBudgetEffects fuel db uid t = some db') :
    db'.allocations.find? (fun r => r.id == a.id) = some a ∧
    (db'.allocations.map Allocation.id).Nodup := by
  unfold reverseBudgetEffects at h
  simp only [] at h
  split at h
  · obtain rfl := Option.some.inj h
    exact ⟨hfind, hnodup⟩
  · refine ⟨apply_budget_matched_nonbudget fuel db db' uid t.allocation_id t.category_id
      _ t.transaction_date a hnodup htype hfind h, ?_⟩
    have hids := (apply_budget_delta_shape fuel _ _ t.transaction_date db db' h).2.2.2
    rw [hids]
    exact hnodup

/-- The budget application phase leaves every non-budget allocation row
exactly in place (and the table's ids duplicate-free). -/
theorem applyBudgetEffects_nonbudget (fuel : Nat) (db db' : DB) (uid : Nat)
    (t : Transaction) (a : Allocation)
    (hnodup : (db.allocations.map Allocation.id).Nodup)
    (htype : a.allocation_type ≠ .budget)
    (hfind : db.allocations.find? (fun r => r.id == a.id) = some a)
    (h : applyBudgetEffects fuel db uid t = some db') :
    db'.allocations.find? (fun r => r.id == a.id) = some a ∧
    (db'.allocations.map Allocation.id).Nodup := by
  unfold applyBudgetEffects at h
  simp only [] at h
  split at h
  · obtain rfl := Option.some.inj h
    exact ⟨hfind, hnodup⟩
  · refine ⟨apply_budget_matched_nonbudget fuel db db' uid t.allocation_id t.category_id
      _ t.transaction_date a hnodup htype hfind h, ?_⟩
    have hids := (apply_budget_delta_shape fuel _ _ t.transaction_date db db' h).2.2.2
    rw [hids]
    exact hnodup

/-- Helper facts about the budget phases of the endpoints. -/
theorem applyBudgetEffects_shape (fuel : Nat) (db : DB) (uid : Nat) (t : Transaction)
    (db' : DB) (h : applyBudgetEffects fuel db uid t = some db') :
    db'.accounts = db.accounts ∧ db'.transactions = db.transactions ∧
    db'.budget_entries = db.budget_entries ∧
    db'.allocations.map Allocation.id = db.allocations.map Allocation.id := by
  unfold applyBudgetEffects at h
  simp only [] at h
  split at h
  · obtain rfl := Option.some.inj h
    exact ⟨rfl, rfl, rfl, rfl⟩
  · exact apply_budget_delta_shape fuel _ _ _ db db' h

theorem reverseBudgetEffects_shape (fuel : Nat) (db : DB) (uid : Nat) (t : Transaction)
    (db' : DB) (h : reverseBudgetEffects fuel db uid t = some db') :
    db'.accounts = db.accounts ∧ db'.transactions = db.transactions ∧
    db'.budget_entries = db.budget_entries ∧
    db'.allocations.map Allocation.id = db.allocations.map Allocation.id := by
  unfold reverseBudgetEffects at h
  simp only [] at h
  split at h
  · obtain rfl := Option.some.inj h
    exact ⟨rfl, rfl, rfl, rfl⟩
  · exact apply_budget_delta_shape fuel _ _ _ db db' h

/-- The forward balance effects depend only on the account table. -/
theorem applyPostedBalanceEffects_accounts_congr (dbA dbB : DB) (t : Transaction)
    (hacc : dbA.accounts = dbB.accounts) :
    (applyPostedBalanceEffects dbA t).accounts = (applyPostedBalanceEffects dbB t).accounts := by
  unfold applyPostedBalanceEffects
  split
  · simp [adjustBalance, hacc]
  · split
    · simp [adjustBalance, hacc]
    · split
      · rcases t.transfer_to_account_id <;> simp [adjustBalance, hacc]
      · exact hacc

/-- The reversal phase of an update only rewrites account balances and
budget-typed allocations. -/
theorem updateReversalPhase_shape (fuel : Nat) (db : DB) (uid : Nat) (t0 : Transaction)
    (db2 : DB) (h : updateReversalPhase fuel db uid t0 = some db2) :
    db2.transactions = db.transactions ∧ db2.budget_entries = db.budget_entries ∧
    db2.accounts = (if t0.is_posted then reversePostedBalanceEffects db t0 else db).accounts ∧
    db2.allocations.map Allocation.id = db.allocations.map Allocation.id := by
  unfold updateReversalPhase at h
  split at h
  · rename_i hpost
    obtain ⟨h1, h2, h3, h4⟩ :=
      reverseBudgetEffects_shape fuel (reversePostedBalanceEffects db t0) uid t0 db2 h
    obtain ⟨hr1, hr2, hr3⟩ := reversePostedBalanceEffects_rest db t0
    refine ⟨h2.trans hr1, h3.trans hr3, ?_, h4.trans (by rw [hr2])⟩
    rw [if_pos (by assumption), h1]
  · obtain rfl := Option.some.inj h
    rename_i hpost
    refine ⟨rfl, rfl, ?_, rfl⟩
    rw [if_neg (by assumption)]

/-- Every stored transaction id is strictly below the next serial id. -/
theorem freshTransactionId_gt (db : DB) :
    ∀ t ∈ db.transactions, t.id < freshTransactionId db := by
  have hgen : ∀ (l : List Transaction) (m : Nat),
      (∀ t ∈ l, t.id ≤ l.foldl (fun acc t => max acc t.id) m) ∧
      m ≤ l.foldl (fun acc t => max acc t.id) m := by
    intro l
    induction l with
    | nil =>
        intro m
        refine ⟨?_, Nat.le_refl m⟩
        intro t ht
        cases ht
    | cons hd tl ih =>
        intro m
        obtain ⟨ih1, ih2⟩ := ih (max m hd.id)
        refine ⟨?_, ?_⟩
        · intro t ht
          rcases List.mem_cons.mp ht with rfl | hmem
          · exact le_trans (le_trans (le_max_right m t.id) ih2) (by rfl)
          · exact ih1 t hmem
        · exact le_trans (le_max_left m hd.id) ih2
  intro t ht
  have := (hgen db.transactions 0).1 t ht
  exact Nat.lt_succ_of_le this

theorem freshTransactionId_not_mem (db : DB) :
    ∀ t ∈ db.transactions, t.id ≠ freshTransactionId db := by
  intro t ht
  exact Nat.ne_of_lt (freshTransactionId_gt db t ht)

/-! ## Inversion lemmas for the endpoints -/

/-- Inversion of a successful account resolution on create. -/
theorem resolveCreateAccounts_ok (db : DB) (uid : Nat) (inp : TransactionCreate)
    (src : Account) (dstOpt : Option Account) (projCur origCur : Option Currency)
    (heq : resolveCreateAccounts db uid inp = .ok (src, dstOpt, projCur, origCur)) :
    (inp.transaction_type = .transfer →
        ∃ f g dst, inp.transfer_from_account_id = some f ∧
          inp.transfer_to_account_id = some g ∧ f ≠ g ∧ inp.account_id = f ∧
          findOwnedAccount db f uid = some src ∧ findOwnedAccount db g uid = some dst ∧
          dstOpt = some dst ∧
          projCur = (if inp.projected_currency.isNone && inp.projected_amount.isSome
            then some dst.currency else inp.projected_currency) ∧
          origCur = (if inp.original_currency.isNone && inp.original_amount.isSome
            then some dst.currency else inp.original_currency)) ∧
    (inp.transaction_type ≠ .transfer →
        findOwnedAccount db inp.account_id uid = some src ∧
        projCur = (if inp.projected_currency.isNone && inp.projected_amount.isSome
          then some src.currency else inp.projected_currency) ∧
        origCur = (if inp.original_currency.isNone && inp.original_amount.isSome
          then some inp.currency else inp.original_currency)) := by
  unfold resolveCreateAccounts at heq
  by_cases htype : inp.transaction_type = TransactionType.transfer
  · rw [if_pos (by simp [htype])] at heq
    rcases hfrom : inp.transfer_from_account_id with _ | f <;> rw [hfrom] at heq
    · exact absurd heq (by simp)
    · rcases hto : inp.transfer_to_account_id with _ | g <;> rw [hto] at heq
      · exact absurd heq (by simp)
      · simp only [] at heq
        by_cases hfg : (f == g) = true
        · rw [if_pos hfg] at heq
          exact absurd heq (by simp)
        · rw [if_neg hfg] at heq
          by_cases hacc : (inp.account_id != f) = true
          · rw [if_pos hacc] at heq
            exact absurd heq (by simp)
          · rw [if_neg hacc] at heq
            rcases hsrc : findOwnedAccount db f uid with _ | src0 <;> rw [hsrc] at heq
            · exact absurd heq (by simp)
            · rcases hdst : findOwnedAccount db g uid with _ | dst0 <;> rw [hdst] at heq
              · exact absurd heq (by simp)
              · have heq2 := Except.ok.inj heq
                have hsrc2 : src0 = src := congrArg (fun q => q.1) heq2
                have hdsto : dstOpt = some dst0 := by
                  have hc := congrArg (fun q => q.2.1) heq2
                  simpa using hc.symm
                have hproj : projCur = (if inp.projected_currency.isNone && inp.projected_amount.isSome
                    then some dst0.currency else inp.projected_currency) := by
                  have hc := congrArg (fun q => q.2.2.1) heq2
                  simpa using hc.symm
                have horig : origCur = (if inp.original_currency.isNone && inp.original_amount.isSome
                    then some dst0.currency else inp.original_currency) := by
                  have hc := congrArg (fun q => q.2.2.2) heq2
                  simpa using hc.symm
                exact ⟨fun _ => ⟨f, g, dst0, rfl, rfl, by simpa using hfg,
                  by simpa using hacc, hsrc2 ▸ hsrc, hdst, hdsto, hproj, horig⟩,
                  fun hc => absurd htype hc⟩
  · rw [if_neg (by simp [htype])] at heq
    rcases hprim : findOwnedAccount db inp.account_id uid with _ | primary0 <;>
      rw [hprim] at heq
    · exact absurd heq (by simp)
    · have heq2 := Except.ok.inj heq
      have hsrc2 : primary0 = src := congrArg (fun q => q.1) heq2
      have hproj : projCur = (if inp.projected_currency.isNone && inp.projected_amount.isSome
          then some primary0.currency else inp.projected_currency) := by
        have hc := congrArg (fun q => q.2.2.1) heq2
        simpa using hc.symm
      have horig : origCur = (if inp.original_currency.isNone && inp.original_amount.isSome
          then some inp.currency else inp.original_currency) := by
        have hc := congrArg (fun q => q.2.2.2) heq2
        simpa using hc.symm
      refine ⟨fun hc => absurd hc htype, fun _ => ⟨?_, ?_, ?_⟩⟩
      · rw [hsrc2]
      · rw [hproj, hsrc2]
      · exact horig

/-- Inversion of a successful `create_transaction`: the stored row, the
validation facts the success implies, and the shape of the committed
store. -/
theorem create_transaction_ok_inversion (fuel : Nat) (db : DB) (uid : Nat)
    (inp : TransactionCreate) (db1 : DB) (t : Transaction)
    (h : create_transaction fuel db uid inp = some (db1, .ok t)) :
    (∃ isRec recFreq projCur origCur,
        t = builtTransaction db uid inp isRec recFreq projCur origCur) ∧
    (inp.transaction_type = .transfer →
        ∃ f g src dst, inp.transfer_from_account_id = some f ∧
          inp.transfer_to_account_id = some g ∧ f ≠ g ∧ inp.account_id = f ∧
          findOwnedAccount db f uid = some src ∧ findOwnedAccount db g uid = some dst ∧
          t.projected_currency = (if inp.projected_currency.isNone && inp.projected_amount.isSome
            then some dst.currency else inp.projected_currency) ∧
          t.original_currency = (if inp.original_currency.isNone && inp.original_amount.isSome
            then some dst.currency else inp.original_currency)) ∧
    (inp.transaction_type ≠ .transfer →
        ∃ primary, findOwnedAccount db inp.account_id uid = some primary ∧
          t.projected_currency = (if inp.projected_currency.isNone && inp.projected_amount.isSome
            then some primary.currency else inp.projected_currency) ∧
          t.original_currency = (if inp.original_currency.isNone && inp.original_amount.isSome
            then some inp.currency else inp.original_currency)) ∧
    db1.transactions = db.transactions ++ [t] ∧
    db1.accounts = (applyPostedBalanceEffects db t).accounts ∧
    db1.budget_entries = db.budget_entries ∧
    db1.allocations.map Allocation.id = db.allocations.map Allocation.id := by
  unfold create_transaction at h
  cases hrec : resolveRecurrence db uid inp with
  | error e =>
      rw [hrec] at h
      exact absurd (Option.some.inj h) (by simp)
  | ok recur =>
      rw [hrec] at h
      cases hres : resolveCreateAccounts db uid inp with
      | error e =>
          rw [hres] at h
          exact absurd (Option.some.inj h) (by simp)
      | ok quad =>
          obtain ⟨src, dstOpt, projCur, origCur⟩ := quad
          rw [hres] at h
          simp only [] at h
          split at h
          · exact absurd h (by simp)
          · rename_i db3 hbudget
            have hpair := Option.some.inj h
            have hdb1 : db3 = db1 := congrArg Prod.fst hpair
            have ht2 : builtTransaction db uid inp recur.1 recur.2 projCur origCur = t :=
              Except.ok.inj (congrArg Prod.snd hpair)
            subst hdb1
            obtain ⟨hTr, hNTr⟩ := resolveCreateAccounts_ok db uid inp src dstOpt projCur origCur hres
            have hshape :
                db3.transactions =
                  ({ db with transactions := db.transactions ++
                    [builtTransaction db uid inp recur.1 recur.2 projCur origCur] } : DB).transactions ∧
                db3.accounts = (applyPostedBalanceEffects
                  ({ db with transactions := db.transactions ++
                    [builtTransaction db uid inp recur.1 recur.2 projCur origCur] } : DB)
                  (builtTransaction db uid inp recur.1 recur.2 projCur origCur)).accounts ∧
                db3.budget_entries = db.budget_entries ∧
                db3.allocations.map Allocation.id = db.allocations.map Allocation.id := by
              rcases hpost : (builtTransaction db uid inp recur.1 recur.2 projCur origCur).is_posted
              · rw [hpost] at hbudget
                simp only [Bool.false_eq_true, if_false] at hbudget
                obtain rfl := Option.some.inj hbudget
                obtain ⟨hr1, hr2, hr3⟩ := applyPostedBalanceEffects_rest
                  ({ db with transactions := db.transactions ++
                    [builtTransaction db uid inp recur.1 recur.2 projCur origCur] } : DB)
                  (builtTransaction db uid inp recur.1 recur.2 projCur origCur)
                exact ⟨hr1, rfl, hr3, by rw [hr2]⟩
              · rw [hpost] at hbudget
                simp only [if_true] at hbudget
                obtain ⟨h1, h2, h3, h4⟩ := applyBudgetEffects_shape _ _ _ _ _ hbudget
                obtain ⟨hr1, hr2, hr3⟩ := applyPostedBalanceEffects_rest
                  ({ db with transactions := db.transactions ++
                    [builtTransaction db uid inp recur.1 recur.2 projCur origCur] } : DB)
                  (builtTransaction db uid inp recur.1 recur.2 projCur origCur)
                exact ⟨h2.trans hr1, h1, h3.trans hr3, h4.trans (by rw [hr2])⟩
            obtain ⟨hs1, hs2, hs3, hs4⟩ := hshape
            refine ⟨⟨recur.1, recur.2, projCur, origCur, ht2.symm⟩, ?_, ?_, ?_, ?_, hs3, hs4⟩
            · intro htype
              obtain ⟨f, g, dst, hfrom, hto, hfg, hacc, hsrc, hdst, hdsto, hproj, horig⟩ :=
                hTr htype
              exact ⟨f, g, src, dst, hfrom, hto, hfg, hacc, hsrc, hdst,
                by rw [← ht2]; exact hproj, by rw [← ht2]; exact horig⟩
            · intro htype
              obtain ⟨hprim, hproj, horig⟩ := hNTr htype
              exact ⟨src, hprim, by rw [← ht2]; exact hproj, by rw [← ht2]; exact horig⟩
            · rw [hs1, ht2]
            · rw [hs2, ht2]
              exact applyPostedBalanceEffects_accounts_congr _ _ _ rfl

/-- Inversion of a successful `delete_transaction`. -/
theorem delete_transaction_ok_inversion (fuel : Nat) (db : DB) (uid tid : Nat) (db1 : DB)
    (h : delete_transaction fuel db uid tid = some (db1, .ok ())) :
    ∃ t0, findVisibleTransaction db uid tid = some t0 ∧
      db1.transactions = db.transactions.filter (fun u => u.id != tid) ∧
      db1.accounts = (if t0.is_posted then reversePostedBalanceEffects db t0 else db).accounts ∧
      db1.budget_entries = db.budget_entries ∧
      db1.allocations.map Allocation.id = db.allocations.map Allocation.id := by
  unfold delete_transaction at h
  cases hfind : findVisibleTransaction db uid tid with
  | none =>
      rw [hfind] at h
      exact absurd (Option.some.inj h) (by simp)
  | some t0 =>
      rw [hfind] at h
      simp only [] at h
      split at h
      · exact absurd h (by simp)
      · rename_i db4 hbudget
        have hpair := Option.some.inj h
        simp only [Prod.mk.injEq] at hpair
        obtain ⟨hdb1, -⟩ := hpair
        subst hdb1
        refine ⟨t0, rfl, ?_⟩
        rcases hpost : t0.is_posted
        · rw [hpost] at hbudget
          simp only [Bool.false_eq_true, if_false] at hbudget
          obtain rfl := Option.some.inj hbudget
          exact ⟨rfl, by rw [if_neg (by simp [hpost])], rfl, rfl⟩
        · rw [hpost] at hbudget
          simp only [if_true] at hbudget
          obtain ⟨h1, h2, h3, h4⟩ :=
            reverseBudgetEffects_shape fuel (reversePostedBalanceEffects db t0) uid t0 db4 hbudget
          obtain ⟨hr1, hr2, hr3⟩ := reversePostedBalanceEffects_rest db t0
          refine ⟨?_, ?_, ?_, ?_⟩
          · show db4.transactions.filter (fun u => u.id != tid) =
              db.transactions.filter (fun u => u.id != tid)
            rw [h2, hr1]
          · rw [if_pos (by simp [hpost])]
            exact h1
          · exact h3.trans hr3
          · exact h4.trans (by rw [hr2])

/-- Inversion of the budget-entry link step on update: the result differs
from the stored row only in the three derived columns, and a provided id
resolved to an owned entry. -/
theorem resolveUpdateBudgetEntry_ok (db2 : DB) (uid : Nat) (t0 : Transaction)
    (upd : TransactionUpdate) (t1 : Transaction)
    (h : resolveUpdateBudgetEntry db2 uid t0 upd = .ok t1) :
    ∃ b r rf, t1 = { t0 with budget_entry_id := b, is_recurring := r,
                             recurrence_frequency := rf } := by
  unfold resolveUpdateBudgetEntry at h
  cases hbe : upd.budget_entry_id with
  | none =>
      rw [hbe] at h
      obtain rfl := Except.ok.inj h
      exact ⟨t0.budget_entry_id, t0.is_recurring, t0.recurrence_frequency, rfl⟩
  | some beid =>
      rw [hbe] at h
      simp only [] at h
      cases hfind : findOwnedBudgetEntry db2 beid uid with
      | none => rw [hfind] at h; exact absurd h (by simp)
      | some be =>
          rw [hfind] at h
          obtain rfl := (Except.ok.inj h).symm
          exact ⟨some beid, true, some be.cadence, rfl⟩

/-- Inversion of a successful account re-resolution on update. -/
theorem resolveUpdateAccounts_ok (db2 : DB) (uid : Nat) (t2 t3 : Transaction)
    (h : resolveUpdateAccounts db2 uid t2 = .ok t3) :
    (t2.transaction_type = .transfer →
        ∃ f g src dst, t2.transfer_from_account_id = some f ∧
          t2.transfer_to_account_id = some g ∧ f ≠ g ∧
          findOwnedAccount db2 f uid = some src ∧ findOwnedAccount db2 g uid = some dst ∧
          t3 = { t2 with
                   account_id := f
                   currency := match t2.currency with
                     | none => some dst.currency | some c => some c
                   projected_currency :=
                     if t2.projected_amount.isSome && t2.projected_currency.isNone
                     then some dst.currency else t2.projected_currency
                   original_currency :=
                     if t2.original_amount.isSome && t2.original_currency.isNone
                     then some dst.currency else t2.original_currency }) ∧
    (t2.transaction_type ≠ .transfer →
        ∃ primary, findOwnedAccount db2 t2.account_id uid = some primary ∧
          t3 = { t2 with
                   currency := match t2.currency with
                     | none => some primary.currency | some c => some c
                   projected_currency :=
                     if t2.projected_amount.isSome && t2.projected_currency.isNone
                     then some primary.currency else t2.projected_currency
                   original_currency :=
                     if t2.original_amount.isSome && t2.original_currency.isNone
                     then (match t2.currency with
                       | none => some primary.currency | some c => some c)
                     else t2.original_currency }) := by
  unfold resolveUpdateAccounts at h
  by_cases htype : t2.transaction_type = TransactionType.transfer
  · rw [if_pos (by simp [htype])] at h
    rcases hfrom : t2.transfer_from_account_id with _ | f <;> rw [hfrom] at h
    · exact absurd h (by simp)
    · rcases hto : t2.transfer_to_account_id with _ | g <;> rw [hto] at h
      · exact absurd h (by simp)
      · simp only [] at h
        by_cases hfg : (f == g) = true
        · rw [if_pos hfg] at h
          exact absurd h (by simp)
        · rw [if_neg hfg] at h
          rcases hsrc : findOwnedAccount db2 f uid with _ | src0 <;> rw [hsrc] at h
          · exact absurd h (by simp)
          · rcases hdst : findOwnedAccount db2 g uid with _ | dst0 <;> rw [hdst] at h
            · exact absurd h (by simp)
            · obtain rfl := Except.ok.inj h
              exact ⟨fun _ => ⟨f, g, src0, dst0, rfl, rfl, by simpa using hfg, hsrc, hdst, rfl⟩,
                fun hc => absurd htype hc⟩
  · rw [if_neg (by simp [htype])] at h
    rcases hprim : findOwnedAccount db2 t2.account_id uid with _ | primary0 <;> rw [hprim] at h
    · exact absurd h (by simp)
    · simp only [] at h
      obtain rfl := Except.ok.inj h
      exact ⟨fun hc => absurd hc htype, fun _ => ⟨primary0, rfl, rfl⟩⟩

/-- Inversion of a successful `update_transaction`. -/
theorem update_transaction_ok_inversion (fuel : Nat) (db : DB) (uid tid : Nat)
    (upd : TransactionUpdate) (db1 : DB) (t3 : Transaction)
    (h : update_transaction fuel db uid tid upd = some (db1, .ok t3)) :
    ∃ t0 db2 t1, findVisibleTransaction db uid tid = some t0 ∧
      updateReversalPhase fuel db uid t0 = some db2 ∧
      resolveUpdateBudgetEntry db2 uid t0 upd = .ok t1 ∧
      resolveUpdateAccounts db2 uid (applyUpdateFields t1 upd) = .ok t3 ∧
      db1.transactions = db.transactions.map (fun u => if u.id == tid then t3 else u) ∧
      db1.accounts = (applyPostedBalanceEffects db2 t3).accounts ∧
      db1.budget_entries = db.budget_entries ∧
      db1.allocations.map Allocation.id = db.allocations.map Allocation.id := by
  unfold update_transaction at h
  cases hfind : findVisibleTransaction db uid tid with
  | none =>
      rw [hfind] at h
      exact absurd (Option.some.inj h) (by simp)
  | some t0 =>
      rw [hfind] at h
      simp only [] at h
      cases hrev : updateReversalPhase fuel db uid t0 with
      | none => rw [hrev] at h; exact absurd h (by simp)
      | some db2 =>
          rw [hrev] at h
          simp only [] at h
          cases hlink : resolveUpdateBudgetEntry db2 uid t0 upd with
          | error e =>
              rw [hlink] at h
              exact absurd (Option.some.inj h) (by simp)
          | ok t1 =>
              rw [hlink] at h
              simp only [] at h
              cases hres : resolveUpdateAccounts db2 uid (applyUpdateFields t1 upd) with
              | error e =>
                  rw [hres] at h
                  exact absurd (Option.some.inj h) (by simp)
              | ok t3x =>
                  rw [hres] at h
                  simp only [] at h
                  split at h
                  · exact absurd h (by simp)
                  · rename_i db4 hbudget
                    have hpair := Option.some.inj h
                    simp only [Prod.mk.injEq, Except.ok.injEq] at hpair
                    obtain ⟨hdb1, ht3⟩ := hpair
                    subst ht3
                    subst hdb1
                    obtain ⟨hv1, hv2, hv3, hv4⟩ := updateReversalPhase_shape fuel db uid t0 db2 hrev
                    have hshape : db4.transactions = db2.transactions ∧
                        db4.accounts = (applyPostedBalanceEffects db2 t3x).accounts ∧
                        db4.budget_entries = db2.budget_entries ∧
                        db4.allocations.map Allocation.id = db2.allocations.map Allocation.id := by
                      rcases hpost : t3x.is_posted
                      · rw [hpost] at hbudget
                        simp only [Bool.false_eq_true, if_false] at hbudget
                        obtain rfl := Option.some.inj hbudget
                        obtain ⟨hr1, hr2, hr3⟩ := applyPostedBalanceEffects_rest db2 t3x
                        exact ⟨hr1, rfl, hr3, by rw [hr2]⟩
                      · rw [hpost] at hbudget
                        simp only [if_true] at hbudget
                        obtain ⟨h1, h2, h3, h4⟩ := applyBudgetEffects_shape _ _ _ _ _ hbudget
                        obtain ⟨hr1, hr2, hr3⟩ := applyPostedBalanceEffects_rest db2 t3x
                        exact ⟨h2.trans hr1, h1, h3.trans hr3, h4.trans (by rw [hr2])⟩
                    obtain ⟨hs1, hs2, hs3, hs4⟩ := hshape
                    refine ⟨t0, db2, t1, rfl, hrev, hlink, hres, ?_, ?_, ?_, ?_⟩
                    · show db4.transactions.map (fun u => if u.id == tid then t3x else u) =
                        db.transactions.map (fun u => if u.id == tid then t3x else u)
                      rw [hs1, hv1]
                    · exact hs2
                    · exact hs3.trans hv2
                    · exact hs4.trans hv4

/-! ## Error results leave the committed store untouched -/

/-- A failed `create_transaction` commits nothing. -/
theorem create_transaction_error_state (fuel : Nat) (db : DB) (uid : Nat)
    (inp : TransactionCreate) (db1 : DB) (e : ApiError)
    (h : create_transaction fuel db uid inp = some (db1, .error e)) : db1 = db := by
  unfold create_transaction at h
  cases hrec : resolveRecurrence db uid inp with
  | error e2 =>
      rw [hrec] at h
      exact (congrArg Prod.fst (Option.some.inj h)).symm
  | ok recur =>
      rw [hrec] at h
      cases hres : resolveCreateAccounts db uid inp with
      | error e2 =>
          rw [hres] at h
          exact (congrArg Prod.fst (Option.some.inj h)).symm
      | ok quad =>
          obtain ⟨src, dstOpt, projCur, origCur⟩ := quad
          rw [hres] at h
          simp only [] at h
          split at h
          · exact absurd h (by simp)
          · have := congrArg Prod.snd (Option.some.inj h)
            exact absurd this (by simp)

/-- A failed `update_transaction` commits nothing. -/
theorem update_transaction_error_state (fuel : Nat) (db : DB) (uid tid : Nat)
    (upd : TransactionUpdate) (db1 : DB) (e : ApiError)
    (h : update_transaction fuel db uid tid upd = some (db1, .error e)) : db1 = db := by
  unfold update_transaction at h
  cases hfind : findVisibleTransaction db uid tid with
  | none =>
      rw [hfind] at h
      exact (congrArg Prod.fst (Option.some.inj h)).symm
  | some t0 =>
      rw [hfind] at h
      simp only [] at h
      cases hrev : updateReversalPhase fuel db uid t0 with
      | none => rw [hrev] at h; exact absurd h (by simp)
      | some db2 =>
          rw [hrev] at h
          simp only [] at h
          cases hlink : resolveUpdateBudgetEntry db2 uid t0 upd with
          | error e2 =>
              rw [hlink] at h
              exact (congrArg Prod.fst (Option.some.inj h)).symm
          | ok t1 =>
              rw [hlink] at h
              simp only [] at h
              cases hres : resolveUpdateAccounts db2 uid (applyUpdateFields t1 upd) with
              | error e2 =>
                  rw [hres] at h
                  exact (congrArg Prod.fst (Option.some.inj h)).symm
              | ok t3 =>
                  rw [hres] at h
                  simp only [] at h
                  split at h
                  · exact absurd h (by simp)
                  · have := congrArg Prod.snd (Option.some.inj h)
                    exact absurd this (by simp)

/-- A failed `delete_transaction` commits nothing. -/
theorem delete_transaction_error_state (fuel : Nat) (db : DB) (uid tid : Nat)
    (db1 : DB) (e : ApiError)
    (h : delete_transaction fuel db uid tid = some (db1, .error e)) : db1 = db := by
  unfold delete_transaction at h
  cases hfind : findVisibleTransaction db uid tid with
  | none =>
      rw [hfind] at h
      exact (congrArg Prod.fst (Option.some.inj h)).symm
  | some t0 =>
      rw [hfind] at h
      simp only [] at h
      split at h
      · exact absurd h (by simp)
      · have := congrArg Prod.snd (Option.some.inj h)
        exact absurd this (by simp)

/-! ## Ledger well-formedness and the balance invariant -/

/-- The facts the mutation endpoints establish for every stored transaction
row: the primary account exists, transfer leg ids are nonzero when present,
and a transfer row carries distinct, present source and destination with
the primary account equal to the source. -/
def TxnOK (db : DB) (t : Transaction) : Prop :=
  (∃ a ∈ db.accounts, a.id = t.account_id) ∧
  (∀ f, t.transfer_from_account_id = some f → f ≠ 0) ∧
  (∀ g, t.transfer_to_account_id = some g → g ≠ 0) ∧
  (t.transaction_type = .transfer →
    ∃ f g, t.transfer_from_account_id = some f ∧ t.transfer_to_account_id = some g ∧
      f ≠ g ∧ t.account_id = f ∧
      (∃ a ∈ db.accounts, a.id = f) ∧ (∃ a ∈ db.accounts, a.id = g))

/-- Well-formed store: primary keys of the transaction table are unique and
every row satisfies `TxnOK`. -/
def WF (db : DB) : Prop :=
  (db.transactions.map Transaction.id).Nodup ∧ ∀ t ∈ db.transactions, TxnOK db t

/-- The ledger invariant: every stored balance equals the sum of the posted
effects touching that account. -/
def BalInv (db : DB) : Prop :=
  ∀ a ∈ db.accounts, a.balance = calcBalance db a.id

/-- The states reachable from a fresh store (no transactions, all balances
zero) by the three transaction endpoints called with schema-validated
inputs. -/
inductive Reachable : DB → Prop where
  | init (db : DB) (hTxns : db.transactions = [])
      (hBal : ∀ a ∈ db.accounts, a.balance = 0) : Reachable db
  | create (db : DB) (fuel uid : Nat) (inp : TransactionCreate) (db1 : DB)
      (r : Except ApiError Transaction) (hdb : Reachable db) (hval : inp.Valid)
      (h : create_transaction fuel db uid inp = some (db1, r)) : Reachable db1
  | update (db : DB) (fuel uid tid : Nat) (upd : TransactionUpdate) (db1 : DB)
      (r : Except ApiError Transaction) (hdb : Reachable db) (hval : upd.Valid)
      (h : update_transaction fuel db uid tid upd = some (db1, r)) : Reachable db1
  | delete (db : DB) (fuel uid tid : Nat) (db1 : DB) (r : Except ApiError Unit)
      (hdb : Reachable db)
      (h : delete_transaction fuel db uid tid = some (db1, r)) : Reachable db1

theorem exists_mem_id_iff (l : List Account) (x : Nat) :
    (∃ a ∈ l, a.id = x) ↔ x ∈ l.map Account.id := by
  simp [List.mem_map]

theorem mapBalances_ids (l : List Account) (f : Account → ℤ) :
    (mapBalances l f).map Account.id = l.map Account.id := by
  simp [mapBalances, List.map_map, Function.comp]

theorem adjustBalance_ids (db : DB) (x : Nat) (d : ℤ) :
    (adjustBalance db x d).accounts.map Account.id = db.accounts.map Account.id := by
  simp only [adjustBalance]
  rw [List.map_map]
  apply List.map_congr_left
  intro a _
  by_cases hx : a.id = x <;> simp [Function.comp, hx]

theorem applyPostedBalanceEffects_ids (db : DB) (t : Transaction) :
    (applyPostedBalanceEffects db t).accounts.map Account.id =
      db.accounts.map Account.id := by
  unfold applyPostedBalanceEffects
  split
  · exact adjustBalance_ids db _ _
  · split
    · exact adjustBalance_ids db _ _
    · split
      · rcases t.transfer_to_account_id with _ | g
        · exact adjustBalance_ids db _ _
        · simp only []
          rw [adjustBalance_ids, adjustBalance_ids]
      · rfl

theorem reversePostedBalanceEffects_ids (db : DB) (t : Transaction) :
    (reversePostedBalanceEffects db t).accounts.map Account.id =
      db.accounts.map Account.id := by
  unfold reversePostedBalanceEffects
  rcases t.transaction_type
  case credit => rcases findAccountById db t.account_id <;>
    first | rfl | exact adjustBalance_ids db _ _
  case debit => rcases findAccountById db t.account_id <;>
    first | rfl | exact adjustBalance_ids db _ _
  case transfer =>
    have hleg1 : (reverseTransferFromLeg db t).accounts.map Account.id =
        db.accounts.map Account.id := by
      unfold reverseTransferFromLeg
      split
      · split
        · exact adjustBalance_ids db _ _
        · rfl
      · rfl
    have hleg2 : ∀ dbx : DB, (reverseTransferToLeg dbx t).accounts.map Account.id =
        dbx.accounts.map Account.id := by
      intro dbx
      unfold reverseTransferToLeg
      split
      · split
        · exact adjustBalance_ids dbx _ _
        · rfl
      · rfl
    exact (hleg2 (reverseTransferFromLeg db t)).trans hleg1

theorem findOwnedAccount_spec (db : DB) (aid uid : Nat) (a : Account)
    (h : findOwnedAccount db aid uid = some a) :
    a ∈ db.accounts ∧ a.id = aid ∧ a.user_id = uid := by
  have hmem := List.mem_of_find?_eq_some h
  have hp := List.find?_some h
  simp only [Bool.and_eq_true, beq_iff_eq] at hp
  exact ⟨hmem, hp.1, hp.2⟩

theorem findVisibleTransaction_spec (db : DB) (uid tid : Nat) (t : Transaction)
    (h : findVisibleTransaction db uid tid = some t) :
    t ∈ db.transactions ∧ t.id = tid := by
  have hmem := List.mem_of_find?_eq_some h
  have hp := List.find?_some h
  simp only [Bool.and_eq_true, beq_iff_eq] at hp
  exact ⟨hmem, hp.1⟩

theorem mapBalances_zero_of (l : List Account) (e : Nat → ℤ) (h : ∀ x, e x = 0) :
    mapBalances l (fun a => a.balance + e a.id) = l := by
  rw [show (fun a : Account => a.balance + e a.id) = (fun a : Account => a.balance + 0)
      from funext (fun a => by rw [h])]
  exact mapBalances_zero l

/-- `TxnOK` only inspects the account id column, so it transports along any
change preserving the id list. -/
theorem TxnOK_transport (db db' : DB) (t : Transaction)
    (hids : db'.accounts.map Account.id = db.accounts.map Account.id)
    (h : TxnOK db t) : TxnOK db' t := by
  obtain ⟨h1, h2, h3, h4⟩ := h
  refine ⟨?_, h2, h3, ?_⟩
  · rw [exists_mem_id_iff, hids, ← exists_mem_id_iff]
    exact h1
  · intro htype
    obtain ⟨f, g, hf, hg, hfg, hacc, hfm, hgm⟩ := h4 htype
    refine ⟨f, g, hf, hg, hfg, hacc, ?_, ?_⟩
    · rw [exists_mem_id_iff, hids, ← exists_mem_id_iff]; exact hfm
    · rw [exists_mem_id_iff, hids, ← exists_mem_id_iff]; exact hgm

/-- Conditional reversal rewrites every balance by the negated effect of the
(well-formed) old row. -/
theorem reversal_accounts (db : DB) (t0 : Transaction) (hok : TxnOK db t0) :
    (if t0.is_posted then reversePostedBalanceEffects db t0 else db).accounts =
      mapBalances db.accounts (fun a => a.balance + (-(txnEffect a.id t0))) := by
  rcases hpost : t0.is_posted
  · rw [if_neg (by simp [hpost])]
    symm
    exact mapBalances_zero_of db.accounts (fun x => -(txnEffect x t0))
      (fun x => by simp only [txnEffect_unposted t0 hpost x, neg_zero])
  · rw [if_pos (by simp [hpost])]
    apply reversePostedBalanceEffects_accounts db t0 hpost
    · intro _; exact hok.1
    · intro htype
      obtain ⟨f, g, hf, hg, hfg, _, hfm, hgm⟩ := hok.2.2.2 htype
      exact ⟨f, g, hf, hg, hok.2.1 f hf, hok.2.2.1 g hg, hfg, hfm, hgm⟩

/-- `create_transaction` preserves well-formedness and the balance
invariant. -/
theorem create_transaction_preserves (fuel : Nat) (db : DB) (uid : Nat)
    (inp : TransactionCreate) (db1 : DB) (t : Transaction)
    (hwf : WF db) (hbal : BalInv db) (hval : inp.Valid)
    (h : create_transaction fuel db uid inp = some (db1, .ok t)) :
    WF db1 ∧ BalInv db1 := by
  obtain ⟨hbuilt, hTr, hNTr, hTx, hAcc, hBE, hAl⟩ :=
    create_transaction_ok_inversion fuel db uid inp db1 t h
  obtain ⟨isRec, recFreq, projCur, origCur, rfl⟩ := hbuilt
  obtain ⟨hv_acc, hv_cat, hv_alloc, hv_be, hv_amt, hv_fee, hv_pa, hv_oa, hv_er,
    hv_from, hv_to⟩ := hval
  set t := builtTransaction db uid inp isRec recFreq projCur origCur with ht
  have htype_eq : t.transaction_type = inp.transaction_type := rfl
  have hfrom_eq : t.transfer_from_account_id = inp.transfer_from_account_id := rfl
  have hto_eq : t.transfer_to_account_id = inp.transfer_to_account_id := rfl
  have haid_eq : t.account_id = inp.account_id := rfl
  have htid_eq : t.id = freshTransactionId db := rfl
  have hft : t.transaction_type = .transfer → t.is_posted = true →
      t.transfer_from_account_id = some t.account_id ∧
      ∃ g, t.transfer_to_account_id = some g ∧ g ≠ t.account_id := by
    intro htype _
    obtain ⟨f, g, src, dst, hf, hg, hfg, hacc, _, _, _, _⟩ := hTr (htype_eq ▸ htype)
    refine ⟨?_, g, ?_, ?_⟩
    · show inp.transfer_from_account_id = some inp.account_id
      rw [hf, hacc]
    · show inp.transfer_to_account_id = some g
      exact hg
    · show g ≠ inp.account_id
      rw [hacc]
      exact fun hq => hfg hq.symm
  have haccmap : db1.accounts = mapBalances db.accounts (fun a => a.balance + txnEffect a.id t) := by
    rw [hAcc]
    exact applyPostedBalanceEffects_accounts db t hft
  have hids : db1.accounts.map Account.id = db.accounts.map Account.id := by
    rw [haccmap]; exact mapBalances_ids _ _
  have hTxnOK_new : TxnOK db t := by
    refine ⟨?_, ?_, ?_, ?_⟩
    · by_cases htype : inp.transaction_type = TransactionType.transfer
      · obtain ⟨f, g, src, dst, hf, hg, hfg, hacc, hsrc, hdst, _, _⟩ := hTr htype
        obtain ⟨hm, hid2, _⟩ := findOwnedAccount_spec db f uid src hsrc
        refine ⟨src, hm, ?_⟩
        show src.id = inp.account_id
        rw [hid2]
        exact hacc.symm
      · obtain ⟨primary, hprim, _, _⟩ := hNTr htype
        obtain ⟨hm, hid2, _⟩ := findOwnedAccount_spec db inp.account_id uid primary hprim
        exact ⟨primary, hm, hid2⟩
    · intro f hf
      rw [hfrom_eq] at hf
      exact Nat.pos_iff_ne_zero.mp (hv_from f hf)
    · intro g hg
      rw [hto_eq] at hg
      exact Nat.pos_iff_ne_zero.mp (hv_to g hg)
    · intro htype
      obtain ⟨f, g, src, dst, hf, hg, hfg, hacc, hsrc, hdst, _, _⟩ := hTr (htype_eq ▸ htype)
      obtain ⟨hms, hids2, _⟩ := findOwnedAccount_spec db f uid src hsrc
      obtain ⟨hmd, hidd, _⟩ := findOwnedAccount_spec db g uid dst hdst
      refine ⟨f, g, hf, hg, hfg, ?_, ⟨src, hms, hids2⟩, ⟨dst, hmd, hidd⟩⟩
      show inp.account_id = f
      exact hacc
  refine ⟨⟨?_, ?_⟩, ?_⟩
  · rw [hTx, List.map_append]
    rw [List.nodup_append]
    refine ⟨hwf.1, by simp, ?_⟩
    intro x hx hx2
    obtain ⟨u, hu, hux⟩ := List.mem_map.mp hx
    have hxf : x = freshTransactionId db := by simpa [htid_eq] using hx2
    exact freshTransactionId_not_mem db u hu (by rw [hux, hxf])
  · intro u hu
    rw [hTx] at hu
    rcases List.mem_append.mp hu with hold | hnew
    · exact TxnOK_transport db db1 u hids (hwf.2 u hold)
    · have : u = t := by simpa using hnew
      subst this
      exact TxnOK_transport db db1 t hids hTxnOK_new
  · intro a1 ha1
    rw [haccmap] at ha1
    obtain ⟨a, ha, rfl⟩ := List.mem_map.mp ha1
    show a.balance + txnEffect a.id t = calcBalance db1 _
    unfold calcBalance
    rw [hTx, List.map_append, List.sum_append]
    have : (([t] : List Transaction).map (txnEffect a.id)).sum = txnEffect a.id t := by simp
    rw [this, hbal a ha]
    rfl

/-- `delete_transaction` preserves well-formedness and the balance
invariant. -/
theorem delete_transaction_preserves (fuel : Nat) (db : DB) (uid tid : Nat) (db1 : DB)
    (hwf : WF db) (hbal : BalInv db)
    (h : delete_transaction fuel db uid tid = some (db1, .ok ())) :
    WF db1 ∧ BalInv db1 := by
  obtain ⟨t0, hfind, hTx, hAcc, hBE, hAl⟩ :=
    delete_transaction_ok_inversion fuel db uid tid db1 h
  obtain ⟨hmem, hid⟩ := findVisibleTransaction_spec db uid tid t0 hfind
  have hok := hwf.2 t0 hmem
  have haccmap : db1.accounts =
      mapBalances db.accounts (fun a => a.balance + (-(txnEffect a.id t0))) :=
    hAcc.trans (reversal_accounts db t0 hok)
  have hids : db1.accounts.map Account.id = db.accounts.map Account.id := by
    rw [haccmap]; exact mapBalances_ids _ _
  refine ⟨⟨?_, ?_⟩, ?_⟩
  · rw [hTx]
    have hsub : List.Sublist
        ((db.transactions.filter (fun u => u.id != tid)).map Transaction.id)
        (db.transactions.map Transaction.id) :=
      (List.filter_sublist _).map Transaction.id
    exact List.Nodup.sublist hsub hwf.1
  · intro u hu
    rw [hTx] at hu
    exact TxnOK_transport db db1 u hids (hwf.2 u (List.mem_of_mem_filter hu))
  · intro a1 ha1
    rw [haccmap] at ha1
    obtain ⟨a, ha, rfl⟩ := List.mem_map.mp ha1
    show a.balance + (-(txnEffect a.id t0)) = calcBalance db1 _
    unfold calcBalance
    rw [hTx, sum_effects_remove db.transactions tid t0 (txnEffect a.id) hmem hid hwf.1]
    rw [hbal a ha]
    show calcBalance db a.id + -(txnEffect a.id t0) =
      (db.transactions.map (txnEffect a.id)).sum - txnEffect a.id t0
    unfold calcBalance
    ring

/-- Common tail of the update preservation argument. -/
theorem update_common (db db1 db2 : DB) (t0 t3 : Transaction) (tid : Nat)
    (hwf : WF db) (hbal : BalInv db)
    (hmem : t0 ∈ db.transactions) (hid : t0.id = tid) (ht3id : t3.id = tid)
    (hacc2 : db2.accounts =
      mapBalances db.accounts (fun a => a.balance + (-(txnEffect a.id t0))))
    (happly : db1.accounts = (applyPostedBalanceEffects db2 t3).accounts)
    (happmap : (applyPostedBalanceEffects db2 t3).accounts =
      mapBalances db2.accounts (fun a => a.balance + txnEffect a.id t3))
    (hTx : db1.transactions = db.transactions.map (fun u => if u.id == tid then t3 else u))
    (hTxnOK3 : TxnOK db t3) :
    WF db1 ∧ BalInv db1 := by
  have haccmap : db1.accounts =
      mapBalances db.accounts (fun a => a.balance + ((-(txnEffect a.id t0)) + txnEffect a.id t3)) := by
    rw [happly, happmap, hacc2]
    exact mapBalances_add db.accounts _ _ (by intro a b; simp)
  have hids : db1.accounts.map Account.id = db.accounts.map Account.id := by
    rw [haccmap]; exact mapBalances_ids _ _
  have htxids : db1.transactions.map Transaction.id = db.transactions.map Transaction.id := by
    rw [hTx, List.map_map]
    apply List.map_congr_left
    intro u _
    by_cases hu : u.id = tid
    · simp [Function.comp, hu, ht3id]
    · simp [Function.comp, hu]
  refine ⟨⟨?_, ?_⟩, ?_⟩
  · rw [htxids]; exact hwf.1
  · intro u1 hu1
    rw [hTx] at hu1
    obtain ⟨u, hu, rfl⟩ := List.mem_map.mp hu1
    by_cases huid : u.id = tid
    · rw [if_pos (by simp [huid])]
      exact TxnOK_transport db db1 t3 hids hTxnOK3
    · rw [if_neg (by simp [huid])]
      exact TxnOK_transport db db1 u hids (hwf.2 u hu)
  · intro a1 ha1
    rw [haccmap] at ha1
    obtain ⟨a, ha, rfl⟩ := List.mem_map.mp ha1
    show a.balance + ((-(txnEffect a.id t0)) + txnEffect a.id t3) = calcBalance db1 _
    unfold calcBalance
    rw [hTx, sum_effects_replace db.transactions tid t0 t3 (txnEffect a.id) hmem hid hwf.1]
    rw [hbal a ha]
    show calcBalance db a.id + ((-(txnEffect a.id t0)) + txnEffect a.id t3) =
      (db.transactions.map (txnEffect a.id)).sum - txnEffect a.id t0 + txnEffect a.id t3
    unfold calcBalance
    ring

/-- `update_transaction` preserves well-formedness and the balance
invariant. -/
theorem update_transaction_preserves (fuel : Nat) (db : DB) (uid tid : Nat)
    (upd : TransactionUpdate) (db1 : DB) (t3 : Transaction)
    (hwf : WF db) (hbal : BalInv db) (hval : upd.Valid)
    (h : update_transaction fuel db uid tid upd = some (db1, .ok t3)) :
    WF db1 ∧ BalInv db1 := by
  obtain ⟨t0, db2, t1, hfind, hrev, hlink, hres, hTx, hAcc, hBE, hAl⟩ :=
    update_transaction_ok_inversion fuel db uid tid upd db1 t3 h
  obtain ⟨hmem, hid⟩ := findVisibleTransaction_spec db uid tid t0 hfind
  have hok0 := hwf.2 t0 hmem
  obtain ⟨hv_acc, hv_cat, hv_alloc, hv_be, hv_amt, hv_fee, hv_from, hv_to⟩ := hval
  obtain ⟨b, rb, rfb, ht1⟩ := resolveUpdateBudgetEntry_ok db2 uid t0 upd t1 hlink
  subst ht1
  obtain ⟨hresT, hresN⟩ := resolveUpdateAccounts_ok db2 uid _ t3 hres
  obtain ⟨hv1, hv2, hv3, hv4⟩ := updateReversalPhase_shape fuel db uid t0 db2 hrev
  have hacc2 : db2.accounts =
      mapBalances db.accounts (fun a => a.balance + (-(txnEffect a.id t0))) :=
    hv3.trans (reversal_accounts db t0 hok0)
  have hids2 : db2.accounts.map Account.id = db.accounts.map Account.id := by
    rw [hacc2]; exact mapBalances_ids _ _
  have hex_transport : ∀ x : Nat,
      (∃ a ∈ db2.accounts, a.id = x) → (∃ a ∈ db.accounts, a.id = x) := by
    intro x hx
    rw [exists_mem_id_iff] at hx ⊢
    rw [← hids2]
    exact hx
  set t2 := applyUpdateFields
    { t0 with budget_entry_id := b, is_recurring := rb, recurrence_frequency := rfb } upd
    with ht2def
  have ht2from : t2.transfer_from_account_id =
      (match upd.transfer_from_account_id with
        | some f2 => some f2
        | none => t0.transfer_from_account_id) := rfl
  have ht2to : t2.transfer_to_account_id =
      (match upd.transfer_to_account_id with
        | some g2 => some g2
        | none => t0.transfer_to_account_id) := rfl
  have hfrom_ne : ∀ f, t2.transfer_from_account_id = some f → f ≠ 0 := by
    intro f hf
    rw [ht2from] at hf
    cases hupf : upd.transfer_from_account_id with
    | some f2 =>
        simp only [hupf] at hf
        obtain rfl := Option.some.inj hf
        exact Nat.pos_iff_ne_zero.mp (hv_from _ hupf)
    | none =>
        simp only [hupf] at hf
        exact hok0.2.1 f hf
  have hto_ne : ∀ g, t2.transfer_to_account_id = some g → g ≠ 0 := by
    intro g hg
    rw [ht2to] at hg
    cases hupg : upd.transfer_to_account_id with
    | some g2 =>
        simp only [hupg] at hg
        obtain rfl := Option.some.inj hg
        exact Nat.pos_iff_ne_zero.mp (hv_to _ hupg)
    | none =>
        simp only [hupg] at hg
        exact hok0.2.2.1 g hg
  by_cases htyp2 : t2.transaction_type = TransactionType.transfer
  · obtain ⟨f, g, src, dst, hf, hg, hfg, hsrc, hdst, ht3⟩ := hresT htyp2
    subst ht3
    obtain ⟨hsrcm, hsrcid, _⟩ := findOwnedAccount_spec db2 f uid src hsrc
    obtain ⟨hdstm, hdstid, _⟩ := findOwnedAccount_spec db2 g uid dst hdst
    refine update_common db db1 db2 t0 _ tid hwf hbal hmem hid ?_ hacc2 hAcc ?_ hTx ?_
    · show t0.id = tid
      exact hid
    · exact applyPostedBalanceEffects_accounts db2 _
        (fun _ _ => ⟨hf, g, hg, fun hq => hfg hq.symm⟩)
    · refine ⟨?_, hfrom_ne, hto_ne, ?_⟩
      · exact hex_transport f ⟨src, hsrcm, hsrcid⟩
      · intro _
        exact ⟨f, g, hf, hg, hfg, rfl,
          hex_transport f ⟨src, hsrcm, hsrcid⟩, hex_transport g ⟨dst, hdstm, hdstid⟩⟩
  · obtain ⟨primary, hprim, ht3⟩ := hresN htyp2
    subst ht3
    obtain ⟨hprimm, hprimid, _⟩ := findOwnedAccount_spec db2 t2.account_id uid primary hprim
    refine update_common db db1 db2 t0 _ tid hwf hbal hmem hid ?_ hacc2 hAcc ?_ hTx ?_
    · show t0.id = tid
      exact hid
    · exact applyPostedBalanceEffects_accounts db2 _
        (fun htype _ => absurd htype htyp2)
    · refine ⟨?_, hfrom_ne, hto_ne, ?_⟩
      · exact hex_transport t2.account_id ⟨primary, hprimm, hprimid⟩
      · intro htype
        exact absurd htype htyp2

/-- Every state reachable from a fresh store by the transaction endpoints is
well-formed and satisfies the ledger balance invariant. -/
theorem reachable_WF_BalInv (db : DB) (h : Reachable db) : WF db ∧ BalInv db := by
  induction h with
  | init db hTxns hBal =>
      refine ⟨⟨?_, ?_⟩, ?_⟩
      · rw [hTxns]; exact List.nodup_nil
      · intro t ht; rw [hTxns] at ht; cases ht
      · intro a ha
        rw [hBal a ha]
        unfold calcBalance
        rw [hTxns]
        rfl
  | create db fuel uid inp db1 r hdb hval h ih =>
      cases r with
      | error e =>
          obtain rfl := create_transaction_error_state fuel db uid inp db1 e h
          exact ih
      | ok t => exact create_transaction_preserves fuel db uid inp db1 t ih.1 ih.2 hval h
  | update db fuel uid tid upd db1 r hdb hval h ih =>
      cases r with
      | error e =>
          obtain rfl := update_transaction_error_state fuel db uid tid upd db1 e h
          exact ih
      | ok t3 =>
          exact update_transaction_preserves fuel db uid tid upd db1 t3 ih.1 ih.2 hval h
  | delete db fuel uid tid db1 r hdb h ih =>
      cases r with
      | error e =>
          obtain rfl := delete_transaction_error_state fuel db uid tid db1 e h
          exact ih
      | ok u =>
          cases u
          exact delete_transaction_preserves fuel db uid tid db1 ih.1 ih.2 h

/-! ## The balance history replay computes the effect sum -/

theorem replay_fold_sum (aid : Nat) :
    ∀ (l : List Transaction) (acc : ℤ × List BalanceHistoryEntry),
      (l.foldl (fun acc t =>
        if !t.is_posted then acc
        else
          match replayEffect aid t with
          | none => acc
          | some d => (acc.1 + d, acc.2 ++ [⟨t.transaction_date, acc.1 + d, t.id⟩]))
        acc).1 = acc.1 + (l.map (txnEffect aid)).sum := by
  intro l
  induction l with
  | nil => intro acc; simp
  | cons hd tl ih =>
      intro acc
      rw [List.foldl_cons]
      rcases hpost : hd.is_posted
      · rw [if_pos (by simp [hpost])]
        rw [ih acc]
        rw [List.map_cons, List.sum_cons, txnEffect_unposted hd hpost aid]
        simp
      · rw [if_neg (by simp [hpost])]
        cases heff : replayEffect aid hd with
        | none =>
            rw [ih acc]
            have : txnEffect aid hd = 0 := by simp [txnEffect, hpost, heff]
            rw [List.map_cons, List.sum_cons, this]
            simp
        | some d =>
            rw [ih _]
            have : txnEffect aid hd = d := by simp [txnEffect, hpost, heff]
            rw [List.map_cons, List.sum_cons, this]
            show acc.1 + d + _ = _
            ring

theorem sum_filter_effect (p : Transaction → Bool) (e : Transaction → ℤ)
    (h0 : ∀ u, p u = false → e u = 0) :
    ∀ l : List Transaction, ((l.filter p).map e).sum = (l.map e).sum := by
  intro l
  induction l with
  | nil => rfl
  | cons hd tl ih =>
      rw [List.filter_cons]
      rcases hp : p hd
      · simp only [Bool.false_eq_true, if_false]
        rw [ih, List.map_cons, List.sum_cons, h0 hd hp]
        simp
      · simp only [if_true]
        rw [List.map_cons, List.sum_cons, List.map_cons, List.sum_cons, ih]

theorem txnEffect_of_untouched (aid : Nat) (t : Transaction)
    (h : (t.account_id == aid || t.transfer_from_account_id == some aid ||
          t.transfer_to_account_id == some aid) = false) :
    txnEffect aid t = 0 := by
  simp only [Bool.or_eq_false_iff] at h
  obtain ⟨⟨h1, h2⟩, h3⟩ := h
  rcases htype : t.transaction_type <;>
    simp [txnEffect, replayEffect, htype, h1, h2, h3]

theorem calculated_eq_calcBalance (db : DB) (uid aid : Nat) (r : BalanceResult)
    (h : get_account_balance db uid aid = .ok r) :
    r.calculated_balance = calcBalance db aid ∧
    ∃ account, findOwnedAccount db aid uid = some account ∧
      r.current_balance = account.balance := by
  unfold get_account_balance at h
  cases hfind : findOwnedAccount db aid uid with
  | none => rw [hfind] at h; exact absurd h (by simp)
  | some account =>
      rw [hfind] at h
      simp only [] at h
      obtain rfl := (Except.ok.inj h).symm
      refine ⟨?_, account, rfl, rfl⟩
      show (((db.transactions.filter _).insertionSort dateLe).foldl _ ((0 : ℤ), _)).1 = _
      rw [replay_fold_sum aid _ _]
      have hperm : List.Perm
          ((db.transactions.filter (fun t =>
            t.account_id == aid || t.transfer_from_account_id == some aid ||
            t.transfer_to_account_id == some aid)).insertionSort dateLe)
          (db.transactions.filter (fun t =>
            t.account_id == aid || t.transfer_from_account_id == some aid ||
            t.transfer_to_account_id == some aid)) :=
        List.perm_insertionSort dateLe _
      rw [List.Perm.sum_eq (hperm.map (txnEffect aid))]
      rw [sum_filter_effect _ _ (txnEffect_of_untouched aid) db.transactions]
      simp [calcBalance]

/-! ## Lemmas: visibility of a freshly created row -/

theorem find?_append_none {α : Type} (p : α → Bool) (l1 l2 : List α)
    (h : ∀ x ∈ l1, p x = false) : (l1 ++ l2).find? p = l2.find? p := by
  induction l1 with
  | nil => rfl
  | cons a tl ih =>
      have ha := h a (List.mem_cons_self a tl)
      simp only [List.cons_append, List.find?_cons, ha]
      exact ih (fun x hx => h x (List.mem_cons_of_mem a hx))

theorem mem_userAccountIds (db : DB) (uid x : Nat) :
    x ∈ userAccountIds db uid ↔ ∃ a ∈ db.accounts, a.user_id = uid ∧ a.id = x := by
  simp only [userAccountIds, List.mem_map, List.mem_filter, beq_iff_eq]
  constructor
  · rintro ⟨a, ⟨hmem, hu⟩, hid⟩
    exact ⟨a, hmem, hu, hid⟩
  · rintro ⟨a, hmem, hu, hid⟩
    exact ⟨a, ⟨hmem, hu⟩, hid⟩

/-- A pure balance rewrite does not change which accounts the caller owns. -/
theorem userAccountIds_eq_of_mapBalances (db db1 : DB) (uid : Nat) (e : Account → ℤ)
    (h : db1.accounts = mapBalances db.accounts e) :
    userAccountIds db1 uid = userAccountIds db uid := by
  unfold userAccountIds
  rw [h]
  unfold mapBalances
  generalize db.accounts = l
  induction l with
  | nil => rfl
  | cons a tl ih =>
      simp only [List.map_cons, List.filter_cons]
      by_cases hu : a.user_id = uid
      · simpa [hu] using ih
      · simpa [hu] using ih

/-! ## Lemmas: the identical update payload -/

theorem applyPostedBalanceEffects_unposted (db : DB) (t : Transaction)
    (hpost : t.is_posted = false) : applyPostedBalanceEffects db t = db := by
  unfold applyPostedBalanceEffects
  simp [hpost]

/-- Re-sending a row's own values through the generic field loop is the
identity on the row. -/
theorem applyUpdateFields_identical (t : Transaction) :
    applyUpdateFields t (identicalUpdate t) = t := by
  unfold applyUpdateFields identicalUpdate
  simp only [Option.getD_some]
  rcases t with ⟨tid, tuser, tacc, tcat, tall, tbe, tamt, tcur, tpa, tpc, toa, toc,
    tex, tfee, tty, tip, tfrom, tto, tdate, trec, trecur, tfreq⟩
  simp only []
  rcases tcat with _ | c <;> rcases tall with _ | al <;> rcases tcur with _ | cu <;>
    rcases tpa with _ | pa <;> rcases tpc with _ | pc <;> rcases toa with _ | oa <;>
    rcases toc with _ | oc <;> rcases tex with _ | ex <;> rcases tfrom with _ | fr <;>
    rcases tto with _ | to2 <;> rfl

theorem resolveUpdateBudgetEntry_identical (db2 : DB) (uid : Nat) (t0 : Transaction) :
    resolveUpdateBudgetEntry db2 uid t0 (identicalUpdate t0) = .ok t0 := rfl

/-- The signed balance effect only reads the posting flag, type, amounts,
fee and account references. -/
theorem txnEffect_congr (t t' : Transaction)
    (h1 : t'.transaction_type = t.transaction_type) (h2 : t'.is_posted = t.is_posted)
    (h3 : t'.amount = t.amount) (h4 : t'.transfer_fee = t.transfer_fee)
    (h5 : t'.transfer_from_account_id = t.transfer_from_account_id)
    (h6 : t'.transfer_to_account_id = t.transfer_to_account_id)
    (h7 : t'.account_id = t.account_id) (x : Nat) :
    txnEffect x t' = txnEffect x t := by
  unfold txnEffect replayEffect
  rw [h1, h2, h3, h4, h5, h6, h7]

/-! ## Claim C1: the balance invariant -/

/-- C1.  For every account state reached from a fresh (zero-balance,
no-transaction) store by any sequence of createTransaction /
updateTransaction / deleteTransaction calls, replaying all posted
transactions touching the account (as primary, transfer source or transfer
destination) from zero with the signed-effect rules yields exactly the
stored balance: the `calculated_balance` and `current_balance` of the
balance-history query agree. -/
theorem C1_balance_invariant (db : DB) (uid aid : Nat) (r : BalanceResult)
    (hreach : Reachable db) (h : get_account_balance db uid aid = .ok r) :
    r.calculated_balance = r.current_balance := by
  obtain ⟨hcalc, account, hfind, hcur⟩ := calculated_eq_calcBalance db uid aid r h
  obtain ⟨hmem, hid, _⟩ := findOwnedAccount_spec db aid uid account hfind
  have hbal := (reachable_WF_BalInv db hreach).2 account hmem
  rw [hcalc, hcur, hbal, hid]

theorem inpW_valid : inpW.Valid := by
  refine ⟨by decide, ?_, ?_, ?_, by decide, by decide, ?_, ?_, ?_, ?_, ?_⟩ <;>
    (intro x hx; simp [inpW] at hx)

theorem dbW1_reachable : Reachable dbW1 :=
  Reachable.create dbW0 0 7 inpW dbW1 (.ok tW)
    (Reachable.init dbW0 rfl (by decide)) inpW_valid (by rfl)

/-- Witness for C1 at a concrete reachable store. -/
theorem C1_balance_invariant_witness :
    get_account_balance dbW1 7 1 = .ok rW ∧ rW.calculated_balance = rW.current_balance :=
  ⟨by rfl, C1_balance_invariant dbW1 7 1 rW dbW1_reachable (by rfl)⟩

/-! ## Claim C3: the budget period roller -/

/-- The roller's frequency defaults to monthly: on an allocation whose
`period_frequency` is unset it behaves exactly as with an explicit monthly
frequency (only the stored frequency column itself differs in the result). -/
theorem ensure_budget_period_default_monthly (fuel : Nat) (a : Allocation) (ref : DateTime) :
    ensure_budget_period fuel { a with period_frequency := none } ref =
      (ensure_budget_period fuel { a with period_frequency := some .monthly } ref).map
        (fun p => ({ p.1 with period_frequency := none }, p.2)) := by
  unfold ensure_budget_period
  cases hps : a.period_start <;> cases hpe : a.period_end <;>
      simp only [hps, hpe, Option.getD_some, Option.getD_none]
  case none.none | none.some | some.none =>
    all_goals (
      cases hrb : rollBoth BudgetPeriodFrequency.monthly ref fuel
          (start_of_period ref BudgetPeriodFrequency.monthly)
          (compute_period_end (start_of_period ref BudgetPeriodFrequency.monthly)
            BudgetPeriodFrequency.monthly) with
      | none => simp [hrb]
      | some v => obtain ⟨s2, e2, rolled⟩ := v; simp [hrb] )
  case some.some ps pe =>
    cases hrb : rollBoth BudgetPeriodFrequency.monthly ref fuel ps pe with
    | none => simp [hrb]
    | some v => obtain ⟨s2, e2, rolled⟩ := v; simp [hrb]

/-- C3.  After the budget period roller runs on a budget allocation at a
reference instant, the resulting window brackets the reference
(`period_start` less-or-equal reference, reference strictly before
`period_end`); `current_amount` is reset to exactly 0 if and only if a roll
(initialization, forward or backward) occurred, before the caller's delta is
applied; the frequency defaults to monthly when `period_frequency` is unset;
and in the spec's concrete scenario an allocation with `current_amount = 150`
and monthly period [2024-01-01, 2024-02-01) receiving a posted debit of 40
dated 2024-02-15 ends with period [2024-02-01, 2024-03-01) and
`current_amount = 40`. -/
theorem C3_budget_period_roller (fuel : Nat) (a a1 : Allocation) (ref : DateTime)
    (changed : Bool)
    (h : ensure_budget_period fuel a ref = some (a1, changed)) :
    ((∃ s e, a1.period_start = some s ∧ a1.period_end = some e ∧
        s.key ≤ ref.key ∧ ref.key < e.key) ∧
      a1.current_amount = (if changed then 0 else a.current_amount) ∧
      (changed = true ↔ (a.period_start = none ∨ a.period_end = none ∨
          ∃ ps pe, a.period_start = some ps ∧ a.period_end = some pe ∧
            (pe.key ≤ ref.key ∨ ref.key < ps.key)))) ∧
    (ensure_budget_period fuel { a with period_frequency := none } ref =
      (ensure_budget_period fuel { a with period_frequency := some .monthly } ref).map
        (fun p => ({ p.1 with period_frequency := none }, p.2))) ∧
    apply_budget_delta 4 dbC3 [allocC3] (budget_delta_for_transaction .debit 40) dateC3 =
      some { dbC3 with allocations := [{ allocC3r with current_amount := 40 }] } := by
  obtain ⟨h1, h2, h3, _⟩ := ensure_budget_period_spec fuel a ref a1 changed h
  exact ⟨⟨h1, h2, h3⟩, ensure_budget_period_default_monthly fuel a ref, by rfl⟩

/-! ## Claim C8: a failed mutation commits nothing -/

/-- C8.  Every `update_transaction` or `delete_transaction` call that
terminates with an error — invalid transfer configuration, missing account,
missing budget entry, or an invisible transaction — leaves the committed
store exactly as it was: the transaction rows, every account balance and
every allocation are unchanged, even when the failure is detected after the
old posted effects were reversed inside the unit of work. -/
theorem C8_failed_mutation_rolls_back (fuel : Nat) (db db1 : DB) (uid tid : Nat)
    (upd : TransactionUpdate) (e : ApiError)
    (h : update_transaction fuel db uid tid upd = some (db1, .error e) ∨
         delete_transaction fuel db uid tid = some (db1, .error e)) :
    db1 = db := by
  rcases h with h | h
  · exact update_transaction_error_state fuel db uid tid upd db1 e h
  · exact delete_transaction_error_state fuel db uid tid db1 e h

/-- Witness for C8: updating an id that resolves to no visible transaction
fails with NotFound and returns the untouched store. -/
theorem C8_failed_mutation_rolls_back_witness :
    update_transaction 1 dbW1 7 99 updNone =
      some (dbW1, .error (.notFound "Transaction not found")) ∧ dbW1 = dbW1 :=
  ⟨by rfl,
   C8_failed_mutation_rolls_back 1 dbW1 dbW1 7 99 updNone
     (.notFound "Transaction not found") (Or.inl (by rfl))⟩

/-- Witness for C3: the spec's own scenario, with fuel 4. -/
theorem C3_budget_period_roller_witness :
    ensure_budget_period 4 allocC3 dateC3 = some (allocC3r, true) ∧
    allocC3r.current_amount = (if true then 0 else allocC3.current_amount) ∧
    apply_budget_delta 4 dbC3 [allocC3] (budget_delta_for_transaction .debit 40) dateC3 =
      some { dbC3 with allocations := [{ allocC3r with current_amount := 40 }] } :=
  ⟨by rfl,
   (C3_budget_period_roller 4 allocC3 allocC3r dateC3 true (by rfl)).1.2.1,
   (C3_budget_period_roller 4 allocC3 allocC3r dateC3 true (by rfl)).2.2⟩

/-! ## Claim C2: transfer symmetry -/

/-- C2.  A successfully created posted transfer of amount A with fee F from
account X to account Y (distinct, both owned by the caller) decreases X's
balance by exactly A+F and increases Y's balance by exactly A, leaving every
other balance unchanged; deleting that transaction afterwards restores the
whole account table to its pre-transfer state. -/
theorem C2_transfer_symmetry (fuel fuel2 : Nat) (db db1 db2 : DB) (uid : Nat)
    (inp : TransactionCreate) (t : Transaction)
    (hval : inp.Valid)
    (hty : inp.transaction_type = .transfer) (hpost : inp.is_posted = true)
    (hc : create_transaction fuel db uid inp = some (db1, .ok t))
    (hd : delete_transaction fuel2 db1 uid t.id = some (db2, .ok ())) :
    ∃ f g, inp.transfer_from_account_id = some f ∧ inp.transfer_to_account_id = some g ∧
      f ≠ g ∧
      db1.accounts = mapBalances db.accounts (fun a =>
        a.balance + (if a.id = f then -(inp.amount + inp.transfer_fee)
                     else if a.id = g then inp.amount else 0)) ∧
      db2.accounts = db.accounts := by
  obtain ⟨⟨isRec, recFreq, projCur, origCur, ht⟩, hTr, -, hTxns, hAcc, -, -⟩ :=
    create_transaction_ok_inversion fuel db uid inp db1 t hc
  obtain ⟨f, g, src, dst, hf, hg, hfg, haccid, hsrc, hdst, -, -⟩ := hTr hty
  have htty : t.transaction_type = .transfer := by rw [ht]; exact hty
  have htpost : t.is_posted = true := by rw [ht]; exact hpost
  have htfrom : t.transfer_from_account_id = some f := by rw [ht]; exact hf
  have htto : t.transfer_to_account_id = some g := by rw [ht]; exact hg
  have htacc : t.account_id = f := by rw [ht]; exact haccid
  have htamt : t.amount = inp.amount := by rw [ht]; rfl
  have htfee : t.transfer_fee = inp.transfer_fee := by rw [ht]; rfl
  have hft : t.transaction_type = .transfer → t.is_posted = true →
      t.transfer_from_account_id = some t.account_id ∧
      ∃ g2, t.transfer_to_account_id = some g2 ∧ g2 ≠ t.account_id := by
    intro _ _
    refine ⟨by rw [htfrom, htacc], g, htto, ?_⟩
    rw [htacc]
    exact fun hq => hfg hq.symm
  have hbal1 : db1.accounts = mapBalances db.accounts
      (fun a => a.balance + txnEffect a.id t) := by
    rw [hAcc]
    exact applyPostedBalanceEffects_accounts db t hft
  have hbal1f : db1.accounts = mapBalances db.accounts (fun a =>
      a.balance + (if a.id = f then -(inp.amount + inp.transfer_fee)
                   else if a.id = g then inp.amount else 0)) := by
    rw [hbal1]
    unfold mapBalances
    apply List.map_congr_left
    intro a _
    simp only [txnEffect_transfer t htty htpost f g htfrom htto, htamt, htfee]
  obtain ⟨hsmem, hsid, hsuid⟩ := findOwnedAccount_spec db f uid src hsrc
  obtain ⟨hdmem, hdid, hduid⟩ := findOwnedAccount_spec db g uid dst hdst
  have hids : db1.accounts.map Account.id = db.accounts.map Account.id := by
    rw [hbal1]
    exact mapBalances_ids _ _
  obtain ⟨t0, hfind, hTxns2, hAcc2, -, -⟩ :=
    delete_transaction_ok_inversion fuel2 db1 uid t.id db2 hd
  have hfmem : f ∈ userAccountIds db1 uid := by
    rw [userAccountIds_eq_of_mapBalances db db1 uid _ hbal1]
    exact (mem_userAccountIds db uid f).mpr ⟨src, hsmem, hsuid, hsid⟩
  have hp : (t.id == t.id && touchesAccountIds (userAccountIds db1 uid) t) = true := by
    simp only [beq_self_eq_true, Bool.true_and]
    unfold touchesAccountIds
    rw [htacc]
    simp
    exact Or.inl (Or.inl hfmem)
  have hfind2 : findVisibleTransaction db1 uid t.id = some t := by
    unfold findVisibleTransaction
    rw [hTxns]
    rw [find?_append_none _ db.transactions [t] ?none_case]
    case none_case =>
      intro u hu
      have hne : u.id ≠ t.id := by
        rw [ht]
        exact freshTransactionId_not_mem db u hu
      simp [hne]
    · simp only [List.find?_cons, hp]
  have ht0 : t0 = t := Option.some.inj (hfind.symm.trans hfind2)
  rw [ht0] at hAcc2
  have hrev : db2.accounts = mapBalances db1.accounts
      (fun a => a.balance + (-(txnEffect a.id t))) := by
    rw [hAcc2, if_pos (by simp [htpost])]
    apply reversePostedBalanceEffects_accounts db1 t htpost
    · intro hcd
      exfalso
      rcases hcd with hcd | hcd <;> exact absurd (htty.symm.trans hcd) (by decide)
    · intro _
      obtain ⟨-, -, -, -, -, -, -, -, -, hvf, hvg⟩ := hval
      refine ⟨f, g, htfrom, htto,
        Nat.pos_iff_ne_zero.mp (hvf f hf), Nat.pos_iff_ne_zero.mp (hvg g hg), hfg, ?_, ?_⟩
      · rw [exists_mem_id_iff, hids, ← exists_mem_id_iff]
        exact ⟨src, hsmem, hsid⟩
      · rw [exists_mem_id_iff, hids, ← exists_mem_id_iff]
        exact ⟨dst, hdmem, hdid⟩
  have hrestore : db2.accounts = db.accounts := by
    rw [hrev, hbal1]
    rw [mapBalances_add db.accounts (fun a => txnEffect a.id t)
        (fun a => -(txnEffect a.id t)) (by intro a b; rfl)]
    exact mapBalances_zero_of db.accounts (fun x => txnEffect x t + -(txnEffect x t))
      (fun x => by simp)
  exact ⟨f, g, hf, hg, hfg, hbal1f, hrestore⟩

theorem inpT_valid : inpT.Valid := by
  refine ⟨by decide, ?_, ?_, ?_, by decide, by decide, ?_, ?_, ?_, ?_, ?_⟩ <;>
    (intro x hx; simp [inpT] at hx)
  · subst hx; decide
  · subst hx; decide

/-- Witness for C2: transferring 40 with fee 5 from a 100-balance account to
a 50-balance account yields 55/90, and deleting the transfer restores
100/50. -/
theorem C2_transfer_symmetry_witness :
    create_transaction 4 dbT0 7 inpT = some (dbT1, .ok tT) ∧
    delete_transaction 4 dbT1 7 tT.id = some (dbT0, .ok ()) ∧
    ∃ f g, inpT.transfer_from_account_id = some f ∧ inpT.transfer_to_account_id = some g ∧
      f ≠ g ∧
      dbT1.accounts = mapBalances dbT0.accounts (fun a =>
        a.balance + (if a.id = f then -(inpT.amount + inpT.transfer_fee)
                     else if a.id = g then inpT.amount else 0)) ∧
      dbT0.accounts = dbT0.accounts :=
  ⟨by rfl, by rfl,
   C2_transfer_symmetry 4 4 dbT0 dbT1 dbT0 7 inpT tT inpT_valid (by rfl) (by rfl)
     (by rfl) (by rfl)⟩

/-! ## Claim C5: currency defaulting -/

/-- C5 counterexample.  The schema validates an omitted `currency` to the
pydantic default PHP before the router runs, so a currency-less transaction
created on an account whose currency is USD is stored with currency PHP —
not the account's USD — and its `original_currency` defaults to the
transaction's own (PHP) currency, likewise not the account's. -/
theorem C5_currency_default_counterexample :
    acctW.currency = Currency.USD ∧
    inpC5.currency = pydanticCurrencyDefault none ∧
    create_transaction 1 dbW0 7 inpC5 = some (dbC5, .ok tC5) ∧
    tC5.currency = some Currency.PHP ∧
    tC5.currency ≠ some acctW.currency ∧
    tC5.original_currency = some Currency.PHP ∧
    tC5.original_currency ≠ some acctW.currency :=
  ⟨rfl, rfl, by rfl, rfl, by decide, rfl, by decide⟩

/-- C5 (amended).  For every successful `create_transaction`, the stored
`currency` is exactly the schema-validated payload currency (PHP when the
request omitted the field) — it never inherits the account's currency;
`projected_currency` defaults from the primary (for transfers, destination)
account's currency exactly when `projected_amount` is present and
`projected_currency` absent; `original_currency` defaults from the
destination account's currency for transfers, but for non-transfers it
defaults from the transaction's own currency. -/
theorem C5_currency_default (fuel : Nat) (db : DB) (uid : Nat) (inp : TransactionCreate)
    (db1 : DB) (t : Transaction)
    (hc : create_transaction fuel db uid inp = some (db1, .ok t)) :
    t.currency = some inp.currency ∧
    (inp.transaction_type ≠ .transfer →
      ∃ primary, findOwnedAccount db inp.account_id uid = some primary ∧
        t.projected_currency = (if inp.projected_currency.isNone && inp.projected_amount.isSome
          then some primary.currency else inp.projected_currency) ∧
        t.original_currency = (if inp.original_currency.isNone && inp.original_amount.isSome
          then some inp.currency else inp.original_currency)) ∧
    (inp.transaction_type = .transfer →
      ∃ f g src dst, inp.transfer_from_account_id = some f ∧
        inp.transfer_to_account_id = some g ∧
        findOwnedAccount db f uid = some src ∧ findOwnedAccount db g uid = some dst ∧
        t.projected_currency = (if inp.projected_currency.isNone && inp.projected_amount.isSome
          then some dst.currency else inp.projected_currency) ∧
        t.original_currency = (if inp.original_currency.isNone && inp.original_amount.isSome
          then some dst.currency else inp.original_currency)) := by
  obtain ⟨⟨isRec, recFreq, projCur, origCur, ht⟩, hTr, hNTr, -, -, -, -⟩ :=
    create_transaction_ok_inversion fuel db uid inp db1 t hc
  refine ⟨by rw [ht]; rfl, ?_, ?_⟩
  · intro hne
    obtain ⟨primary, h1, h2, h3⟩ := hNTr hne
    exact ⟨primary, h1, h2, h3⟩
  · intro heq
    obtain ⟨f, g, src, dst, h1, h2, h3, h4, h5, h6, h7, h8⟩ := hTr heq
    exact ⟨f, g, src, dst, h1, h2, h5, h6, h7, h8⟩

/-- Witness for C5's amended theorem at the counterexample input. -/
theorem C5_currency_default_witness :
    create_transaction 1 dbW0 7 inpC5 = some (dbC5, .ok tC5) ∧
    tC5.currency = some inpC5.currency :=
  ⟨by rfl, (C5_currency_default 1 dbW0 7 inpC5 dbC5 tC5 (by rfl)).1⟩

/-! ## Claim C6: cross-user isolation of allocation reads -/

/-- C6 (code-bug evidence).  The allocation read endpoint declares no
authenticated-user dependency and filters by id only — the model therefore
has no caller parameter at all — so the full allocation row of user 7 is
returned to whoever issues the request, instead of the NotFound the spec
requires for every caller other than the owner. -/
theorem C6_allocation_cross_user_access :
    allocC3.user_id = 7 ∧ get_allocation dbC3 3 = .ok allocC3 :=
  ⟨rfl, by rfl⟩

/-! ## Claim C4: transfer validation -/

/-- C4 counterexample.  Updating a stored transfer with `account_id = 3`
while its source stays account 2 succeeds — the router silently overwrites
`account_id` with the transfer source instead of failing — and a create
whose source account does not exist fails with NotFound rather than the
ValidationError the spec names. -/
theorem C4_transfer_validation_counterexample :
    updC4.account_id = some 3 ∧ tT.transfer_from_account_id = some 2 ∧
    update_transaction 4 dbT1 7 1 updC4 = some (dbT1, .ok tT) ∧
    tT.account_id = 2 ∧
    create_transaction 1 dbT0 7 inpC4bad =
      some (dbT0, .error (.notFound "Source account not found")) :=
  ⟨rfl, rfl, by rfl, rfl, by rfl⟩

/-- C4 (amended).  For transfer payloads, the validation ladder is exactly:
missing source/destination, equal accounts, and (on create only) a primary
account differing from the source each raise ValidationError; a source or
destination that is missing or not owned raises NotFound (not
ValidationError); every other transfer configuration succeeds.  On update
there is no `account_id` check at all — the row's `account_id` is silently
overwritten with the transfer source.  A failed call commits nothing. -/
theorem C4_transfer_validation (db : DB) (uid : Nat) (inp : TransactionCreate)
    (t2 : Transaction)
    (hc : inp.transaction_type = .transfer) (hu : t2.transaction_type = .transfer) :
    ((inp.transfer_from_account_id = none ∨ inp.transfer_to_account_id = none) →
      resolveCreateAccounts db uid inp =
        .error (.validation "Transfer transactions require source and destination accounts")) ∧
    (∀ f g, inp.transfer_from_account_id = some f → inp.transfer_to_account_id = some g →
      (f = g → resolveCreateAccounts db uid inp =
        .error (.validation "Transfer accounts must be different")) ∧
      (f ≠ g → inp.account_id ≠ f → resolveCreateAccounts db uid inp =
        .error (.validation "For transfers, account_id must match transfer_from_account_id")) ∧
      (f ≠ g → inp.account_id = f → findOwnedAccount db f uid = none →
        resolveCreateAccounts db uid inp = .error (.notFound "Source account not found")) ∧
      (f ≠ g → inp.account_id = f → ∀ src, findOwnedAccount db f uid = some src →
        findOwnedAccount db g uid = none →
        resolveCreateAccounts db uid inp = .error (.notFound "Destination account not found")) ∧
      (f ≠ g → inp.account_id = f → ∀ src dst, findOwnedAccount db f uid = some src →
        findOwnedAccount db g uid = some dst →
        ∃ quad, resolveCreateAccounts db uid inp = .ok quad)) ∧
    ((t2.transfer_from_account_id = none ∨ t2.transfer_to_account_id = none) →
      resolveUpdateAccounts db uid t2 =
        .error (.validation "Transfer transactions require source and destination accounts")) ∧
    (∀ f g, t2.transfer_from_account_id = some f → t2.transfer_to_account_id = some g →
      (f = g → resolveUpdateAccounts db uid t2 =
        .error (.validation "Transfer accounts must be different")) ∧
      (f ≠ g → findOwnedAccount db f uid = none →
        resolveUpdateAccounts db uid t2 = .error (.notFound "Source account not found")) ∧
      (f ≠ g → ∀ src, findOwnedAccount db f uid = some src →
        findOwnedAccount db g uid = none →
        resolveUpdateAccounts db uid t2 = .error (.notFound "Destination account not found")) ∧
      (f ≠ g → ∀ src dst, findOwnedAccount db f uid = some src →
        findOwnedAccount db g uid = some dst →
        ∃ t3, resolveUpdateAccounts db uid t2 = .ok t3 ∧ t3.account_id = f)) ∧
    (∀ fuel db1 e, create_transaction fuel db uid inp = some (db1, .error e) → db1 = db) ∧
    (∀ fuel tid upd db1 e, update_transaction fuel db uid tid upd = some (db1, .error e) →
      db1 = db) := by
  refine ⟨?_, ?_, ?_, ?_, ?_, ?_⟩
  · intro h
    unfold resolveCreateAccounts
    rw [if_pos (by simp [hc])]
    rcases h with h | h
    · rw [h]
    · rcases hf : inp.transfer_from_account_id with _ | f
      · all_goals rfl
      · rw [h]
  · intro f g hf hg
    refine ⟨?_, ?_, ?_, ?_, ?_⟩
    · rintro rfl
      unfold resolveCreateAccounts
      rw [if_pos (by simp [hc]), hf, hg]
      simp
    · intro hfg hacc
      unfold resolveCreateAccounts
      rw [if_pos (by simp [hc]), hf, hg]
      simp [hfg, hacc]
    · intro hfg hacc hsrc
      unfold resolveCreateAccounts
      rw [if_pos (by simp [hc]), hf, hg]
      simp [hfg, hacc, hsrc]
    · intro hfg hacc src hsrc hdst
      unfold resolveCreateAccounts
      rw [if_pos (by simp [hc]), hf, hg]
      simp [hfg, hacc, hsrc, hdst]
    · intro hfg hacc src dst hsrc hdst
      unfold resolveCreateAccounts
      rw [if_pos (by simp [hc]), hf, hg]
      simp [hfg, hacc, hsrc, hdst]
  · intro h
    unfold resolveUpdateAccounts
    rw [if_pos (by simp [hu])]
    rcases h with h | h
    · rw [h]
    · rcases hf : t2.transfer_from_account_id with _ | f
      · all_goals rfl
      · rw [h]
  · intro f g hf hg
    refine ⟨?_, ?_, ?_, ?_⟩
    · rintro rfl
      unfold resolveUpdateAccounts
      rw [if_pos (by simp [hu]), hf, hg]
      simp
    · intro hfg hsrc
      unfold resolveUpdateAccounts
      rw [if_pos (by simp [hu]), hf, hg]
      simp [hfg, hsrc]
    · intro hfg src hsrc hdst
      unfold resolveUpdateAccounts
      rw [if_pos (by simp [hu]), hf, hg]
      simp [hfg, hsrc, hdst]
    · intro hfg src dst hsrc hdst
      unfold resolveUpdateAccounts
      rw [if_pos (by simp [hu]), hf, hg]
      refine ⟨{ t2 with
                  account_id := f
                  currency := match t2.currency with
                    | none => some dst.currency | some c => some c
                  projected_currency :=
                    if t2.projected_amount.isSome && t2.projected_currency.isNone
                    then some dst.currency else t2.projected_currency
                  original_currency :=
                    if t2.original_amount.isSome && t2.original_currency.isNone
                    then some dst.currency else t2.original_currency }, ?_, rfl⟩
      simp [hfg, hsrc, hdst]
      exact ⟨hf.symm, hg.symm⟩
  · intro fuel db1 e h
    exact create_transaction_error_state fuel db uid inp db1 e h
  · intro fuel tid upd db1 e h
    exact update_transaction_error_state fuel db uid tid upd db1 e h

/-- Witness for C4's amended theorem: a transfer payload lacking its source
account id is rejected as a validation error. -/
theorem C4_transfer_validation_witness :
    ({ inpT with transfer_from_account_id := none } : TransactionCreate).transaction_type
      = .transfer ∧
    resolveCreateAccounts dbT0 7 { inpT with transfer_from_account_id := none } =
      .error (.validation "Transfer transactions require source and destination accounts") :=
  ⟨rfl,
   (C4_transfer_validation dbT0 7 { inpT with transfer_from_account_id := none } tT
     rfl rfl).1 (Or.inl rfl)⟩

/-! ## Claim C9: category-based budget matching -/

/-- C9.  For a caller's stored budget allocation: with no explicit
allocation reference, it is matched exactly when its coerced
`configuration.category_ids` contains the transaction's category id; the
matched list never carries an allocation twice (an allocation matched both
explicitly and by category is included once); a debit's budget delta is its
amount; applying a non-zero delta to the matched list rolls the matched
allocation's period and accumulates the delta onto its `current_amount`,
while an allocation whose `category_ids` does not contain the category id
is left exactly as it was. -/
theorem C9_category_matching (fuel : Nat) (db : DB) (uid cid : Nat) (a : Allocation)
    (delta : ℤ) (ref : DateTime)
    (hnodup : (db.allocations.map Allocation.id).Nodup)
    (ha : a ∈ db.allocations) (hu : a.user_id = uid)
    (hb : a.allocation_type = .budget) :
    (a ∈ get_budget_allocations_for_transaction db uid none (some cid) ↔
      categoryIdsContain a cid = true) ∧
    (∀ aidOpt cidOpt : Option Nat,
      ((get_budget_allocations_for_transaction db uid aidOpt cidOpt).map
        Allocation.id).Nodup) ∧
    (∀ amt : ℤ, budget_delta_for_transaction .debit amt = amt) ∧
    (∀ (aidOpt : Option Nat) (db' : DB), delta ≠ 0 →
      a ∈ get_budget_allocations_for_transaction db uid aidOpt (some cid) →
      apply_budget_delta fuel db
        (get_budget_allocations_for_transaction db uid aidOpt (some cid)) delta ref =
          some db' →
      ∃ a1 ch, ensure_budget_period fuel a ref = some (a1, ch) ∧
        db'.allocations.find? (fun r => r.id == a.id) =
          some { a1 with current_amount := a1.current_amount + delta }) ∧
    (∀ db' : DB, categoryIdsContain a cid = false →
      apply_budget_delta fuel db
        (get_budget_allocations_for_transaction db uid none (some cid)) delta ref =
          some db' →
      db'.allocations.find? (fun r => r.id == a.id) = some a) := by
  have hfdb : db.allocations.find? (fun r => r.id == a.id) = some a :=
    find?_id_of_mem_nodup db.allocations a hnodup ha
  refine ⟨get_budget_allocations_mem_iff db uid cid a hnodup ha hu hb,
    fun aidOpt cidOpt => get_budget_allocations_nodup db uid aidOpt cidOpt,
    fun amt => rfl, ?_, ?_⟩
  · intro aidOpt db' hdelta hmem happly
    have hnodupl := get_budget_allocations_nodup db uid aidOpt (some cid)
    have hempty : (get_budget_allocations_for_transaction db uid aidOpt
        (some cid)).isEmpty = false := by
      cases hl : get_budget_allocations_for_transaction db uid aidOpt (some cid) with
      | nil => rw [hl] at hmem; cases hmem
      | cons x xs => rfl
    have hne : ((get_budget_allocations_for_transaction db uid aidOpt
        (some cid)).isEmpty || (delta == 0)) = false := by
      rw [hempty]
      simp [hdelta]
    have hrows := apply_budget_delta_rows fuel db _ delta ref db' hnodupl hne happly
    have hfold := happly
    rw [apply_budget_delta_as_fold, if_neg (by simp [hne])] at hfold
    have hens := budget_fold_ensure_some fuel delta ref _ db db' hfold a hmem
    rcases hens with hskip | ⟨p, hens⟩
    · exact absurd hskip (by simp [hb])
    obtain ⟨a1, ch⟩ := p
    refine ⟨a1, ch, hens, ?_⟩
    rw [hrows, List.find?_map]
    have hcomp : ((fun r : Allocation => r.id == a.id) ∘
        rollBump fuel delta ref (get_budget_allocations_for_transaction db uid aidOpt
          (some cid))) = (fun r : Allocation => r.id == a.id) := by
      funext r
      simp [Function.comp, rollBump_id]
    rw [hcomp, hfdb]
    show some (rollBump fuel delta ref _ a) = _
    rw [rollBump_eq_bump fuel delta ref _ a a a1 ch
      (find?_id_of_mem_nodup _ a hnodupl hmem) (by simp [hb]) hens]
  · intro db' hnotm happly
    have hnotmem : ∀ x ∈ get_budget_allocations_for_transaction db uid none (some cid),
        x.id ≠ a.id := by
      intro x hx hq
      obtain ⟨hxdb, -, -⟩ := get_budget_allocations_sound db uid none (some cid) x hx
      have hxa : x = a := nodup_row_unique db.allocations hnodup x a hxdb ha hq
      rw [hxa] at hx
      rw [(get_budget_allocations_mem_iff db uid cid a hnodup ha hu hb).mp hx] at hnotm
      cases hnotm
    rw [apply_budget_delta_as_fold] at happly
    split at happly
    · obtain rfl := Option.some.inj happly
      exact hfdb
    · have hrows := budget_fold_rows fuel delta ref _ db db'
        (get_budget_allocations_nodup db uid none (some cid)) happly
      rw [hrows, List.find?_map]
      have hcomp : ((fun r : Allocation => r.id == a.id) ∘
          rollBump fuel delta ref (get_budget_allocations_for_transaction db uid none
            (some cid))) = (fun r : Allocation => r.id == a.id) := by
        funext r
        simp [Function.comp, rollBump_id]
      rw [hcomp, hfdb]
      show some (rollBump fuel delta ref _ a) = _
      rw [rollBump_of_not_found fuel delta ref _ a hnotmem]

theorem allocC9_mem : allocC9 ∈ dbC9.allocations := List.mem_singleton_self allocC9

/-- Witness for C9: the spec's `category_ids=[5,7]` allocation, category 7
matching and category 9 not. -/
theorem C9_category_matching_witness :
    categoryIdsContain allocC9 7 = true ∧
    categoryIdsContain allocC9 9 = false ∧
    (allocC9 ∈ get_budget_allocations_for_transaction dbC9 7 none (some 7) ↔
      categoryIdsContain allocC9 7 = true) ∧
    budget_delta_for_transaction .debit 40 = 40 :=
  ⟨by rfl, by rfl,
   (C9_category_matching 4 dbC9 7 7 allocC9 40 ⟨2024, 3, 10, 0⟩ (by simp [dbC9])
     allocC9_mem rfl rfl).1,
   (C9_category_matching 4 dbC9 7 7 allocC9 40 ⟨2024, 3, 10, 0⟩ (by simp [dbC9])
     allocC9_mem rfl rfl).2.2.1 40⟩

/-! ## Claim C10: savings and goal allocations are never touched -/

/-- C10.  A stored allocation of non-budget type (savings or goal) is left
exactly in place — `current_amount`, period fields and all — by every
terminating `create_transaction`, `update_transaction` and
`delete_transaction` call, even one whose transaction carries that
allocation's id as its explicit `allocation_id`: the matcher selects only
budget-type allocations and the delta application skips every other row. -/
theorem C10_non_budget_allocations_frozen (fuel : Nat) (db : DB) (uid tid : Nat)
    (inp : TransactionCreate) (upd : TransactionUpdate) (a : Allocation)
    (hnodup : (db.allocations.map Allocation.id).Nodup)
    (ha : a ∈ db.allocations) (htype : a.allocation_type ≠ .budget) :
    (∀ (db1 : DB) (r : Except ApiError Transaction),
      create_transaction fuel db uid inp = some (db1, r) →
      db1.allocations.find? (fun x => x.id == a.id) = some a) ∧
    (∀ (db1 : DB) (r : Except ApiError Transaction),
      update_transaction fuel db uid tid upd = some (db1, r) →
      db1.allocations.find? (fun x => x.id == a.id) = some a) ∧
    (∀ (db1 : DB) (r : Except ApiError Unit),
      delete_transaction fuel db uid tid = some (db1, r) →
      db1.allocations.find? (fun x => x.id == a.id) = some a) := by
  have hfind0 : db.allocations.find? (fun x => x.id == a.id) = some a :=
    find?_id_of_mem_nodup db.allocations a hnodup ha
  refine ⟨?_, ?_, ?_⟩
  · intro db1 r h
    unfold create_transaction at h
    cases hrec : resolveRecurrence db uid inp with
    | error e =>
        rw [hrec] at h
        have hpair := Option.some.inj h
        rw [Prod.mk.injEq] at hpair
        obtain ⟨hdb1, -⟩ := hpair
        rw [← hdb1]
        exact hfind0
    | ok recur =>
        rw [hrec] at h
        cases hres : resolveCreateAccounts db uid inp with
        | error e =>
            rw [hres] at h
            have hpair := Option.some.inj h
            rw [Prod.mk.injEq] at hpair
            obtain ⟨hdb1, -⟩ := hpair
            rw [← hdb1]
            exact hfind0
        | ok quad =>
            obtain ⟨src, dstOpt, projCur, origCur⟩ := quad
            rw [hres] at h
            simp only [] at h
            split at h
            · exact absurd h (by simp)
            · rename_i db3 hbudget
              have hpair := Option.some.inj h
              rw [Prod.mk.injEq] at hpair
              obtain ⟨hdb1, -⟩ := hpair
              rw [← hdb1]
              set t := builtTransaction db uid inp recur.1 recur.2 projCur origCur with ht
              set dbA : DB := { db with transactions := db.transactions ++ [t] } with hdbA
              have hall2 : (applyPostedBalanceEffects dbA t).allocations = db.allocations :=
                (applyPostedBalanceEffects_rest dbA t).2.1
              rcases hpost : t.is_posted
              · rw [hpost] at hbudget
                simp only [Bool.false_eq_true, if_false] at hbudget
                obtain rfl := Option.some.inj hbudget
                rw [hall2]
                exact hfind0
              · rw [hpost] at hbudget
                simp only [if_true] at hbudget
                exact (applyBudgetEffects_nonbudget fuel _ db3 uid t a
                  (by rw [hall2]; exact hnodup) htype (by rw [hall2]; exact hfind0)
                  hbudget).1
  · intro db1 r h
    unfold update_transaction at h
    cases hfindv : findVisibleTransaction db uid tid with
    | none =>
        rw [hfindv] at h
        have hpair := Option.some.inj h
        rw [Prod.mk.injEq] at hpair
        obtain ⟨hdb1, -⟩ := hpair
        rw [← hdb1]
        exact hfind0
    | some t0 =>
        rw [hfindv] at h
        simp only [] at h
        cases hrev : updateReversalPhase fuel db uid t0 with
        | none => rw [hrev] at h; exact absurd h (by simp)
        | some db2 =>
            rw [hrev] at h
            simp only [] at h
            have hstate2 : db2.allocations.find? (fun x => x.id == a.id) = some a ∧
                (db2.allocations.map Allocation.id).Nodup := by
              unfold updateReversalPhase at hrev
              split at hrev
              · have hallR : (reversePostedBalanceEffects db t0).allocations =
                    db.allocations := (reversePostedBalanceEffects_rest db t0).2.1
                exact reverseBudgetEffects_nonbudget fuel _ db2 uid t0 a
                  (by rw [hallR]; exact hnodup) htype (by rw [hallR]; exact hfind0) hrev
              · obtain rfl := Option.some.inj hrev
                exact ⟨hfind0, hnodup⟩
            cases hlink : resolveUpdateBudgetEntry db2 uid t0 upd with
            | error e =>
                rw [hlink] at h
                have hpair := Option.some.inj h
                rw [Prod.mk.injEq] at hpair
                obtain ⟨hdb1, -⟩ := hpair
                rw [← hdb1]
                exact hfind0
            | ok t1 =>
                rw [hlink] at h
                simp only [] at h
                cases hresu : resolveUpdateAccounts db2 uid (applyUpdateFields t1 upd) with
                | error e =>
                    rw [hresu] at h
                    have hpair := Option.some.inj h
                    rw [Prod.mk.injEq] at hpair
                    obtain ⟨hdb1, -⟩ := hpair
                    rw [← hdb1]
                    exact hfind0
                | ok t3 =>
                    rw [hresu] at h
                    simp only [] at h
                    split at h
                    · exact absurd h (by simp)
                    · rename_i db4 hbudget
                      have hpair := Option.some.inj h
                      rw [Prod.mk.injEq] at hpair
                      obtain ⟨hdb1, -⟩ := hpair
                      rw [← hdb1]
                      show db4.allocations.find? (fun x => x.id == a.id) = some a
                      have hall3 : (applyPostedBalanceEffects db2 t3).allocations =
                          db2.allocations := (applyPostedBalanceEffects_rest db2 t3).2.1
                      rcases hpost : t3.is_posted
                      · rw [hpost] at hbudget
                        simp only [Bool.false_eq_true, if_false] at hbudget
                        obtain rfl := Option.some.inj hbudget
                        rw [hall3]
                        exact hstate2.1
                      · rw [hpost] at hbudget
                        simp only [if_true] at hbudget
                        exact (applyBudgetEffects_nonbudget fuel _ db4 uid t3 a
                          (by rw [hall3]; exact hstate2.2) htype
                          (by rw [hall3]; exact hstate2.1) hbudget).1
  · intro db1 r h
    unfold delete_transaction at h
    cases hfindv : findVisibleTransaction db uid tid with
    | none =>
        rw [hfindv] at h
        have hpair := Option.some.inj h
        rw [Prod.mk.injEq] at hpair
        obtain ⟨hdb1, -⟩ := hpair
        rw [← hdb1]
        exact hfind0
    | some t0 =>
        rw [hfindv] at h
        simp only [] at h
        split at h
        · exact absurd h (by simp)
        · rename_i db2 hbudget
          have hpair := Option.some.inj h
          rw [Prod.mk.injEq] at hpair
          obtain ⟨hdb1, -⟩ := hpair
          rw [← hdb1]
          show db2.allocations.find? (fun x => x.id == a.id) = some a
          rcases hpost : t0.is_posted
          · rw [hpost] at hbudget
            simp only [Bool.false_eq_true, if_false] at hbudget
            obtain rfl := Option.some.inj hbudget
            exact hfind0
          · rw [hpost] at hbudget
            simp only [if_true] at hbudget
            have hallR : (reversePostedBalanceEffects db t0).allocations =
                db.allocations := (reversePostedBalanceEffects_rest db t0).2.1
            exact (reverseBudgetEffects_nonbudget fuel _ db2 uid t0 a
              (by rw [hallR]; exact hnodup) htype (by rw [hallR]; exact hfind0) hbudget).1

/-- Witness for C10: a savings allocation survives a posted credit create
untouched even though the transaction names it as `allocation_id`. -/
theorem C10_non_budget_allocations_frozen_witness :
    allocSav ∈ dbSav.allocations ∧ allocSav.allocation_type ≠ .budget ∧
    create_transaction 4 dbSav 7 inpSav = some (dbSav1, .ok tSav) ∧
    dbSav1.allocations.find? (fun x => x.id == allocSav.id) = some allocSav :=
  ⟨List.mem_singleton_self allocSav, by decide, by rfl,
   (C10_non_budget_allocations_frozen 4 dbSav 7 1 inpSav updNone allocSav
     (by simp [dbSav]) (List.mem_singleton_self allocSav) (by decide)).1 dbSav1
     (.ok tSav) (by rfl)⟩

/-! ## Claim C7: updating to identical values -/

/-- C7 (amended).  Updating a stored transaction to its own values through
the reverse-then-reapply protocol always restores every account balance
exactly — unconditionally; the allocation table is restored exactly as well
provided each matched allocation's current period contains the transaction's
date — the no-roll condition under which neither pass resets progress. -/
theorem C7_identical_update (fuel : Nat) (db db1 : DB) (uid tid : Nat)
    (t0 t3 : Transaction)
    (hok : TxnOK db t0)
    (hnodup : (db.allocations.map Allocation.id).Nodup)
    (hfindv : findVisibleTransaction db uid tid = some t0)
    (h : update_transaction fuel db uid tid (identicalUpdate t0) = some (db1, .ok t3)) :
    db1.accounts = db.accounts ∧
    ((∀ b ∈ get_budget_allocations_for_transaction db uid t0.allocation_id
        t0.category_id,
      ∃ s e, b.period_start = some s ∧ b.period_end = some e ∧
        s.key ≤ t0.transaction_date.key ∧ t0.transaction_date.key < e.key) →
      db1.allocations = db.allocations) := by
  unfold update_transaction at h
  rw [hfindv] at h
  simp only [] at h
  cases hrev : updateReversalPhase fuel db uid t0 with
  | none => rw [hrev] at h; exact absurd h (by simp)
  | some db2 =>
      rw [hrev] at h
      simp only [] at h
      rw [resolveUpdateBudgetEntry_identical db2 uid t0] at h
      simp only [] at h
      rw [applyUpdateFields_identical t0] at h
      cases hresu : resolveUpdateAccounts db2 uid t0 with
      | error e =>
          rw [hresu] at h
          exact absurd (congrArg Prod.snd (Option.some.inj h)) (by simp)
      | ok t3' =>
          rw [hresu] at h
          simp only [] at h
          have hfields :
              t3'.transaction_type = t0.transaction_type ∧ t3'.is_posted = t0.is_posted ∧
              t3'.amount = t0.amount ∧ t3'.transfer_fee = t0.transfer_fee ∧
              t3'.transfer_from_account_id = t0.transfer_from_account_id ∧
              t3'.transfer_to_account_id = t0.transfer_to_account_id ∧
              t3'.account_id = t0.account_id ∧ t3'.allocation_id = t0.allocation_id ∧
              t3'.category_id = t0.category_id ∧
              t3'.transaction_date = t0.transaction_date := by
            obtain ⟨hTr, hNTr⟩ := resolveUpdateAccounts_ok db2 uid t0 t3' hresu
            by_cases htype : t0.transaction_type = TransactionType.transfer
            · obtain ⟨f, g, src, dst, hf, hg, hfg, hsrc, hdst, ht3eq⟩ := hTr htype
              obtain ⟨f2, g2, hf2, hg2, hfg2, hacc2, -, -⟩ := hok.2.2.2 htype
              have hff2 : f = f2 := by
                rw [hf] at hf2
                exact Option.some.inj hf2
              subst ht3eq
              refine ⟨rfl, rfl, rfl, rfl, rfl, rfl, ?_, rfl, rfl, rfl⟩
              show f = t0.account_id
              rw [hff2]
              exact hacc2.symm
            · obtain ⟨primary, hprim, ht3eq⟩ := hNTr htype
              subst ht3eq
              exact ⟨rfl, rfl, rfl, rfl, rfl, rfl, rfl, rfl, rfl, rfl⟩
          obtain ⟨hF1, hF2, hF3, hF4, hF5, hF6, hF7, hF8, hF9, hF10⟩ := hfields
          have hft' : t3'.transaction_type = .transfer → t3'.is_posted = true →
              t3'.transfer_from_account_id = some t3'.account_id ∧
              ∃ g2, t3'.transfer_to_account_id = some g2 ∧ g2 ≠ t3'.account_id := by
            intro hty _
            rw [hF1] at hty
            obtain ⟨f2, g2, hf2, hg2, hfg2, hacc2, -, -⟩ := hok.2.2.2 hty
            refine ⟨by rw [hF5, hF7, hacc2, hf2], g2, by rw [hF6, hg2], ?_⟩
            rw [hF7, hacc2]
            exact fun hq => hfg2 hq.symm
          split at h
          · exact absurd h (by simp)
          · rename_i db4 hbudget
            have hpair := Option.some.inj h
            rw [Prod.mk.injEq] at hpair
            obtain ⟨hdb1, -⟩ := hpair
            have hgoal : (db4.accounts = db.accounts ∧
                ((∀ b ∈ get_budget_allocations_for_transaction db uid t0.allocation_id
                    t0.category_id,
                  ∃ s e, b.period_start = some s ∧ b.period_end = some e ∧
                    s.key ≤ t0.transaction_date.key ∧
                    t0.transaction_date.key < e.key) →
                  db4.allocations = db.allocations)) →
                db1.accounts = db.accounts ∧
                ((∀ b ∈ get_budget_allocations_for_transaction db uid t0.allocation_id
                    t0.category_id,
                  ∃ s e, b.period_start = some s ∧ b.period_end = some e ∧
                    s.key ≤ t0.transaction_date.key ∧
                    t0.transaction_date.key < e.key) →
                  db1.allocations = db.allocations) := by
              intro hg
              rw [← hdb1]
              exact hg
            apply hgoal
            rcases hpost : t0.is_posted
            · -- unposted: both phases degenerate
              have hdb2 : db2 = db := by
                unfold updateReversalPhase at hrev
                rw [if_neg (by simp [hpost])] at hrev
                exact (Option.some.inj hrev).symm
              have hpost3 : t3'.is_posted = false := by rw [hF2, hpost]
              rw [hpost3] at hbudget
              simp only [Bool.false_eq_true, if_false] at hbudget
              have hdb4 := Option.some.inj hbudget
              rw [applyPostedBalanceEffects_unposted db2 t3' hpost3] at hdb4
              rw [← hdb4, hdb2]
              exact ⟨rfl, fun _ => rfl⟩
            · -- posted
              have hdb2rev : reverseBudgetEffects fuel
                  (reversePostedBalanceEffects db t0) uid t0 = some db2 := by
                unfold updateReversalPhase at hrev
                rw [if_pos (by simp [hpost])] at hrev
                exact hrev
              have hRall : (reversePostedBalanceEffects db t0).allocations =
                  db.allocations := (reversePostedBalanceEffects_rest db t0).2.1
              have hRacc : (reversePostedBalanceEffects db t0).accounts =
                  mapBalances db.accounts
                    (fun a => a.balance + (-(txnEffect a.id t0))) := by
                have hra := reversal_accounts db t0 hok
                rw [if_pos (by simp [hpost])] at hra
                exact hra
              -- phase 2 plumbing
              have hpost3 : t3'.is_posted = true := by rw [hF2, hpost]
              rw [hpost3] at hbudget
              simp only [if_true] at hbudget
              unfold applyBudgetEffects at hbudget
              simp only [] at hbudget
              have hd3 : budget_delta_for_transaction t3'.transaction_type t3'.amount =
                  budget_delta_for_transaction t0.transaction_type t0.amount := by
                rw [hF1, hF3]
              rw [hd3, hF8, hF9, hF10] at hbudget
              -- reversal plumbing
              unfold reverseBudgetEffects at hdb2rev
              simp only [] at hdb2rev
              rw [get_budget_allocations_congr db _ uid t0.allocation_id t0.category_id
                hRall] at hdb2rev
              -- accounts of phase 2, shared by every sub-case
              have hacc3 : ∀ dbX : DB, dbX.accounts =
                  (reversePostedBalanceEffects db t0).accounts →
                  (applyPostedBalanceEffects dbX t3').accounts = db.accounts := by
                intro dbX hX
                rw [applyPostedBalanceEffects_accounts dbX t3' hft']
                have hptw : mapBalances dbX.accounts
                    (fun a => a.balance + txnEffect a.id t3') =
                    mapBalances dbX.accounts
                      (fun a => a.balance + txnEffect a.id t0) := by
                  unfold mapBalances
                  apply List.map_congr_left
                  intro a _
                  simp only [txnEffect_congr t0 t3' hF1 hF2 hF3 hF4 hF5 hF6 hF7]
                rw [hptw, hX, hRacc]
                rw [mapBalances_add db.accounts
                  (fun a => -(txnEffect a.id t0)) (fun a => txnEffect a.id t0)
                  (by intro a b; rfl)]
                exact mapBalances_zero_of db.accounts
                  (fun x => -(txnEffect x t0) + txnEffect x t0) (fun x => by simp)
              by_cases hdz : (budget_delta_for_transaction t0.transaction_type
                  t0.amount == 0) = true
              · -- zero delta: both budget passes are the identity
                rw [if_pos hdz] at hdb2rev
                obtain hdb2 := (Option.some.inj hdb2rev).symm
                rw [if_pos hdz] at hbudget
                obtain hdb4 := Option.some.inj hbudget
                constructor
                · rw [← hdb4]
                  exact hacc3 db2 (by rw [hdb2])
                · intro _
                  rw [← hdb4]
                  have : (applyPostedBalanceEffects db2 t3').allocations =
                      db2.allocations := (applyPostedBalanceEffects_rest db2 t3').2.1
                  rw [this, hdb2, hRall]
              · -- non-zero delta
                rw [if_neg (by simp [hdz])] at hdb2rev
                rw [if_neg (by simp [hdz])] at hbudget
                by_cases hl0 : (get_budget_allocations_for_transaction db uid
                    t0.allocation_id t0.category_id).isEmpty = true
                · -- no matched allocation: both applies are the identity
                  rw [apply_budget_delta_as_fold, if_pos (by rw [hl0]; rfl)] at hdb2rev
                  obtain hdb2 := (Option.some.inj hdb2rev).symm
                  have hall2 : db2.allocations = db.allocations := by rw [hdb2, hRall]
                  have hl2 : get_budget_allocations_for_transaction
                      (applyPostedBalanceEffects db2 t3') uid t0.allocation_id
                      t0.category_id =
                      get_budget_allocations_for_transaction db uid t0.allocation_id
                        t0.category_id := by
                    apply get_budget_allocations_congr
                    rw [(applyPostedBalanceEffects_rest db2 t3').2.1, hall2]
                  rw [hl2] at hbudget
                  rw [apply_budget_delta_as_fold, if_pos (by rw [hl0]; rfl)] at hbudget
                  obtain hdb4 := Option.some.inj hbudget
                  constructor
                  · rw [← hdb4]
                    exact hacc3 db2 (by rw [hdb2])
                  · intro _
                    rw [← hdb4]
                    rw [(applyPostedBalanceEffects_rest db2 t3').2.1, hall2]
                · -- matched allocations, all in period: reverse then reapply cancels
                  have hnodupl := get_budget_allocations_nodup db uid t0.allocation_id
                    t0.category_id
                  have hsub : ∀ b ∈ get_budget_allocations_for_transaction db uid
                      t0.allocation_id t0.category_id, b ∈ db.allocations :=
                    fun b hb => (get_budget_allocations_sound db uid _ _ b hb).1
                  have hbud : ∀ b ∈ get_budget_allocations_for_transaction db uid
                      t0.allocation_id t0.category_id, b.allocation_type = .budget :=
                    fun b hb => (get_budget_allocations_sound db uid _ _ b hb).2.2
                  have hdne : ((-(budget_delta_for_transaction t0.transaction_type
                      t0.amount) : ℤ) == 0) = false := by
                    have : budget_delta_for_transaction t0.transaction_type t0.amount ≠ 0 := by
                      simpa using hdz
                    simp [this]
                  have hl0f : (get_budget_allocations_for_transaction db uid
                      t0.allocation_id t0.category_id).isEmpty = false := by
                    simpa using hl0
                  have hne1 : ((get_budget_allocations_for_transaction db uid
                      t0.allocation_id t0.category_id).isEmpty ||
                      ((-(budget_delta_for_transaction t0.transaction_type t0.amount) : ℤ)
                        == 0)) = false := by
                    rw [hdne, hl0f]
                    rfl
                  have hrows1 := apply_budget_delta_rows fuel
                    (reversePostedBalanceEffects db t0) _
                    (-(budget_delta_for_transaction t0.transaction_type t0.amount))
                    t0.transaction_date db2 hnodupl hne1 hdb2rev
                  rw [hRall] at hrows1
                  have hacc2 : db2.accounts = (reversePostedBalanceEffects db t0).accounts :=
                    (apply_budget_delta_shape fuel _ _ t0.transaction_date _ db2 hdb2rev).1
                  constructor
                  · rw [(apply_budget_delta_shape fuel _ _ t0.transaction_date _ db4
                      hbudget).1]
                    exact hacc3 db2 hacc2
                  intro hper
                  have hufields := rollBump_member_fields fuel
                    (-(budget_delta_for_transaction t0.transaction_type t0.amount))
                    t0.transaction_date db _ hnodup hsub hper
                  have hall3 : (applyPostedBalanceEffects db2 t3').allocations =
                      db.allocations.map (rollBump fuel
                        (-(budget_delta_for_transaction t0.transaction_type t0.amount))
                        t0.transaction_date
                        (get_budget_allocations_for_transaction db uid t0.allocation_id
                          t0.category_id)) := by
                    rw [(applyPostedBalanceEffects_rest db2 t3').2.1, hrows1]
                  have hl2 : get_budget_allocations_for_transaction
                      (applyPostedBalanceEffects db2 t3') uid t0.allocation_id
                      t0.category_id =
                      (get_budget_allocations_for_transaction db uid t0.allocation_id
                        t0.category_id).map (rollBump fuel
                          (-(budget_delta_for_transaction t0.transaction_type t0.amount))
                          t0.transaction_date
                          (get_budget_allocations_for_transaction db uid t0.allocation_id
                            t0.category_id)) := by
                    apply get_budget_allocations_map db _ uid _ _ _ hall3
                    intro r hrm
                    obtain ⟨k1, k2, k3, k4, -, -⟩ := hufields r hrm
                    exact ⟨k1, k2, k3, k4⟩
                  have hnodupl2 := get_budget_allocations_nodup
                    (applyPostedBalanceEffects db2 t3') uid t0.allocation_id t0.category_id
                  have hne2 : ((get_budget_allocations_for_transaction
                      (applyPostedBalanceEffects db2 t3') uid t0.allocation_id
                      t0.category_id).isEmpty ||
                      ((budget_delta_for_transaction t0.transaction_type t0.amount : ℤ)
                        == 0)) = false := by
                    rw [hl2]
                    have hdzf : (budget_delta_for_transaction t0.transaction_type
                        t0.amount == 0) = false := by simpa using hdz
                    rw [hdzf]
                    cases hc : get_budget_allocations_for_transaction db uid
                        t0.allocation_id t0.category_id with
                    | nil => rw [hc] at hl0f; exact absurd hl0f (by simp)
                    | cons y ys => rfl
                  have hrows2 := apply_budget_delta_rows fuel
                    (applyPostedBalanceEffects db2 t3') _
                    (budget_delta_for_transaction t0.transaction_type t0.amount)
                    t0.transaction_date db4 hnodupl2 hne2 hbudget
                  rw [hrows2, hl2, hall3, List.map_map]
                  have hpt : ∀ r ∈ db.allocations,
                      ((rollBump fuel
                        (budget_delta_for_transaction t0.transaction_type t0.amount)
                        t0.transaction_date
                        ((get_budget_allocations_for_transaction db uid t0.allocation_id
                          t0.category_id).map (rollBump fuel
                            (-(budget_delta_for_transaction t0.transaction_type
                              t0.amount)) t0.transaction_date
                            (get_budget_allocations_for_transaction db uid
                              t0.allocation_id t0.category_id)))) ∘
                        (rollBump fuel
                          (-(budget_delta_for_transaction t0.transaction_type t0.amount))
                          t0.transaction_date
                          (get_budget_allocations_for_transaction db uid t0.allocation_id
                            t0.category_id))) r = id r := by
                    intro r hrm
                    exact rollBump_roundtrip fuel
                      (budget_delta_for_transaction t0.transaction_type t0.amount)
                      t0.transaction_date db _ hnodup hnodupl hsub hbud hper r hrm
                  rw [List.map_congr_left hpt, List.map_id]

/-- C7 counterexample.  Updating the stored debit to its own values — with
the matched allocation's current period not containing the transaction's
date — restores every balance but rolls the allocation's period and
destroys its 150 of progress: the update is not a no-op on
`current_amount`. -/
theorem C7_identical_update_counterexample :
    allocC7.current_amount = 150 ∧
    update_transaction 6 dbC7 7 1 (identicalUpdate tC7) = some (dbC7x, .ok tC7) ∧
    dbC7x.accounts = dbC7.accounts ∧
    dbC7x.allocations ≠ dbC7.allocations :=
  ⟨rfl, by rfl, rfl, by decide⟩

theorem tC7_ok : TxnOK dbC7w tC7 := by
  refine ⟨⟨acctC7, by simp [dbC7w], by rfl⟩, ?_, ?_, ?_⟩
  · intro f hf
    simp [tC7] at hf
  · intro g hg
    simp [tC7] at hg
  · intro hty
    simp [tC7] at hty

theorem hperC7w : ∀ b ∈ get_budget_allocations_for_transaction dbC7w 7
    tC7.allocation_id tC7.category_id,
    ∃ s e, b.period_start = some s ∧ b.period_end = some e ∧
      s.key ≤ tC7.transaction_date.key ∧ tC7.transaction_date.key < e.key := by
  intro b hb
  have hl : get_budget_allocations_for_transaction dbC7w 7 tC7.allocation_id
      tC7.category_id = [allocC7in] := by rfl
  rw [hl] at hb
  have hba := List.mem_singleton.mp hb
  subst hba
  exact ⟨⟨2024, 5, 1, 0⟩, ⟨2024, 6, 1, 0⟩, rfl, rfl, by decide, by decide⟩

/-- Witness for C7: the same identical update on the in-period store is a
perfect no-op on both tables. -/
theorem C7_identical_update_witness :
    update_transaction 4 dbC7w 7 1 (identicalUpdate tC7) = some (dbC7w, .ok tC7) ∧
    dbC7w.accounts = dbC7w.accounts ∧ dbC7w.allocations = dbC7w.allocations :=
  ⟨by rfl,
   (C7_identical_update 4 dbC7w dbC7w 7 1 tC7 tC7 tC7_ok (by simp [dbC7w]) (by rfl)
     (by rfl)).1,
   (C7_identical_update 4 dbC7w dbC7w 7 1 tC7 tC7 tC7_ok (by simp [dbC7w]) (by rfl)
     (by rfl)).2 hperC7w⟩

end AFD